import Mathlib

/-!
# ASCII-Image-Converter: the image-to-ASCII pipeline of `src/ascii.cpp`

A shallow embedding of `trim_file`, `parse_file` and the resample / render part of
`Worker::work`, followed by theorems about them.

Conventions of the embedding.
* `std::string` is the list of its characters (`Str`); `std::vector<std::vector<int>>` is a
  list of rows (`Grid`).
* `int` is `Int`. The only `int` computations of the pipeline are counters, indices and
  samples bounded by the image size, so no wrap-around is modelled; `std::stoi` checks the
  `int` range explicitly and that check is modelled.
* A finite `float` / `double` value is the rational (`ℚ`) it denotes. The `float`
  operations of `trim_file` (lines 183-184) and of the resampling step (lines 336-355)
  round their exact result to the nearest binary32 value (`to_float`), which decides the
  destination size, the ratio adjustment of lines 339-344 and the source indices. The
  `double` progress fraction is kept exact. A division by zero yields a non-finite float;
  it is represented by `none`, and converting a non-finite float to `int` is undefined.
* A result `none` stands for an uncaught C++ exception or for undefined behaviour
  (out-of-bounds `operator[]`, conversion of a non-finite float to `int`).
-/

namespace AsciiArt

/-- A `std::string`, as the sequence of its characters. -/
abbrev Str := List Char

/-- A `std::vector<std::vector<int>>`: the rows of a luminance map. -/
abbrev Grid := List (List Int)

/-- Smallest value of a C++ `int` (32 bits). -/
def INT_MIN : Int := -2147483648

/-- Largest value of a C++ `int` (32 bits). -/
def INT_MAX : Int := 2147483647

/-- The array `ascii_sub[255]` of `ascii.cpp`, lines 68-80, in the layout of the source.
`Char.ofNat 96` is the backquote, `Char.ofNat 39` the single quote, `Char.ofNat 123` and
`Char.ofNat 125` the opening and closing brace. -/
def ascii_sub : List Char := [
  ' ', ' ', ' ', Char.ofNat 96, Char.ofNat 96, Char.ofNat 96, '.', '.', '.', Char.ofNat 39, Char.ofNat 39, Char.ofNat 39, ':', ':', ':', '_', '_', '_', ',', ',', ',',
  '^', '^', '^', '=', '=', '=', ';', ';', ';', '>', '>', '>', '<', '<', '<', '+', '+', '+', '!', '!',
  '!', 'r', 'r', 'r', 'c', 'c', 'c', '*', '*', '*', '/', '/', '/', 'z', 'z', 'z', '?', '?', '?', 's',
  's', 's', 'L', 'L', 'L', 'T', 'T', 'T', 'v', 'v', 'v', ')', ')', ')', 'J', 'J', 'J', '7', '7', '7',
  '|', '|', '|', 'F', 'F', 'F', 'i', 'i', 'i', Char.ofNat 123, Char.ofNat 123, Char.ofNat 123, 'C', 'C', 'C', Char.ofNat 125, Char.ofNat 125, 'f', 'f',
  'f', 'I', 'I', 'I', '3', '3', '3', '1', '1', '1', 't', 't', 't', 'l', 'l', 'l', 'u', 'u', 'u', '[',
  '[', '[', 'n', 'n', 'n', 'e', 'e', 'e', 'o', 'o', 'o', 'Z', 'Z', 'Z', '5', '5', '5', 'Y', 'Y', 'Y',
  'x', 'x', 'x', 'j', 'j', 'y', 'y', 'a', 'a', 'a', '2', '2', '2', 'E', 'E', 'E', 'w', 'w',
  'w', 'k', 'k', 'k', 'P', 'P', 'P', '6', '6', '6', 'h', 'h', 'h', '9', '9', '9', 'd', 'd', 'd', '4',
  '4', '4', 'V', 'V', 'V', 'O', 'O', 'O', 'G', 'G', 'G', 'b', 'b', 'b', 'U', 'U', 'U', 'A', 'A', 'A',
  'K', 'K', 'K', 'X', 'X', 'X', 'H', 'H', 'H', 'm', 'm', 'm', '8', '8', '8', 'R', 'R', 'R', 'D', 'D',
  'D', '#', '#', '#', '$', '$', '$', 'B', 'B', 'B', 'g', 'g', 'g', '0', '0', '0', 'M', 'M', 'M', 'N',
  'N', 'N', 'W', 'W', 'W', 'Q', 'Q', 'Q', '%', '%', '%', '&', '&', '&', '@', '@', '@']

/-- Collects a list of fallible results: `none` as soon as one element is `none`. -/
def allSome {α : Type} : List (Option α) → Option (List α)
  | [] => some []
  | none :: _ => none
  | some a :: rest => (allSome rest).map (fun l => a :: l)

/-! ## `std::stoi` -/

/-- The `isspace` of the C locale, used by `strtol` to skip leading white space. -/
def isspace (c : Char) : Bool :=
  c == ' ' || c == '\t' || c == '\n' || c == Char.ofNat 11 || c == Char.ofNat 12 || c == '\r'

/-- A decimal digit. -/
def isdigit (c : Char) : Bool := 48 ≤ c.toNat && c.toNat ≤ 57

/-- Value of a run of decimal digits, most significant first. -/
def digits_value (ds : Str) : Int :=
  ds.foldl (fun acc c => 10 * acc + ((c.toNat : Int) - 48)) 0

/-- The function `std::stoi(str)`: skip leading white space, read an optional sign and the
longest run of decimal digits, ignore what follows. `none` is `std::invalid_argument` (no
digit) or `std::out_of_range` (the value is not an `int`). -/
def stoi (str : Str) : Option Int :=
  let s := str.dropWhile isspace
  let neg : Bool := s.head? == some '-'
  let body : Str := if s.head? = some '-' ∨ s.head? = some '+' then s.tail else s
  let ds := body.takeWhile isdigit
  if ds = [] then none
  else
    let v : Int := if neg then - digits_value ds else digits_value ds
    if INT_MIN ≤ v ∧ v ≤ INT_MAX then some v else none

/-! ## `trim_file` -/

/-- The call `image.find(c)` stored in an `int`: the first index of `c`, or `-1` for `npos`. -/
def find (image : Str) (c : Char) : Int :=
  if c ∈ image then (image.indexOf c : Int) else -1

/-- The call `image.substr(pos, count)` with `pos ≤ size`; a negative `int` count converts
to a huge `size_t` and takes the rest of the string. -/
def substr (image : Str) (pos : Nat) (count : Int) : Str :=
  if count < 0 then image.drop pos else (image.drop pos).take count.toNat

/-- The call `image.erase(0, count)`; a negative `int` count converts to a huge `size_t`. -/
def erase (image : Str) (count : Int) : Str :=
  if count < 0 then [] else image.drop count.toNat

/-! ## Single-precision arithmetic -/

/-- Rounding to the nearest integer, a tie going to the even one. -/
def round_even (x : ℚ) : Int :=
  let f : Int := Int.floor x
  if x - (f : ℚ) < 1 / 2 then f
  else if 1 / 2 < x - (f : ℚ) then f + 1
  else if f % 2 = 0 then f else f + 1

/-- The unit in the last place of the binary32 values around a positive `x`: binary32
keeps 24 significant bits, so for `x` in `[2^e, 2^(e+1))` the values are the multiples of
`2^(e-23)`. -/
def ulp (x : ℚ) : ℚ := (2 : ℚ) ^ (Int.log 2 x - 23)

/-- The binary32 value nearest to a positive `x`, a tie going to the even significand. -/
def round_pos (x : ℚ) : ℚ := (round_even (x / ulp x) : ℚ) * ulp x

/-- The `float` that an operation with the exact result `x` yields (IEEE 754 binary32,
round to nearest, ties to even); also the conversion of an `int` to `float`. The exponent
range of binary32 is not modelled: the values rounded in `trim_file` and `Worker::work`
are quotients and products of `int`s and of the scale factor, of magnitudes at which
binary32 neither overflows nor has subnormal numbers. -/
def to_float (x : ℚ) : ℚ :=
  if x = 0 then 0 else if 0 < x then round_pos x else -round_pos (-x)

/-- Conversion of a float to `int`: truncation toward zero, undefined outside `int`. -/
def float_to_int (q : ℚ) : Option Int :=
  let t : Int := if 0 ≤ q then Int.floor q else Int.ceil q
  if INT_MIN ≤ t ∧ t ≤ INT_MAX then some t else none

/-- The exact quotient `n / d` of a `float` division, which the caller rounds with
`to_float`; `none` is the non-finite result of a division by zero. -/
def fdiv (n d : ℚ) : Option ℚ :=
  if d = 0 then none else some (n / d)

/-- What `trim_file` returns and writes through its reference parameters. -/
structure Header where
  /-- the returned string: the image without its header -/
  image : Str
  /-- the reference parameter `width` -/
  width : Int
  /-- the reference parameter `height` -/
  height : Int
  /-- the reference parameter `destw` -/
  destw : Int
  /-- the reference parameter `desth` -/
  desth : Int
deriving DecidableEq

/-- Lines 175-180 of `trim_file`, on the image without its magic number: the values of
`width` and `height` afterwards. `width` and `height` are the values on entry; they are
kept when the image holds no space. -/
def read_dims (image : Str) (width height : Int) : Option (Int × Int) :=
  let space := find image ' '
  let newline := find image '\n'
  if space ≠ -1 then
    (stoi (substr image 0 space)).bind fun w =>
      (stoi (substr image (space + 1).toNat newline)).map fun h => (w, h)
  else some (width, height)

/-- Lines 183-184 of `trim_file`: `dest = size / scale_factor`, where `scale_factor` is a
`float`: the size is converted to `float`, the quotient is rounded to `float` and then
converted to `int`. -/
def dest_size (size : Int) (scale_factor : ℚ) : Option Int :=
  (fdiv (to_float (size : ℚ)) scale_factor).bind fun q => float_to_int (to_float q)

/-- The function `trim_file` (`ascii.cpp`, lines 172-187). `width` and `height` are the
values the reference parameters hold on entry (indeterminate in `Worker::work`). -/
def trim_file (image : Str) (width height : Int) (scale_factor : ℚ) : Option Header :=
  let image := erase image 3
  (read_dims image width height).bind fun wh =>
  let newline := find image '\n'
  let image := erase image (newline + 5)
  (dest_size wh.1 scale_factor).bind fun destw =>
  (dest_size wh.2 scale_factor).map fun desth =>
    { image := image, width := wh.1, height := wh.2, destw := destw, desth := desth }

/-! ## `parse_file` -/

/-- The tokens read by `while (std::getline(iss, token, delim))`: `cur` holds the characters
extracted so far for the current token. At the end of the input a token is produced only
if at least one character was extracted; a delimiter ends a token, empty or not. -/
def getline_from (delim : Char) : Str → Str → List Str
  | cur, [] => if cur = [] then [] else [cur]
  | cur, c :: rest =>
    if c = delim then cur :: getline_from delim [] rest
    else getline_from delim (cur ++ [c]) rest

/-- All tokens that successive `std::getline(iss, token, delim)` calls extract. -/
def getlines (image : Str) (delim : Char) : List Str := getline_from delim [] image

/-- The call `std::clamp(num, lo, hi)`. -/
def clamp (num lo hi : Int) : Int :=
  if num < lo then lo else if hi < num then hi else num

/-- The statement `lum_map[i].push_back(num)`; `none` when row `i` does not exist. -/
def push_at : Grid → Nat → Int → Option Grid
  | [], _, _ => none
  | row :: rest, 0, num => some ((row ++ [num]) :: rest)
  | row :: rest, i + 1, num => (push_at rest i num).map (fun g => row :: g)

/-- The variables of `parse_file` that its loop changes, with the shared progress state. -/
structure ParseState where
  /-- the luminance map built so far -/
  lum_map : Grid
  /-- index of the row being filled -/
  heightcount : Nat
  /-- number of tokens counted in the current row -/
  widthcount : Int
  /-- the shared progress fraction -/
  donefrac : ℚ
  /-- the shared flag `stopped` -/
  stopped : Bool
  /-- number of `gui->notify()` calls made -/
  notified : Nat

/-- Outcome of one iteration of the `while` loop of `parse_file`. -/
inductive Iter where
  /-- the iteration ended normally (also through `continue`) -/
  | next (st : ParseState)
  /-- the iteration left the loop through `break` -/
  | brk (st : ParseState)

/-- The variables after an iteration, however it ended. -/
def Iter.state : Iter → ParseState
  | Iter.next st => st
  | Iter.brk st => st

/-- The rest of the loop body, from `widthcount++` on (lines 236-242). -/
def store_token (st : ParseState) (token : Str) : Option ParseState :=
  let st := { st with widthcount := st.widthcount + 1 }
  if token = ['\n'] ∨ token = [' '] then some st
  else
    (stoi token).bind fun num =>
      (push_at st.lum_map st.heightcount (clamp num 0 254)).map fun g =>
        { st with lum_map := g }

/-- One iteration of the loop of `parse_file` (lines 221-242). `will_stop k` is the value
of the shared flag `will_stop` read under the lock when row `k` is started. -/
def parse_token (width : Int) (progress_frac : ℚ) (will_stop : Nat → Bool)
    (st : ParseState) (token : Str) : Option Iter :=
  if st.widthcount = width then
    let st := { st with widthcount := 0, lum_map := st.lum_map ++ [[]],
                        heightcount := st.heightcount + 1 }
    if will_stop st.heightcount then some (Iter.brk { st with stopped := true })
    else
      let st := { st with donefrac := st.donefrac + progress_frac, notified := st.notified + 1 }
      (store_token st token).map Iter.next
  else (store_token st token).map Iter.next

/-- The `while` loop of `parse_file` over the tokens still to be read. -/
def parse_loop (width : Int) (progress_frac : ℚ) (will_stop : Nat → Bool) :
    ParseState → List Str → Option ParseState
  | st, [] => some st
  | st, token :: rest =>
    match parse_token width progress_frac will_stop st token with
    | none => none
    | some (Iter.brk st1) => some st1
    | some (Iter.next st1) => parse_loop width progress_frac will_stop st1 rest

/-- The function `parse_file` (`ascii.cpp`, lines 210-246). The parameter `height` is not
used by the source either. The result carries the returned `lum_map` together with the
final `donefrac`, `stopped` and the number of notifications. -/
def parse_file (image : Str) (width _height : Int) (donefrac progress_frac : ℚ)
    (will_stop : Nat → Bool) (stopped : Bool) : Option ParseState :=
  parse_loop width progress_frac will_stop
    { lum_map := [[]], heightcount := 0, widthcount := 0, donefrac := donefrac,
      stopped := stopped, notified := 0 }
    (getlines image ' ')

/-! ## The resampling step of `Worker::work` -/

/-- The read `lum_map[y][x]` with `int` indices; `none` when it is out of bounds. -/
def at2 (lum_map : Grid) (y x : Int) : Option Int :=
  if y < 0 ∨ x < 0 then none
  else (lum_map.get? y.toNat).bind fun row => row.get? x.toNat

/-- The ratio `(float)(n)/(d)` of lines 336-337: both operands are converted to `float`
and the quotient is rounded; `none` when `d = 0` (non-finite). -/
def ratio (n d : Int) : Option ℚ := (fdiv (to_float (n : ℚ)) (to_float (d : ℚ))).map to_float

/-- The adjustment of lines 339-344: `if (r * d > n) r = (float)(n - 1)/d`, where `n` is
`width-1` (or `height-1`) and `d` is `destw-1` (or `desth-1`). The product is a `float`
product and `n` is converted to `float` for the comparison. A non-finite `r` arises only
for `d = 0`; `r * 0` is then NaN, the comparison is false and `r` is kept. -/
def adjust (r : Option ℚ) (n d : Int) : Option ℚ :=
  match r with
  | none => none
  | some q =>
    if to_float (q * to_float (d : ℚ)) > to_float (n : ℚ) then ratio (n - 1) d else some q

/-- The ratio `xratio` (or `yratio`) in force in the loops, after lines 336-344. -/
def ratio_of (size dest : Int) : Option ℚ :=
  adjust (ratio (size - 1) (dest - 1)) (size - 1) (dest - 1)

/-- The `float` product `w*xratio` (or `h*yratio`) of lines 348-355: the index is
converted to `float` and the product is rounded. -/
def scaled_index (r : ℚ) (i : Int) : ℚ := to_float (to_float (i : ℚ) * r)

/-- The four source samples `v1`, `v2`, `v3`, `v4` read at lines 348-360 for the
destination cell `(h, w)`. -/
def corners (lum_map : Grid) (xratio yratio : ℚ) (h w : Int) :
    Option (Int × Int × Int × Int) :=
  let xlow : Int := Int.floor (scaled_index xratio w)
  let xhigh : Int := Int.ceil (scaled_index xratio w)
  let ylow : Int := Int.floor (scaled_index yratio h)
  let yhigh : Int := Int.ceil (scaled_index yratio h)
  (at2 lum_map ylow xlow).bind fun v1 =>
  (at2 lum_map ylow xhigh).bind fun v2 =>
  (at2 lum_map yhigh xlow).bind fun v3 =>
  (at2 lum_map yhigh xhigh).map fun v4 => (v1, v2, v3, v4)

/-- The weight `xweight = (xratio * w) - xlow` of line 354 (and `yweight` of line 355):
`xlow` is converted back to `float`, the difference is a `float` difference, and the
variable is declared `int`, so the difference is truncated when assigned. -/
def weight (r : ℚ) (i : Int) : Option Int :=
  float_to_int (to_float (scaled_index r i -
    to_float ((Int.floor (scaled_index r i) : Int) : ℚ)))

/-- The sum of products of lines 362-365, in `int` arithmetic. -/
def blend (v : Int × Int × Int × Int) (xweight yweight : Int) : Int :=
  v.1 * (1 - xweight) * (1 - yweight) +
  v.2.1 * xweight * (1 - yweight) +
  v.2.2.1 * (1 - xweight) * yweight +
  v.2.2.2 * xweight * yweight

/-- The body of the inner loop (lines 348-365): the sample stored in
`scaled_lum_map[h][w]`. A non-finite ratio makes the conversions to `int` undefined. -/
def pixel (lum_map : Grid) (xratio yratio : Option ℚ) (h w : Int) : Option Int :=
  xratio.bind fun xr =>
  yratio.bind fun yr =>
  (weight xr w).bind fun xweight =>
  (weight yr h).bind fun yweight =>
  (corners lum_map xr yr h w).map fun v => blend v xweight yweight

/-- The value of `scaled_lum_map` after lines 323-370 of `Worker::work`. A negative size
makes the `std::vector` constructor of line 323 throw. -/
def scaled_lum_map (lum_map : Grid) (width height destw desth : Int) (scale_factor : ℚ) :
    Option Grid :=
  if destw < 0 ∨ desth < 0 then none
  else if scale_factor = 1 then some lum_map
  else
    let xratio := ratio_of width destw
    let yratio := ratio_of height desth
    allSome ((List.range desth.toNat).map fun (h : Nat) =>
      allSome ((List.range destw.toNat).map fun (w : Nat) =>
        pixel lum_map xratio yratio (h : Int) (w : Int)))

/-! ## Rendering -/

/-- The `Settings` struct of `settings.hpp`, with its default member initialisers. -/
structure Settings where
  /-- whether the output text is limited to the screen dimensions -/
  size_limit : Bool := true
  /-- whether the ramp is used unreversed -/
  dark_mode : Bool := false
  /-- the maximum scale factor -/
  max_scale_factor : ℚ := 10

/-- The local array `ascii` of `Worker::work` (lines 372-378): a copy of `ascii_sub`,
reversed when `dark_mode` is off. -/
def ascii (dark_mode : Bool) : List Char :=
  if !dark_mode then ascii_sub.reverse else ascii_sub

/-- The read `ascii[col]`; `none` when it is out of bounds. -/
def glyph (ramp : List Char) (col : Int) : Option Char :=
  if col < 0 then none else ramp.get? col.toNat

/-- What the inner loop and `oss << "\n"` write for one row (lines 383-386). -/
def render_row (ramp : List Char) (row : List Int) : Option Str :=
  (allSome (row.map (glyph ramp))).map fun cs => cs ++ ['\n']

/-- The contents of `oss` after lines 380-388: every row, then `std::endl`. -/
def render (dark_mode : Bool) (scaled : Grid) : Option Str :=
  (allSome (scaled.map (render_row (ascii dark_mode)))).map fun rows => rows.flatten ++ ['\n']

/-! ## `Worker::work` -/

/-- The data members of `Worker` (`worker.hpp`) other than the mutex. -/
structure Worker where
  /-- set by `Worker::stop` to ask `work` to stop -/
  will_stop : Bool
  /-- whether `work` has stopped -/
  stopped : Bool
  /-- the fraction of the progress bar that is filled -/
  donefrac : ℚ
  /-- the text that `work` returns -/
  message : Str

/-- What `Worker::work` takes from outside the program. -/
structure World where
  /-- the text that `get_pgm` reads from `out.pgm` -/
  pgm : Str
  /-- indeterminate initial value of the local `width` -/
  width0 : Int
  /-- indeterminate initial value of the local `height` -/
  height0 : Int
  /-- whether another thread has called `Worker::stop` by the time row `k` is started -/
  stop_by : Nat → Bool

/-- The function `get_pgm` (lines 132-154): every line of the file followed by a newline. -/
def get_pgm (file : Str) : Str :=
  ((getlines file '\n').map fun line => line ++ ['\n']).flatten

/-- The first block of `Worker::work` (lines 263-268): `stopped`, `donefrac` and `message`
are set; `will_stop` is not assigned. -/
def reset (wk : Worker) : Worker :=
  { wk with stopped := false, donefrac := 0, message := [] }

/-- The message of lines 272-273. -/
def msg_no_input : Str := "-Please select an image".toList

/-- The message of line 294. -/
def msg_too_large : Str :=
  "-Image is too large to be displayed on the screen\nTry increasing the scale factor.".toList

/-- The message of line 303. -/
def msg_invalid_scale : Str := "-Invalid scale factor.".toList

/-- The function `Worker::work` (lines 262-397): the final `Worker` and the number of
`gui->notify()` calls (the progress-bar pulses of `get_pgm` are not counted). -/
def work (wk : Worker) (world : World) (filename : Str) (scale_factor : ℚ)
    (swidth sheight : Int) (s : Settings) : Option (Worker × Nat) :=
  let wk := reset wk
  if filename = [] then
    some ({ wk with message := msg_no_input, stopped := true }, 1)
  else
    (trim_file (get_pgm world.pgm) world.width0 world.height0 scale_factor).bind fun hd =>
    if (hd.destw > swidth - 50 ∨ hd.desth > sheight - 280) ∧ s.size_limit = true then
      some ({ wk with message := msg_too_large, stopped := true }, 1)
    else if hd.destw ≤ 0 ∨ hd.desth ≤ 0 then
      some ({ wk with message := msg_invalid_scale, stopped := true }, 1)
    else if wk.stopped = true then some (wk, 0)
    else
      let progress_frac : ℚ := 1 / (hd.height : ℚ)
      (parse_file hd.image hd.width hd.height wk.donefrac progress_frac
          (fun k => wk.will_stop || world.stop_by k) wk.stopped).bind fun ps =>
      (scaled_lum_map ps.lum_map hd.width hd.height hd.destw hd.desth scale_factor).bind
        fun scaled =>
      (render s.dark_mode scaled).map fun text =>
        ({ will_stop := false, stopped := true, donefrac := ps.donefrac, message := text },
          ps.notified + 1)

/-- The four corner samples as the specification selects them: source indices are the
floor and the ceiling of `w * xratio` and `h * yratio` in exact rational arithmetic. -/
def spec_corners (lum_map : Grid) (xratio yratio : ℚ) (h w : Int) :
    Option (Int × Int × Int × Int) :=
  let xlow : Int := Int.floor ((w : ℚ) * xratio)
  let xhigh : Int := Int.ceil ((w : ℚ) * xratio)
  let ylow : Int := Int.floor ((h : ℚ) * yratio)
  let yhigh : Int := Int.ceil ((h : ℚ) * yratio)
  (at2 lum_map ylow xlow).bind fun v1 =>
  (at2 lum_map ylow xhigh).bind fun v2 =>
  (at2 lum_map yhigh xlow).bind fun v3 =>
  (at2 lum_map yhigh xhigh).map fun v4 => (v1, v2, v3, v4)

/-- The sample the specification describes for the destination cell `(h, w)`: the bilinear
sum of the four corners weighted by the fractional parts of `w * xratio` and `h * yratio`,
truncated to an integer (exact rational arithmetic). -/
def bilinear_spec (lum_map : Grid) (width height destw desth : Int) (h w : Int) :
    Option Int :=
  let xratio : ℚ := ((width : ℚ) - 1) / ((destw : ℚ) - 1)
  let yratio : ℚ := ((height : ℚ) - 1) / ((desth : ℚ) - 1)
  let xw : ℚ := Int.fract ((w : ℚ) * xratio)
  let yw : ℚ := Int.fract ((h : ℚ) * yratio)
  (spec_corners lum_map xratio yratio h w).bind fun v =>
    float_to_int ((v.1 : ℚ) * (1 - xw) * (1 - yw) + (v.2.1 : ℚ) * xw * (1 - yw) +
      (v.2.2.1 : ℚ) * (1 - xw) * yw + (v.2.2.2 : ℚ) * xw * yw)

/-- The reads of `spec_corners` with the indices in integer arithmetic, for the ratios
`nx / dx` and `ny / dy` with positive denominators: floor is the integer quotient,
ceiling its mirror image. Used to evaluate `spec_corners` on concrete inputs. -/
def corners_int (lum_map : Grid) (nx dx ny dy h w : Int) : Option (Int × Int × Int × Int) :=
  let xlow : Int := (w * nx) / dx
  let xhigh : Int := -((-(w * nx)) / dx)
  let ylow : Int := (h * ny) / dy
  let yhigh : Int := -((-(h * ny)) / dy)
  (at2 lum_map ylow xlow).bind fun v1 =>
  (at2 lum_map ylow xhigh).bind fun v2 =>
  (at2 lum_map yhigh xlow).bind fun v3 =>
  (at2 lum_map yhigh xhigh).map fun v4 => (v1, v2, v3, v4)

/-! ## Vocabulary of the statements about `parse_file` -/

/-- A decimal integer token: an optional minus sign followed by at least one digit. -/
def is_decimal (t : Str) : Bool :=
  match t with
  | [] => false
  | c :: r => if c = '-' then !r.isEmpty && r.all isdigit else (c :: r).all isdigit

/-- The integer that a decimal integer token denotes. -/
def decimal_value (t : Str) : Int :=
  match t with
  | [] => 0
  | c :: r => if c = '-' then - digits_value r else digits_value (c :: r)

/-- Tokens joined by single spaces. -/
def join_spaces : List Str → Str
  | [] => []
  | [t] => t
  | t :: t2 :: ts => t ++ ' ' :: join_spaces (t2 :: ts)

/-- A token with `pre` newlines put before it and `post` newlines put after it. -/
def with_newlines (pre post : Nat) (t : Str) : Str :=
  List.replicate pre '\n' ++ t ++ List.replicate post '\n'

/-- The values `vals` split row-major into consecutive chunks of `W`: row `i` holds the
values of index `i * W` to `i * W + W - 1`; the last row may be shorter. -/
def chunks (W : Nat) (vals : List Int) : Grid :=
  (List.range ((vals.length + W - 1) / W)).map fun (i : Nat) => (vals.drop (i * W)).take W

/-! ## Vocabulary of the statements about the ramp -/

/-- The maximal runs of equal consecutive characters of a list, each with its length. -/
def run_lengths : List Char → List (Char × Nat)
  | [] => []
  | c :: rest =>
    match run_lengths rest with
    | [] => [(c, 1)]
    | (d, n) :: t => if c = d then (d, n + 1) :: t else (c, 1) :: (d, n) :: t

/-! ## `sanitizeInput` and `create_pgm` -/

/-- The character class `[A-Za-z0-9_.]` of the pattern of line 94. -/
def in_class (c : Char) : Bool :=
  (65 ≤ c.toNat && c.toNat ≤ 90) || (97 ≤ c.toNat && c.toNat ≤ 122) ||
  (48 ≤ c.toNat && c.toNat ≤ 57) || c == '_' || c == '.'

/-- Whether `[A-Za-z0-9_.]+` matches at the start of `s`: `s` starts with a character of
the class. -/
def class_run_at (s : Str) : Bool :=
  match s with
  | [] => false
  | c :: _ => in_class c

/-- Whether the pattern `(?![A-Za-z0-9_.]+)(;)` of line 94 matches at the start of `s`:
the negative lookahead holds (no run of class characters starts there) and the next
character is a semicolon. A match is one character long. -/
def pattern_at (s : Str) : Bool :=
  !class_run_at s && s.head? == some ';'

/-- The call `std::regex_replace(input, pattern, "")` of line 96: from left to right every
match is removed and every other character is copied. -/
def remove_pattern : Str → Str
  | [] => []
  | c :: rest => if pattern_at (c :: rest) then remove_pattern rest else c :: remove_pattern rest

/-- The call `std::regex_replace(input, space, "\\ ")` of line 100: every space becomes a
backslash (`Char.ofNat 92`) followed by a space. -/
def escape_spaces : Str → Str
  | [] => []
  | c :: rest =>
    if c = ' ' then Char.ofNat 92 :: ' ' :: escape_spaces rest else c :: escape_spaces rest

/-- The function `sanitizeInput` (lines 93-103). -/
def sanitizeInput (input : Str) : Str :=
  escape_spaces (remove_pattern input)

/-- The command line that `create_pgm` (lines 116-122) passes to `std::system`. -/
def create_pgm_command (filename : Str) : Str :=
  "magick ".toList ++ sanitizeInput filename ++ " -compress none out.pgm".toList

/-! ## Lemmas on single-precision rounding -/

theorem round_even_intCast (k : Int) : round_even (k : ℚ) = k := by
  unfold round_even
  simp

theorem round_even_bounds (x : ℚ) :
    x - 1 / 2 ≤ (round_even x : ℚ) ∧ (round_even x : ℚ) ≤ x + 1 / 2 := by
  have h1 := Int.floor_le x
  have h2 := Int.lt_floor_add_one x
  unfold round_even
  simp only
  split_ifs with a b c
  · constructor <;> linarith
  · push_cast
    constructor <;> linarith
  · constructor <;> linarith
  · push_cast
    constructor <;> linarith

theorem round_even_eq (x : ℚ) (k : Int) (h1 : (k : ℚ) - 1 / 2 < x) (h2 : x < (k : ℚ) + 1 / 2) :
    round_even x = k := by
  obtain ⟨b1, b2⟩ := round_even_bounds x
  have l1 : ((round_even x : Int) : ℚ) < ((k + 1 : Int) : ℚ) := by push_cast; linarith
  have l2 : ((k - 1 : Int) : ℚ) < ((round_even x : Int) : ℚ) := by push_cast; linarith
  have l1' := Int.cast_lt.mp l1
  have l2' := Int.cast_lt.mp l2
  omega

theorem round_even_mono (x y : ℚ) (h : x ≤ y) : round_even x ≤ round_even y := by
  have hf : Int.floor x ≤ Int.floor y := Int.floor_mono h
  have hx1 := Int.floor_le x
  have hx2 := Int.lt_floor_add_one x
  have hy1 := Int.floor_le y
  have hy2 := Int.lt_floor_add_one y
  rcases lt_or_eq_of_le hf with hlt | heq
  · have ux : round_even x ≤ Int.floor x + 1 := by
      unfold round_even
      simp only
      split_ifs <;> omega
    have ly : Int.floor y ≤ round_even y := by
      unfold round_even
      simp only
      split_ifs <;> omega
    omega
  · unfold round_even
    simp only
    rw [← heq]
    rw [← heq] at hy1 hy2
    split_ifs <;> first | omega | (exfalso; linarith)

theorem two_zpow_pos (k : Int) : (0 : ℚ) < (2 : ℚ) ^ k := zpow_pos (by norm_num) k

theorem ulp_pos (x : ℚ) : 0 < ulp x := two_zpow_pos _

theorem log_bounds (x : ℚ) (hx : 0 < x) :
    (2 : ℚ) ^ (Int.log 2 x) ≤ x ∧ x < (2 : ℚ) ^ (Int.log 2 x + 1) := by
  have h1 := Int.zpow_log_le_self (by norm_num : 1 < 2) hx
  have h2 := Int.lt_zpow_succ_log_self (by norm_num : 1 < 2) x
  simp only [Nat.cast_ofNat] at h1 h2
  exact ⟨h1, h2⟩

theorem log_eq_of_bounds (x : ℚ) (e : Int) (h1 : (2 : ℚ) ^ e ≤ x) (h2 : x < (2 : ℚ) ^ (e + 1)) :
    Int.log 2 x = e := by
  have hx : 0 < x := lt_of_lt_of_le (two_zpow_pos e) h1
  have a : e ≤ Int.log 2 x := by
    rw [← Int.zpow_le_iff_le_log (by norm_num : 1 < 2) hx]
    simpa using h1
  have b : Int.log 2 x < e + 1 := by
    rw [← Int.lt_zpow_iff_log_lt (by norm_num : 1 < 2) hx]
    simpa using h2
  omega

theorem two_zpow_add (a b : Int) : (2 : ℚ) ^ (a + b) = (2 : ℚ) ^ a * (2 : ℚ) ^ b :=
  zpow_add₀ (by norm_num) a b

theorem two_zpow_mono (a b : Int) (h : a ≤ b) : (2 : ℚ) ^ a ≤ (2 : ℚ) ^ b :=
  zpow_le_zpow_right₀ (by norm_num) h

/-- The scaled value lies between `2^23` and `2^24`. -/
theorem scaled_bounds (x : ℚ) (hx : 0 < x) :
    (2 : ℚ) ^ (23 : Int) ≤ x / ulp x ∧ x / ulp x < (2 : ℚ) ^ (24 : Int) := by
  obtain ⟨h1, h2⟩ := log_bounds x hx
  have hs := ulp_pos x
  have e1 : (2 : ℚ) ^ (23 : Int) * ulp x = (2 : ℚ) ^ (Int.log 2 x) := by
    unfold ulp
    rw [← two_zpow_add]
    congr 1
    ring
  have e2 : (2 : ℚ) ^ (24 : Int) * ulp x = (2 : ℚ) ^ (Int.log 2 x + 1) := by
    unfold ulp
    rw [← two_zpow_add]
    congr 1
    ring
  constructor
  · rw [le_div_iff₀ hs, e1]
    exact h1
  · rw [div_lt_iff₀ hs, e2]
    exact h2

theorem mantissa_bounds (x : ℚ) (hx : 0 < x) :
    (2 : Int) ^ 23 ≤ round_even (x / ulp x) ∧ round_even (x / ulp x) ≤ (2 : Int) ^ 24 := by
  obtain ⟨h1, h2⟩ := scaled_bounds x hx
  constructor
  · have := round_even_mono (((2 : Int) ^ 23 : Int) : ℚ) (x / ulp x) (by
      push_cast
      exact_mod_cast h1)
    rwa [round_even_intCast] at this
  · have := round_even_mono (x / ulp x) (((2 : Int) ^ 24 : Int) : ℚ) (by
      push_cast
      exact_mod_cast h2.le)
    rwa [round_even_intCast] at this

theorem round_pos_bounds (x : ℚ) (hx : 0 < x) :
    (2 : ℚ) ^ (Int.log 2 x) ≤ round_pos x ∧ round_pos x ≤ (2 : ℚ) ^ (Int.log 2 x + 1) := by
  obtain ⟨h1, h2⟩ := mantissa_bounds x hx
  have hs := ulp_pos x
  have e1 : (2 : ℚ) ^ (23 : Int) * ulp x = (2 : ℚ) ^ (Int.log 2 x) := by
    unfold ulp
    rw [← two_zpow_add]
    congr 1
    ring
  have e2 : (2 : ℚ) ^ (24 : Int) * ulp x = (2 : ℚ) ^ (Int.log 2 x + 1) := by
    unfold ulp
    rw [← two_zpow_add]
    congr 1
    ring
  have c1 : ((2 : ℚ) ^ (23 : Int)) ≤ (round_even (x / ulp x) : ℚ) := by
    exact_mod_cast h1
  have c2 : (round_even (x / ulp x) : ℚ) ≤ ((2 : ℚ) ^ (24 : Int)) := by
    exact_mod_cast h2
  unfold round_pos
  constructor
  · rw [← e1]
    exact mul_le_mul_of_nonneg_right c1 hs.le
  · rw [← e2]
    exact mul_le_mul_of_nonneg_right c2 hs.le

theorem round_pos_pos (x : ℚ) (hx : 0 < x) : 0 < round_pos x :=
  lt_of_lt_of_le (two_zpow_pos _) (round_pos_bounds x hx).1

theorem round_pos_mono (x y : ℚ) (hx : 0 < x) (h : x ≤ y) : round_pos x ≤ round_pos y := by
  have hy : 0 < y := lt_of_lt_of_le hx h
  have hlog : Int.log 2 x ≤ Int.log 2 y := Int.log_mono_right hx h
  rcases lt_or_eq_of_le hlog with hlt | heq
  · calc round_pos x ≤ (2 : ℚ) ^ (Int.log 2 x + 1) := (round_pos_bounds x hx).2
      _ ≤ (2 : ℚ) ^ (Int.log 2 y) := two_zpow_mono _ _ (by omega)
      _ ≤ round_pos y := (round_pos_bounds y hy).1
  · have hu : ulp x = ulp y := by
      unfold ulp
      rw [heq]
    unfold round_pos
    rw [hu]
    apply mul_le_mul_of_nonneg_right _ (ulp_pos y).le
    have := round_even_mono (x / ulp y) (y / ulp y)
      (div_le_div_of_nonneg_right h (ulp_pos y).le)
    exact_mod_cast this

theorem round_pos_le (x : ℚ) (hx : 0 < x) : round_pos x ≤ x * (1 + 1 / 2 ^ 24) := by
  obtain ⟨-, b2⟩ := round_even_bounds (x / ulp x)
  obtain ⟨l1, -⟩ := scaled_bounds x hx
  have hs := ulp_pos x
  have hxs : x / ulp x * ulp x = x := div_mul_cancel₀ x hs.ne'
  have hsx : ulp x ≤ x / 2 ^ 23 := by
    have : (2 : ℚ) ^ (23 : Int) * ulp x ≤ x := by
      have := mul_le_mul_of_nonneg_right l1 hs.le
      rwa [hxs] at this
    have e : (2 : ℚ) ^ (23 : Int) = 2 ^ 23 := by norm_num
    rw [e] at this
    rw [le_div_iff₀ (by norm_num)]
    linarith
  unfold round_pos
  calc (round_even (x / ulp x) : ℚ) * ulp x ≤ (x / ulp x + 1 / 2) * ulp x :=
        mul_le_mul_of_nonneg_right b2 hs.le
    _ = x + ulp x / 2 := by rw [add_mul, hxs]; ring
    _ ≤ x + (x / 2 ^ 23) / 2 := by linarith
    _ = x * (1 + 1 / 2 ^ 24) := by ring

/-- A value with a mantissa of at most 24 bits is kept. -/
theorem round_pos_exact (m : Nat) (k : Int) (hm0 : 0 < m) (hm : m < 2 ^ 24) :
    round_pos ((m : ℚ) * (2 : ℚ) ^ k) = (m : ℚ) * (2 : ℚ) ^ k := by
  have hmq : (0 : ℚ) < (m : ℚ) := by exact_mod_cast hm0
  have hx : (0 : ℚ) < (m : ℚ) * (2 : ℚ) ^ k := mul_pos hmq (two_zpow_pos k)
  have hlt : (m : ℚ) * (2 : ℚ) ^ k < (2 : ℚ) ^ (24 + k) := by
    rw [two_zpow_add]
    apply mul_lt_mul_of_pos_right _ (two_zpow_pos k)
    have e : (2 : ℚ) ^ (24 : Int) = 2 ^ 24 := by norm_num
    rw [e]
    exact_mod_cast hm
  have hlog : Int.log 2 ((m : ℚ) * (2 : ℚ) ^ k) < 24 + k := by
    rw [← Int.lt_zpow_iff_log_lt (by norm_num : 1 < 2) hx]
    simpa using hlt
  obtain ⟨j, hj⟩ : ∃ j : Nat, (j : Int) = k - (Int.log 2 ((m : ℚ) * (2 : ℚ) ^ k) - 23) :=
    ⟨(k - (Int.log 2 ((m : ℚ) * (2 : ℚ) ^ k) - 23)).toNat, Int.toNat_of_nonneg (by omega)⟩
  have hk : k = (j : Int) + (Int.log 2 ((m : ℚ) * (2 : ℚ) ^ k) - 23) := by omega
  have hu : ulp ((m : ℚ) * (2 : ℚ) ^ k) = (2 : ℚ) ^ (Int.log 2 ((m : ℚ) * (2 : ℚ) ^ k) - 23) :=
    rfl
  have hsplit : (2 : ℚ) ^ k = (2 : ℚ) ^ j * ulp ((m : ℚ) * (2 : ℚ) ^ k) := by
    rw [hu]
    nth_rewrite 1 [hk]
    rw [two_zpow_add, zpow_natCast]
  have hdiv : (m : ℚ) * (2 : ℚ) ^ k / ulp ((m : ℚ) * (2 : ℚ) ^ k)
      = (((m : Int) * 2 ^ j : Int) : ℚ) := by
    rw [div_eq_iff (ulp_pos _).ne']
    nth_rewrite 1 [hsplit]
    push_cast
    ring
  unfold round_pos
  rw [hdiv, round_even_intCast]
  nth_rewrite 2 [hsplit]
  push_cast
  ring

/-- A value within half a unit of `m * 2^k`, for a 24-bit mantissa `m`, rounds to it. -/
theorem round_pos_near (x : ℚ) (m k : Int) (hm0 : 2 ^ 23 < m) (hm1 : m < 2 ^ 24)
    (h1 : ((m : ℚ) - 1 / 2) * (2 : ℚ) ^ k < x) (h2 : x < ((m : ℚ) + 1 / 2) * (2 : ℚ) ^ k) :
    round_pos x = (m : ℚ) * (2 : ℚ) ^ k := by
  have hk := two_zpow_pos k
  have hm0q : ((2 : ℚ) ^ (23 : Int)) + 1 ≤ (m : ℚ) := by
    have : (2 : Int) ^ 23 + 1 ≤ m := by omega
    have := (Int.cast_le (R := ℚ)).mpr this
    push_cast at this
    norm_num
    linarith
  have hm1q : (m : ℚ) + 1 ≤ ((2 : ℚ) ^ (24 : Int)) := by
    have : m + 1 ≤ (2 : Int) ^ 24 := by omega
    have := (Int.cast_le (R := ℚ)).mpr this
    push_cast at this
    norm_num
    linarith
  have lo : (2 : ℚ) ^ (23 + k) ≤ x := by
    rw [two_zpow_add]
    have : (2 : ℚ) ^ (23 : Int) * (2 : ℚ) ^ k ≤ ((m : ℚ) - 1 / 2) * (2 : ℚ) ^ k :=
      mul_le_mul_of_nonneg_right (by linarith) hk.le
    linarith
  have hi : x < (2 : ℚ) ^ (23 + k + 1) := by
    have e : (23 + k + 1 : Int) = 24 + k := by ring
    rw [e, two_zpow_add]
    have : ((m : ℚ) + 1 / 2) * (2 : ℚ) ^ k ≤ (2 : ℚ) ^ (24 : Int) * (2 : ℚ) ^ k :=
      mul_le_mul_of_nonneg_right (by linarith) hk.le
    linarith
  have hlog := log_eq_of_bounds x (23 + k) lo hi
  have hu : ulp x = (2 : ℚ) ^ k := by
    unfold ulp
    rw [hlog]
    congr 1
    ring
  unfold round_pos
  rw [hu]
  congr 2
  apply round_even_eq
  · rw [lt_div_iff₀ hk]
    exact h1
  · rw [div_lt_iff₀ hk]
    exact h2

theorem to_float_zero : to_float 0 = 0 := by
  simp [to_float]

theorem to_float_of_pos (x : ℚ) (hx : 0 < x) : to_float x = round_pos x := by
  unfold to_float
  rw [if_neg hx.ne', if_pos hx]

theorem to_float_nonneg (x : ℚ) (hx : 0 ≤ x) : 0 ≤ to_float x := by
  rcases eq_or_lt_of_le hx with h | h
  · rw [← h, to_float_zero]
  · rw [to_float_of_pos x h]
    exact (round_pos_pos x h).le

theorem to_float_pos (x : ℚ) (hx : 0 < x) : 0 < to_float x := by
  rw [to_float_of_pos x hx]
  exact round_pos_pos x hx

/-- Rounding is monotone. -/
theorem to_float_mono (x y : ℚ) (hx : 0 ≤ x) (h : x ≤ y) : to_float x ≤ to_float y := by
  rcases eq_or_lt_of_le hx with h0 | h0
  · rw [← h0, to_float_zero]
    exact to_float_nonneg y (le_trans hx h)
  · rw [to_float_of_pos x h0, to_float_of_pos y (lt_of_lt_of_le h0 h)]
    exact round_pos_mono x y h0 h

/-- The relative error of rounding is at most `2^-24`. -/
theorem to_float_le (x : ℚ) (hx : 0 ≤ x) : to_float x ≤ x * (1 + 1 / 2 ^ 24) := by
  rcases eq_or_lt_of_le hx with h0 | h0
  · rw [← h0, to_float_zero]
    norm_num
  · rw [to_float_of_pos x h0]
    exact round_pos_le x h0

/-- A value `m * 2^k` with `m < 2^24` is a float. -/
theorem to_float_exact (m : Nat) (k : Int) (hm : m < 2 ^ 24) :
    to_float ((m : ℚ) * (2 : ℚ) ^ k) = (m : ℚ) * (2 : ℚ) ^ k := by
  rcases Nat.eq_zero_or_pos m with h0 | h0
  · subst h0
    simp [to_float_zero]
  · have hx : (0 : ℚ) < (m : ℚ) * (2 : ℚ) ^ k :=
      mul_pos (by exact_mod_cast h0) (two_zpow_pos k)
    rw [to_float_of_pos _ hx]
    exact round_pos_exact m k h0 hm

/-- The integers up to `2^24` are floats. -/
theorem to_float_natCast (n : Nat) (hn : n ≤ 2 ^ 24) : to_float (n : ℚ) = (n : ℚ) := by
  rcases Nat.lt_or_ge n (2 ^ 24) with h | h
  · have := to_float_exact n 0 h
    simpa using this
  · have e : n = 2 ^ 24 := by omega
    subst e
    have := to_float_exact (2 ^ 23) 1 (by norm_num)
    norm_num at this
    norm_num
    exact this

theorem to_float_intCast (i : Int) (h0 : 0 ≤ i) (h1 : i ≤ 2 ^ 24) :
    to_float (i : ℚ) = (i : ℚ) := by
  obtain ⟨n, rfl⟩ := Int.eq_ofNat_of_zero_le h0
  have := to_float_natCast n (by exact_mod_cast h1)
  exact_mod_cast this

/-- Every rounded value has the form `m * 2^k` with `m < 2^24`. -/
theorem to_float_repr (x : ℚ) (hx : 0 ≤ x) :
    ∃ (m : Nat) (k : Int), m < 2 ^ 24 ∧ to_float x = (m : ℚ) * (2 : ℚ) ^ k := by
  rcases eq_or_lt_of_le hx with h0 | h0
  · refine ⟨0, 0, by norm_num, ?_⟩
    rw [← h0, to_float_zero]
    simp
  · obtain ⟨b1, b2⟩ := mantissa_bounds x h0
    rw [to_float_of_pos x h0]
    obtain ⟨M, hM⟩ := Int.eq_ofNat_of_zero_le (le_trans (by norm_num) b1 :
      (0 : Int) ≤ round_even (x / ulp x))
    rcases lt_or_eq_of_le b2 with h | h
    · refine ⟨M, Int.log 2 x - 23, ?_, ?_⟩
      · rw [hM] at h
        exact_mod_cast h
      · unfold round_pos
        rw [hM]
        rfl
    · refine ⟨2 ^ 23, Int.log 2 x - 23 + 1, by norm_num, ?_⟩
      unfold round_pos
      rw [h, two_zpow_add]
      unfold ulp
      norm_num
      ring

theorem to_float_idem (x : ℚ) (hx : 0 ≤ x) : to_float (to_float x) = to_float x := by
  obtain ⟨m, k, hm, e⟩ := to_float_repr x hx
  rw [e, to_float_exact m k hm]

theorem to_float_near (x : ℚ) (m k : Int) (hm0 : 2 ^ 23 < m) (hm1 : m < 2 ^ 24)
    (h1 : ((m : ℚ) - 1 / 2) * (2 : ℚ) ^ k < x) (h2 : x < ((m : ℚ) + 1 / 2) * (2 : ℚ) ^ k) :
    to_float x = (m : ℚ) * (2 : ℚ) ^ k := by
  have hx : 0 < x := by
    have : (0 : ℚ) < ((m : ℚ) - 1 / 2) * (2 : ℚ) ^ k := by
      apply mul_pos _ (two_zpow_pos k)
      have : ((2 : Int) ^ 23 : Int) < m := hm0
      have := (Int.cast_lt (R := ℚ)).mpr this
      push_cast at this
      linarith
    linarith
  rw [to_float_of_pos x hx]
  exact round_pos_near x m k hm0 hm1 h1 h2

/-- The floor of a float is a float, and so is its fractional part. -/
theorem floor_fract_exact (m : Nat) (k : Int) (hm : m < 2 ^ 24) :
    to_float ((Int.floor ((m : ℚ) * (2 : ℚ) ^ k) : Int) : ℚ)
      = ((Int.floor ((m : ℚ) * (2 : ℚ) ^ k) : Int) : ℚ) ∧
    to_float ((m : ℚ) * (2 : ℚ) ^ k - ((Int.floor ((m : ℚ) * (2 : ℚ) ^ k) : Int) : ℚ))
      = (m : ℚ) * (2 : ℚ) ^ k - ((Int.floor ((m : ℚ) * (2 : ℚ) ^ k) : Int) : ℚ) := by
  rcases le_or_lt 0 k with hk | hk
  · obtain ⟨j, rfl⟩ := Int.eq_ofNat_of_zero_le hk
    have e : (m : ℚ) * (2 : ℚ) ^ (j : Int) = (((m * 2 ^ j : Nat) : Int) : ℚ) := by
      rw [zpow_natCast]
      push_cast
      rfl
    rw [e, Int.floor_intCast]
    constructor
    · rw [← e]
      exact to_float_exact m j hm
    · rw [sub_self, to_float_zero]
  · obtain ⟨j, hj⟩ : ∃ j : Nat, (j : Int) = -k := ⟨(-k).toNat, Int.toNat_of_nonneg (by omega)⟩
    have hk2 : k = -(j : Int) := by omega
    obtain ⟨d, hd⟩ : ∃ d : Nat, d = 2 ^ j := ⟨_, rfl⟩
    obtain ⟨q, hq⟩ : ∃ q : Nat, q = m / d := ⟨_, rfl⟩
    obtain ⟨r, hr⟩ : ∃ r : Nat, r = m % d := ⟨_, rfl⟩
    have hdpos : (0 : ℚ) < (d : ℚ) := by
      rw [hd]
      push_cast
      positivity
    have hpow : (2 : ℚ) ^ k = 1 / (d : ℚ) := by
      rw [hk2, zpow_neg, zpow_natCast, hd]
      push_cast
      rw [one_div]
    have e : (m : ℚ) * (2 : ℚ) ^ k = (((m : Int)) : ℚ) / (d : ℚ) := by
      rw [hpow]
      push_cast
      ring
    have hfl : Int.floor ((m : ℚ) * (2 : ℚ) ^ k) = (q : Int) := by
      rw [e, Rat.floor_intCast_div_natCast, hq]
      rfl
    have hdiv : q ≤ m := by
      rw [hq]
      exact Nat.div_le_self m d
    have hmod : r ≤ m := by
      rw [hr]
      exact Nat.mod_le m d
    have hsplit : (m : ℚ) = (d : ℚ) * (q : ℚ) + (r : ℚ) := by
      have := Nat.div_add_mod m d
      rw [← hq, ← hr] at this
      have h2 : ((d * q + r : Nat) : ℚ) = (m : ℚ) := by rw [this]
      push_cast at h2
      linarith
    have hfr : (m : ℚ) * (2 : ℚ) ^ k - ((Int.floor ((m : ℚ) * (2 : ℚ) ^ k) : Int) : ℚ)
        = (r : ℚ) * (2 : ℚ) ^ k := by
      rw [hfl, hpow, hsplit]
      push_cast
      field_simp
    constructor
    · rw [hfl]
      have := to_float_exact q 0 (by omega)
      simpa using this
    · rw [hfr]
      exact to_float_exact r k (by omega)

/-! ## Lemmas on the resampling step -/

theorem allSome_map_some {α β : Type} (f : β → Option α) (g : β → α) (l : List β)
    (h : ∀ x ∈ l, f x = some (g x)) : allSome (l.map f) = some (l.map g) := by
  induction l with
  | nil => rfl
  | cons a t ih =>
    have ha : f a = some (g a) := h a (List.mem_cons_self a t)
    have ht := ih (fun x hx => h x (List.mem_cons_of_mem a hx))
    simp [allSome, ha, ht]

theorem allSome_map_none {α β : Type} (f : β → Option α) (l : List β) (x : β)
    (hx : x ∈ l) (h : f x = none) : allSome (l.map f) = none := by
  induction l with
  | nil => cases hx
  | cons a t ih =>
    rcases List.mem_cons.mp hx with rfl | hmem
    · simp [allSome, h]
    · cases hfa : f a with
      | none => simp [allSome, hfa]
      | some b => simp [allSome, hfa, ih hmem]

theorem allSome_eq_some {α : Type} (l : List (Option α)) (r : List α)
    (h : allSome l = some r) : l = r.map some := by
  induction l generalizing r with
  | nil =>
    simp only [allSome, Option.some.injEq] at h
    subst h
    rfl
  | cons a t ih =>
    cases a with
    | none => simp [allSome] at h
    | some x =>
      simp only [allSome] at h
      cases ht : allSome t with
      | none => simp [ht] at h
      | some r2 =>
        simp only [ht, Option.map_some', Option.some.injEq] at h
        subst h
        rw [ih r2 ht]
        rfl

theorem scaled_index_nonneg (r : ℚ) (i : Int) (hr : 0 ≤ r) (hi : 0 ≤ i) :
    0 ≤ scaled_index r i := by
  have hiq : (0 : ℚ) ≤ (i : ℚ) := by exact_mod_cast hi
  exact to_float_nonneg _ (mul_nonneg (to_float_nonneg _ hiq) hr)

theorem scaled_index_mono (r : ℚ) (i j : Int) (hr : 0 ≤ r) (hi : 0 ≤ i) (hij : i ≤ j) :
    scaled_index r i ≤ scaled_index r j := by
  have hiq : (0 : ℚ) ≤ (i : ℚ) := by exact_mod_cast hi
  have hijq : (i : ℚ) ≤ (j : ℚ) := by exact_mod_cast hij
  exact to_float_mono _ _ (mul_nonneg (to_float_nonneg _ hiq) hr)
    (mul_le_mul_of_nonneg_right (to_float_mono _ _ hiq hijq) hr)

theorem float_to_int_fract (x : ℚ) : float_to_int (x - ((Int.floor x : Int) : ℚ)) = some 0 := by
  have h0 : (0 : ℚ) ≤ x - ((Int.floor x : Int) : ℚ) := by
    have := Int.floor_le x
    linarith
  have h1 : x - ((Int.floor x : Int) : ℚ) < 1 := by
    have := Int.lt_floor_add_one x
    linarith
  have hf : Int.floor (x - ((Int.floor x : Int) : ℚ)) = 0 := by
    rw [Int.floor_eq_iff]
    constructor
    · rw [Int.cast_zero]
      exact h0
    · simp only [Int.cast_zero, zero_add]
      exact h1
  unfold float_to_int
  simp only [h0, if_true, hf]
  simp [INT_MIN, INT_MAX]

/-- The truncated weight of lines 354-355 is zero: the product is a non-negative `float`,
its floor and its fractional part are floats too, so the difference is the fractional
part, which lies in `[0, 1)`. -/
theorem weight_eq_zero (r : ℚ) (i : Int) (hr : 0 ≤ r) (hi : 0 ≤ i) : weight r i = some 0 := by
  have hiq : (0 : ℚ) ≤ (i : ℚ) := by exact_mod_cast hi
  obtain ⟨m, k, hm, e⟩ := to_float_repr (to_float (i : ℚ) * r)
    (mul_nonneg (to_float_nonneg _ hiq) hr)
  obtain ⟨h1, h2⟩ := floor_fract_exact m k hm
  unfold weight scaled_index
  rw [e, h1, h2]
  exact float_to_int_fract _

theorem blend_zero (v : Int × Int × Int × Int) : blend v 0 0 = v.1 := by
  simp [blend]

/-- With finite non-negative ratios the loop body stores the first corner `v1`. -/
theorem pixel_eq (lum_map : Grid) (xr yr : ℚ) (h w : Int) (hxr : 0 ≤ xr) (hyr : 0 ≤ yr)
    (hh : 0 ≤ h) (hw : 0 ≤ w) :
    pixel lum_map (some xr) (some yr) h w = (corners lum_map xr yr h w).map (fun v => v.1) := by
  simp [pixel, weight_eq_zero xr w hxr hw, weight_eq_zero yr h hyr hh, blend_zero]

theorem pixel_none_left (lum_map : Grid) (yratio : Option ℚ) (h w : Int) :
    pixel lum_map none yratio h w = none := by
  simp [pixel]

theorem pixel_none_right (lum_map : Grid) (xratio : Option ℚ) (h w : Int) :
    pixel lum_map xratio none h w = none := by
  cases xratio <;> simp [pixel]

theorem to_float_one : to_float 1 = 1 := by
  have := to_float_natCast 1 (by norm_num)
  simpa using this

theorem to_float_ge_one (d : Int) (hd : 1 ≤ d) : 1 ≤ to_float (d : ℚ) := by
  have hdq : (1 : ℚ) ≤ (d : ℚ) := by exact_mod_cast hd
  have := to_float_mono 1 (d : ℚ) (by norm_num) hdq
  rwa [to_float_one] at this

/-- The ratio of lines 336-337 for a non-zero divisor. -/
theorem ratio_eq (n d : Int) (hd : 1 ≤ d) :
    ratio n d = some (to_float (to_float (n : ℚ) / to_float (d : ℚ))) := by
  have h1 := to_float_ge_one d hd
  have hne : to_float (d : ℚ) ≠ 0 := by linarith
  unfold ratio fdiv
  rw [if_neg hne]
  rfl

/-- For a source size of at least 1 and a destination size of at least 2 the ratio in
force is finite and not negative. -/
theorem ratio_of_nonneg (size dest : Int) (hs : 1 ≤ size) (hd : 2 ≤ dest) :
    ∃ r : ℚ, ratio_of size dest = some r ∧ 0 ≤ r := by
  have hD := to_float_ge_one (dest - 1) (by omega)
  have hDpos : (0 : ℚ) < to_float ((dest - 1 : Int) : ℚ) := by linarith
  have hn : (0 : ℚ) ≤ ((size - 1 : Int) : ℚ) := by
    have : (0 : Int) ≤ size - 1 := by omega
    exact_mod_cast this
  have hr0 : 0 ≤ to_float (to_float ((size - 1 : Int) : ℚ) / to_float ((dest - 1 : Int) : ℚ)) :=
    to_float_nonneg _ (div_nonneg (to_float_nonneg _ hn) hDpos.le)
  unfold ratio_of
  rw [ratio_eq _ _ (by omega : 1 ≤ dest - 1)]
  unfold adjust
  simp only
  split_ifs with hcmp
  · rw [ratio_eq _ _ (by omega : 1 ≤ dest - 1)]
    refine ⟨_, rfl, ?_⟩
    have hs2 : 2 ≤ size := by
      by_contra hlt
      have e : size - 1 = 0 := by omega
      rw [e] at hcmp
      simp [to_float_zero] at hcmp
    have hn1 : (0 : ℚ) ≤ ((size - 1 - 1 : Int) : ℚ) := by
      have : (0 : Int) ≤ size - 1 - 1 := by omega
      exact_mod_cast this
    exact to_float_nonneg _ (div_nonneg (to_float_nonneg _ hn1) hDpos.le)
  · exact ⟨_, rfl, hr0⟩

/-- For a source size between 1 and `2^24` and a destination size of at least 2, the ratio
in force maps the last destination index to a value of at most `size - 1`: either the
test of line 339 fails, or the adjusted ratio is small enough. -/
theorem ratio_of_bound (size dest : Int) (hs : 1 ≤ size) (hs2 : size ≤ 2 ^ 24)
    (hd : 2 ≤ dest) :
    ∃ r : ℚ, ratio_of size dest = some r ∧ 0 ≤ r ∧
      scaled_index r (dest - 1) ≤ ((size - 1 : Int) : ℚ) := by
  obtain ⟨r, hr, hr0⟩ := ratio_of_nonneg size dest hs hd
  refine ⟨r, hr, hr0, ?_⟩
  have hD := to_float_ge_one (dest - 1) (by omega)
  have hDpos : (0 : ℚ) < to_float ((dest - 1 : Int) : ℚ) := by linarith
  have hfn : to_float ((size - 1 : Int) : ℚ) = ((size - 1 : Int) : ℚ) :=
    to_float_intCast _ (by omega) (by omega)
  unfold ratio_of at hr
  rw [ratio_eq _ _ (by omega : 1 ≤ dest - 1)] at hr
  unfold adjust at hr
  simp only at hr
  split_ifs at hr with hcmp
  · rw [ratio_eq _ _ (by omega : 1 ≤ dest - 1)] at hr
    have hs3 : 2 ≤ size := by
      by_contra hlt
      have e : size - 1 = 0 := by omega
      rw [e] at hcmp
      simp [to_float_zero] at hcmp
    have hfn1 : to_float ((size - 1 - 1 : Int) : ℚ) = ((size - 1 - 1 : Int) : ℚ) :=
      to_float_intCast _ (by omega) (by omega)
    have hn1 : (0 : ℚ) ≤ ((size - 1 - 1 : Int) : ℚ) := by
      have : (0 : Int) ≤ size - 1 - 1 := by omega
      exact_mod_cast this
    have hn1' : ((size - 1 - 1 : Int) : ℚ) ≤ 2 ^ 24 := by
      have : size - 1 - 1 ≤ (2 : Int) ^ 24 := by omega
      exact_mod_cast this
    have hcast : ((size - 1 : Int) : ℚ) = ((size - 1 - 1 : Int) : ℚ) + 1 := by
      push_cast
      ring
    rw [hfn1] at hr
    have hrle := to_float_le (((size - 1 - 1 : Int) : ℚ) / to_float ((dest - 1 : Int) : ℚ))
      (div_nonneg hn1 hDpos.le)
    simp only [Option.some.injEq] at hr
    rw [hr] at hrle
    have hprod : to_float ((dest - 1 : Int) : ℚ) * r ≤ ((size - 1 : Int) : ℚ) := by
      calc to_float ((dest - 1 : Int) : ℚ) * r
          ≤ to_float ((dest - 1 : Int) : ℚ) *
            (((size - 1 - 1 : Int) : ℚ) / to_float ((dest - 1 : Int) : ℚ) * (1 + 1 / 2 ^ 24)) :=
            mul_le_mul_of_nonneg_left hrle hDpos.le
        _ = ((size - 1 - 1 : Int) : ℚ) * (1 + 1 / 2 ^ 24) := by
            generalize to_float ((dest - 1 : Int) : ℚ) = D at hDpos
            generalize ((size - 1 - 1 : Int) : ℚ) = a
            field_simp
            ring
        _ ≤ ((size - 1 : Int) : ℚ) := by
            rw [hcast]
            have : ((size - 1 - 1 : Int) : ℚ) * (1 / 2 ^ 24) ≤ 1 := by
              rw [mul_one_div, div_le_one (by norm_num)]
              exact hn1'
            linarith
    have := to_float_mono _ _ (mul_nonneg hDpos.le hr0) hprod
    rw [hfn] at this
    exact this
  · simp only [Option.some.injEq] at hr
    rw [hr, hfn] at hcmp
    unfold scaled_index
    rw [mul_comm]
    exact not_lt.mp hcmp

theorem ratio_of_one (size : Int) : ratio_of size 1 = none := by
  simp [ratio_of, ratio, fdiv, adjust, to_float_zero]

/-! ## Source indices and reads of the resampling step -/

theorem allSome_range {α : Type} (f : Nat → Option α) (n : Nat) (l : List α)
    (h : allSome ((List.range n).map f) = some l) :
    l.length = n ∧ ∀ i, i < n → ∃ x, f i = some x ∧ l.get? i = some x := by
  have hmap := allSome_eq_some _ _ h
  have hlen : l.length = n := by
    have := congrArg List.length hmap
    simp only [List.length_map, List.length_range] at this
    exact this.symm
  refine ⟨hlen, ?_⟩
  intro i hi
  have hget := congrArg (fun t => t.get? i) hmap
  simp only [List.get?_eq_getElem?, List.getElem?_map, List.getElem?_range hi,
    Option.map_some'] at hget
  cases hl : l[i]? with
  | none =>
    rw [hl] at hget
    simp at hget
  | some x =>
    rw [hl] at hget
    simp only [Option.map_some', Option.some.injEq] at hget
    exact ⟨x, hget, by simp [hl]⟩

/-- Source indices stay within `0 .. n` for the destination indices `0 .. d`, when the
ratio maps the last destination index `d` to at most `n`. -/
theorem index_bounds (r : ℚ) (n d i : Int) (hr : 0 ≤ r)
    (hb : scaled_index r d ≤ (n : ℚ)) (hi0 : 0 ≤ i) (hid : i ≤ d) :
    0 ≤ Int.floor (scaled_index r i) ∧
    Int.floor (scaled_index r i) ≤ Int.ceil (scaled_index r i) ∧
    Int.ceil (scaled_index r i) ≤ n := by
  refine ⟨?_, Int.floor_le_ceil _, ?_⟩
  · rw [Int.floor_nonneg]
    exact scaled_index_nonneg r i hr hi0
  · rw [Int.ceil_le]
    exact le_trans (scaled_index_mono r i d hr hi0 hid) hb

/-- A read inside a full `H x W` grid succeeds. -/
theorem at2_in_bounds (lum_map : Grid) (W H : Nat) (hlen : lum_map.length = H)
    (hrows : ∀ row ∈ lum_map, row.length = W) (y x : Int)
    (hy0 : 0 ≤ y) (hy : y < H) (hx0 : 0 ≤ x) (hx : x < W) :
    ∃ v, at2 lum_map y x = some v := by
  have hyn : y.toNat < lum_map.length := by omega
  have hrow : (lum_map.get ⟨y.toNat, hyn⟩).length = W := hrows _ (List.get_mem _ _ _)
  have hxn : x.toNat < (lum_map.get ⟨y.toNat, hyn⟩).length := by omega
  refine ⟨(lum_map.get ⟨y.toNat, hyn⟩).get ⟨x.toNat, hxn⟩, ?_⟩
  unfold at2
  have hneg : ¬ (y < 0 ∨ x < 0) := by omega
  rw [if_neg hneg, List.get?_eq_get hyn]
  simp only [Option.some_bind]
  rw [List.get?_eq_get hxn]

/-- In a full `H x W` grid all four corners of every destination cell exist, when the
ratios map the last destination indices to at most `W - 1` and `H - 1`. -/
theorem corners_in_bounds (lum_map : Grid) (W H : Nat) (destw desth : Int) (xr yr : ℚ)
    (hlen : lum_map.length = H) (hrows : ∀ row ∈ lum_map, row.length = W)
    (hxr : 0 ≤ xr) (hyr : 0 ≤ yr)
    (hxb : scaled_index xr (destw - 1) ≤ (((W : Int) - 1 : Int) : ℚ))
    (hyb : scaled_index yr (desth - 1) ≤ (((H : Int) - 1 : Int) : ℚ))
    (h w : Int) (hh0 : 0 ≤ h) (hh : h < desth) (hw0 : 0 ≤ w) (hw : w < destw) :
    ∃ v1 v2 v3 v4, corners lum_map xr yr h w = some (v1, v2, v3, v4) := by
  obtain ⟨hx1, hx2, hx3⟩ := index_bounds xr ((W : Int) - 1) (destw - 1) w hxr hxb hw0
    (by omega)
  obtain ⟨hy1, hy2, hy3⟩ := index_bounds yr ((H : Int) - 1) (desth - 1) h hyr hyb hh0
    (by omega)
  obtain ⟨v1, e1⟩ := at2_in_bounds lum_map W H hlen hrows _ _ hy1 (by omega) hx1 (by omega)
  obtain ⟨v2, e2⟩ := at2_in_bounds lum_map W H hlen hrows _ _ hy1 (by omega)
    (le_trans hx1 hx2) (by omega)
  obtain ⟨v3, e3⟩ := at2_in_bounds lum_map W H hlen hrows _ _ (le_trans hy1 hy2) (by omega)
    hx1 (by omega)
  obtain ⟨v4, e4⟩ := at2_in_bounds lum_map W H hlen hrows _ _ (le_trans hy1 hy2) (by omega)
    (le_trans hx1 hx2) (by omega)
  refine ⟨v1, v2, v3, v4, ?_⟩
  unfold corners
  simp only [e1, e2, e3, e4, Option.some_bind, Option.map_some']

/-- Reading cell `(h, w)` of a grid tabulated over `range`s. -/
theorem at2_tabulate (f : Nat → Nat → Int) (dh dw : Nat) (h w : Int)
    (hh0 : 0 ≤ h) (hh : h.toNat < dh) (hw0 : 0 ≤ w) (hw : w.toNat < dw) :
    at2 ((List.range dh).map fun a => (List.range dw).map fun b => f a b) h w
      = some (f h.toNat w.toNat) := by
  unfold at2
  have hneg : ¬ (h < 0 ∨ w < 0) := by omega
  rw [if_neg hneg]
  simp [List.getElem?_range, hh, hw]

/-- The branch of line 326: with scale factor `1.0` the decoded grid is kept. -/
theorem scaled_lum_map_keep (lum_map : Grid) (width height destw desth : Int)
    (hdw : 0 ≤ destw) (hdh : 0 ≤ desth) :
    scaled_lum_map lum_map width height destw desth 1 = some lum_map := by
  have hneg : ¬ (destw < 0 ∨ desth < 0) := by omega
  simp only [scaled_lum_map, if_neg hneg, if_true]

/-- What a grid returned by the loops of lines 346-369 holds: it has `desth` rows of
`destw` samples, and cell `(a, b)` is the sample the loop body computes for it. -/
theorem scaled_lum_map_cells (lum_map : Grid) (width height destw desth : Int)
    (scale_factor : ℚ) (hdw : 0 ≤ destw) (hdh : 0 ≤ desth) (hsf : scale_factor ≠ 1)
    (out : Grid)
    (h : scaled_lum_map lum_map width height destw desth scale_factor = some out) :
    out.length = desth.toNat ∧ (∀ row ∈ out, row.length = destw.toNat) ∧
    ∀ a b : Nat, a < desth.toNat → b < destw.toNat →
      ∃ px, pixel lum_map (ratio_of width destw) (ratio_of height desth) a b = some px ∧
        at2 out a b = some px := by
  unfold scaled_lum_map at h
  have hneg : ¬ (destw < 0 ∨ desth < 0) := by omega
  rw [if_neg hneg, if_neg hsf] at h
  obtain ⟨hlen, hrow⟩ := allSome_range _ _ _ h
  refine ⟨hlen, ?_, ?_⟩
  · intro row hmem
    obtain ⟨i, hi⟩ := List.mem_iff_get?.mp hmem
    have hil : i < out.length := by
      by_contra hge
      rw [List.get?_eq_none.mpr (by omega)] at hi
      cases hi
    obtain ⟨x, hx, hxi⟩ := hrow i (by omega)
    rw [hi] at hxi
    cases hxi
    exact (allSome_range _ _ _ hx).1
  · intro a b ha hb
    obtain ⟨row, hrw, hget⟩ := hrow a ha
    obtain ⟨-, hcell⟩ := allSome_range _ _ _ hrw
    obtain ⟨px, hpx, hgetb⟩ := hcell b hb
    refine ⟨px, hpx, ?_⟩
    unfold at2
    have hneg2 : ¬ ((a : Int) < 0 ∨ (b : Int) < 0) := by omega
    rw [if_neg hneg2]
    simp only [Int.toNat_ofNat, hget, Option.some_bind, hgetb]

/-- The grid the loops of lines 346-369 build for a full `H x W` source of a size up to
`2^24` and a destination of at least `2 x 2`: cell `(h, w)` holds the first corner of that
cell. -/
theorem scaled_lum_map_total (lum_map : Grid) (W H : Nat) (destw desth : Int)
    (scale_factor : ℚ) (hW : 1 ≤ W) (hH : 1 ≤ H) (hW2 : W ≤ 2 ^ 24) (hH2 : H ≤ 2 ^ 24)
    (hlen : lum_map.length = H)
    (hrows : ∀ row ∈ lum_map, row.length = W) (hdw : 2 ≤ destw) (hdh : 2 ≤ desth)
    (hsf : scale_factor ≠ 1) :
    ∃ (xr yr : ℚ) (f : Nat → Nat → Int),
      ratio_of W destw = some xr ∧ ratio_of H desth = some yr ∧
      scaled_lum_map lum_map W H destw desth scale_factor
        = some ((List.range desth.toNat).map fun a => (List.range destw.toNat).map fun b => f a b) ∧
      ∀ a b : Nat, (a : Int) < desth → (b : Int) < destw →
        (corners lum_map xr yr a b).map (fun v => v.1) = some (f a b) := by
  classical
  obtain ⟨xr, hxr, hxr0, hxb⟩ := ratio_of_bound (W : Int) destw (by omega)
    (by exact_mod_cast hW2) hdw
  obtain ⟨yr, hyr, hyr0, hyb⟩ := ratio_of_bound (H : Int) desth (by omega)
    (by exact_mod_cast hH2) hdh
  let g : Nat → Nat → Int := fun a b =>
    ((corners lum_map xr yr a b).map (fun v => v.1)).getD 0
  have hg : ∀ a b : Nat, (a : Int) < desth → (b : Int) < destw →
      (corners lum_map xr yr a b).map (fun v => v.1) = some (g a b) := by
    intro a b ha hb
    obtain ⟨v1, v2, v3, v4, hc⟩ := corners_in_bounds lum_map W H destw desth xr yr hlen hrows
      hxr0 hyr0 hxb hyb a b (by omega) ha (by omega) hb
    simp only [g, hc, Option.map_some', Option.getD_some]
  refine ⟨xr, yr, g, hxr, hyr, ?_, hg⟩
  unfold scaled_lum_map
  have hneg : ¬ (destw < 0 ∨ desth < 0) := by omega
  rw [if_neg hneg, if_neg hsf, hxr, hyr]
  apply allSome_map_some
  intro a ha
  apply allSome_map_some
  intro b hb
  rw [pixel_eq _ _ _ _ _ hxr0 hyr0 (by omega) (by omega)]
  apply hg
  · have := List.mem_range.mp ha
    omega
  · have := List.mem_range.mp hb
    omega

/-- In a grid returned by the loops of lines 346-369, for a source size of at least
`1 x 1` and a destination of at least `2 x 2`, cell `(h, w)` holds the first corner that
the loop body reads for that cell. -/
theorem scaled_lum_map_first_corner (lum_map : Grid) (width height destw desth : Int)
    (scale_factor : ℚ) (hw1 : 1 ≤ width) (hh1 : 1 ≤ height) (hdw : 2 ≤ destw)
    (hdh : 2 ≤ desth) (hsf : scale_factor ≠ 1) (xr yr : ℚ)
    (hxr : ratio_of width destw = some xr) (hyr : ratio_of height desth = some yr)
    (out : Grid)
    (hout : scaled_lum_map lum_map width height destw desth scale_factor = some out)
    (h w : Int) (hh0 : 0 ≤ h) (hh : h < desth) (hw0 : 0 ≤ w) (hw : w < destw) :
    ∃ v : Int × Int × Int × Int,
      corners lum_map xr yr h w = some v ∧ at2 out h w = some v.1 := by
  obtain ⟨xr2, hxr2, hxr0⟩ := ratio_of_nonneg width destw hw1 hdw
  obtain ⟨yr2, hyr2, hyr0⟩ := ratio_of_nonneg height desth hh1 hdh
  rw [hxr] at hxr2
  rw [hyr] at hyr2
  cases hxr2
  cases hyr2
  obtain ⟨-, -, hcells⟩ := scaled_lum_map_cells lum_map width height destw desth scale_factor
    (by omega) (by omega) hsf out hout
  obtain ⟨px, hpx, hat⟩ := hcells h.toNat w.toNat (by omega) (by omega)
  rw [Int.toNat_of_nonneg hh0, Int.toNat_of_nonneg hw0] at hpx hat
  rw [hxr, hyr, pixel_eq _ _ _ _ _ hxr0 hyr0 hh0 hw0, Option.map_eq_some'] at hpx
  obtain ⟨v, hv, hv1⟩ := hpx
  exact ⟨v, hv, by rw [hat, hv1]⟩

/-- The four corners are the reads at the floors and ceilings of the two products. -/
theorem corners_reads (lum_map : Grid) (xratio yratio : ℚ) (h w : Int) (v1 v2 v3 v4 : Int)
    (hc : corners lum_map xratio yratio h w = some (v1, v2, v3, v4)) :
    at2 lum_map (Int.floor (scaled_index yratio h)) (Int.floor (scaled_index xratio w))
      = some v1 ∧
    at2 lum_map (Int.floor (scaled_index yratio h)) (Int.ceil (scaled_index xratio w))
      = some v2 ∧
    at2 lum_map (Int.ceil (scaled_index yratio h)) (Int.floor (scaled_index xratio w))
      = some v3 ∧
    at2 lum_map (Int.ceil (scaled_index yratio h)) (Int.ceil (scaled_index xratio w))
      = some v4 := by
  unfold corners at hc
  simp only [Option.bind_eq_some, Option.map_eq_some', Prod.mk.injEq] at hc
  obtain ⟨a1, h1, a2, h2, a3, h3, a4, h4, e1, e2, e3, e4⟩ := hc
  subst e1 e2 e3 e4
  exact ⟨h1, h2, h3, h4⟩

/-- C1. Identity at scale 1: when `scale_factor == 1.0` the grid that `Worker::work` renders
is exactly the decoded grid, whatever that grid and the image dimensions are (the
destination sizes only have to be valid vector sizes). -/
theorem scale_one_identity (lum_map : Grid) (width height destw desth : Int)
    (hdw : 0 ≤ destw) (hdh : 0 ≤ desth) :
    scaled_lum_map lum_map width height destw desth 1 = some lum_map := by
  unfold scaled_lum_map
  have hneg : ¬ (destw < 0 ∨ desth < 0) := by omega
  rw [if_neg hneg, if_pos rfl]

/-- Witness of C1 on the 2 x 4 grid of the specification's concrete scenario. -/
theorem scale_one_identity_witness :
    (0 : Int) ≤ 4 ∧ (0 : Int) ≤ 2 ∧
    scaled_lum_map [[0, 85, 170, 254], [254, 170, 85, 0]] 4 2 4 2 1
      = some [[0, 85, 170, 254], [254, 170, 85, 0]] :=
  ⟨by decide, by decide, scale_one_identity _ 4 2 4 2 (by decide) (by decide)⟩

/-- C3. No overshoot: for an `H x W` source grid, a destination of at least `2 x 2` and
`scale_factor != 1.0`, with the `float` ratios `xratio` and `yratio` in force after lines
336-344, every grid that the resampling returns holds at every destination cell `(h, w)`
a sample `px` with `min(v1..v4) <= px <= max(v1..v4)`, where `v1..v4` are the four corner
samples that the loop body reads for that cell, at the floors and ceilings of the `float`
products `h*yratio` and `w*xratio`. The resampling does return a grid when the source is
a full `H x W` grid with `W, H <= 2^24` (sizes that `float` represents exactly). -/
theorem resample_no_overshoot (lum_map : Grid) (W H : Nat) (destw desth : Int)
    (scale_factor : ℚ) (hW : 1 ≤ W) (hH : 1 ≤ H) (hlen : lum_map.length = H)
    (hrows : ∀ row ∈ lum_map, row.length = W) (hdw : 2 ≤ destw) (hdh : 2 ≤ desth)
    (hsf : scale_factor ≠ 1) :
    ∃ xratio yratio,
      ratio_of W destw = some xratio ∧ ratio_of H desth = some yratio ∧
      (∀ out, scaled_lum_map lum_map W H destw desth scale_factor = some out →
        ∀ h w : Int, 0 ≤ h → h < desth → 0 ≤ w → w < destw →
          ∃ v1 v2 v3 v4 px,
            corners lum_map xratio yratio h w = some (v1, v2, v3, v4) ∧
            at2 lum_map (Int.floor (scaled_index yratio h))
              (Int.floor (scaled_index xratio w)) = some v1 ∧
            at2 lum_map (Int.floor (scaled_index yratio h))
              (Int.ceil (scaled_index xratio w)) = some v2 ∧
            at2 lum_map (Int.ceil (scaled_index yratio h))
              (Int.floor (scaled_index xratio w)) = some v3 ∧
            at2 lum_map (Int.ceil (scaled_index yratio h))
              (Int.ceil (scaled_index xratio w)) = some v4 ∧
            at2 out h w = some px ∧
            min (min v1 v2) (min v3 v4) ≤ px ∧ px ≤ max (max v1 v2) (max v3 v4)) ∧
      (W ≤ 2 ^ 24 → H ≤ 2 ^ 24 →
        ∃ out, scaled_lum_map lum_map W H destw desth scale_factor = some out) := by
  obtain ⟨xr, hxr, -⟩ := ratio_of_nonneg (W : Int) destw (by omega) hdw
  obtain ⟨yr, hyr, -⟩ := ratio_of_nonneg (H : Int) desth (by omega) hdh
  refine ⟨xr, yr, hxr, hyr, ?_, ?_⟩
  · intro out hout h w hh0 hh hw0 hw
    obtain ⟨v, hv, hat⟩ := scaled_lum_map_first_corner lum_map W H destw desth scale_factor
      (by omega) (by omega) hdw hdh hsf xr yr hxr hyr out hout h w hh0 hh hw0 hw
    obtain ⟨v1, v2, v3, v4⟩ := v
    obtain ⟨r1, r2, r3, r4⟩ := corners_reads _ _ _ _ _ _ _ _ _ hv
    refine ⟨v1, v2, v3, v4, v1, hv, r1, r2, r3, r4, hat, ?_, ?_⟩
    · exact le_trans (min_le_left _ _) (min_le_left _ _)
    · exact le_trans (le_max_left _ _) (le_max_left _ _)
  · intro hW2 hH2
    obtain ⟨-, -, f, -, -, hout, -⟩ := scaled_lum_map_total lum_map W H destw desth
      scale_factor hW hH hW2 hH2 hlen hrows hdw hdh hsf
    exact ⟨_, hout⟩

/-- Witness of C3 on a 3 x 6 grid resampled to 2 x 4 (scale factor 1.5). -/
theorem resample_no_overshoot_witness :
    (1 ≤ 6) ∧ (1 ≤ 3) ∧
    ([[0, 0, 90, 0, 0, 0], [1, 2, 3, 4, 5, 6], [7, 8, 9, 10, 11, 12]] : Grid).length = 3 ∧
    (∀ row ∈ ([[0, 0, 90, 0, 0, 0], [1, 2, 3, 4, 5, 6], [7, 8, 9, 10, 11, 12]] : Grid),
      row.length = 6) ∧
    ((2 : Int) ≤ 4) ∧ ((2 : Int) ≤ 2) ∧ ((3 / 2 : ℚ) ≠ 1) ∧
    ∃ xratio yratio,
      ratio_of ((6 : Nat) : Int) 4 = some xratio ∧ ratio_of ((3 : Nat) : Int) 2 = some yratio ∧
      (∀ out, scaled_lum_map [[0, 0, 90, 0, 0, 0], [1, 2, 3, 4, 5, 6], [7, 8, 9, 10, 11, 12]]
          ((6 : Nat) : Int) ((3 : Nat) : Int) 4 2 (3 / 2) = some out →
        ∀ h w : Int, 0 ≤ h → h < 2 → 0 ≤ w → w < 4 →
          ∃ v1 v2 v3 v4 px,
            corners [[0, 0, 90, 0, 0, 0], [1, 2, 3, 4, 5, 6], [7, 8, 9, 10, 11, 12]]
              xratio yratio h w = some (v1, v2, v3, v4) ∧
            at2 [[0, 0, 90, 0, 0, 0], [1, 2, 3, 4, 5, 6], [7, 8, 9, 10, 11, 12]]
              (Int.floor (scaled_index yratio h)) (Int.floor (scaled_index xratio w))
                = some v1 ∧
            at2 [[0, 0, 90, 0, 0, 0], [1, 2, 3, 4, 5, 6], [7, 8, 9, 10, 11, 12]]
              (Int.floor (scaled_index yratio h)) (Int.ceil (scaled_index xratio w))
                = some v2 ∧
            at2 [[0, 0, 90, 0, 0, 0], [1, 2, 3, 4, 5, 6], [7, 8, 9, 10, 11, 12]]
              (Int.ceil (scaled_index yratio h)) (Int.floor (scaled_index xratio w))
                = some v3 ∧
            at2 [[0, 0, 90, 0, 0, 0], [1, 2, 3, 4, 5, 6], [7, 8, 9, 10, 11, 12]]
              (Int.ceil (scaled_index yratio h)) (Int.ceil (scaled_index xratio w))
                = some v4 ∧
            at2 out h w = some px ∧
            min (min v1 v2) (min v3 v4) ≤ px ∧ px ≤ max (max v1 v2) (max v3 v4)) ∧
      (6 ≤ 2 ^ 24 → 3 ≤ 2 ^ 24 →
        ∃ out, scaled_lum_map [[0, 0, 90, 0, 0, 0], [1, 2, 3, 4, 5, 6], [7, 8, 9, 10, 11, 12]]
          ((6 : Nat) : Int) ((3 : Nat) : Int) 4 2 (3 / 2) = some out) :=
  ⟨by decide, by decide, by decide, by decide, by decide, by decide, by norm_num,
   resample_no_overshoot _ 6 3 4 2 (3 / 2) (by decide) (by decide) (by decide) (by decide)
     (by decide) (by decide) (by norm_num)⟩

/-! ## Lemmas on `trim_file` -/

/-- The conversion to `int` of a value between `d` and `d + 1`, for `0 <= d <= INT_MAX`. -/
theorem float_to_int_eq (q : ℚ) (d : Int) (hd0 : 0 ≤ d) (hd1 : d ≤ INT_MAX)
    (h1 : (d : ℚ) ≤ q) (h2 : q < (d : ℚ) + 1) : float_to_int q = some d := by
  have hq : (0 : ℚ) ≤ q := le_trans (by exact_mod_cast hd0) h1
  have hf : Int.floor q = d := by
    rw [Int.floor_eq_iff]
    exact ⟨h1, h2⟩
  unfold float_to_int
  simp only [hq, if_true, hf]
  have hmin : INT_MIN ≤ d := le_trans (by decide) hd0
  rw [if_pos ⟨hmin, hd1⟩]

/-- Evaluation of a destination size from the value of the `float` quotient, for a size
between 0 and `2^24`. -/
theorem dest_size_eval (size : Int) (scale_factor q : ℚ) (d : Int)
    (h : 0 ≤ size ∧ size ≤ 16777216) (hs : scale_factor ≠ 0)
    (hq : to_float ((size : ℚ) / scale_factor) = q)
    (hd : 0 ≤ d ∧ d ≤ INT_MAX) (h1 : (d : ℚ) ≤ q) (h2 : q < (d : ℚ) + 1) :
    dest_size size scale_factor = some d := by
  unfold dest_size fdiv
  rw [to_float_intCast size h.1 (by omega), if_neg hs]
  simp only [Option.some_bind, hq]
  exact float_to_int_eq q d hd.1 hd.2 h1 h2

/-- Dividing by the scale factor `1.0` leaves a size between 0 and `2^24` unchanged. -/
theorem dest_size_one (n : Int) (h : 0 ≤ n ∧ n ≤ 16777216) : dest_size n 1 = some n := by
  apply dest_size_eval n 1 (n : ℚ) n h one_ne_zero _ ⟨h.1, _⟩ le_rfl (by linarith)
  · rw [div_one]
    exact to_float_intCast n h.1 (by omega)
  · have : n ≤ 2147483647 := by omega
    exact this

/-- The result of `trim_file` from those of its two parts. -/
theorem trim_file_eq (image : Str) (width height : Int) (scale_factor : ℚ)
    (w h destw desth : Int)
    (hdims : read_dims (erase image 3) width height = some (w, h))
    (hdw : dest_size w scale_factor = some destw)
    (hdh : dest_size h scale_factor = some desth) :
    trim_file image width height scale_factor
      = some { image := erase (erase image 3) (find (erase image 3) '\n' + 5),
               width := w, height := h, destw := destw, desth := desth } := by
  simp [trim_file, hdims, hdw, hdh]

/-- When the header holds a space, the dimensions do not depend on the values that
`width` and `height` hold on entry. -/
theorem read_dims_of_space (image : Str) (width height : Int) (h : find image ' ' ≠ -1) :
    read_dims image width height = read_dims image 0 0 := by
  unfold read_dims
  simp only [if_pos h]

/-- The part of `Worker::work` after the validation of the destination size. -/
theorem work_after_checks (wk : Worker) (world : World) (filename : Str) (scale_factor : ℚ)
    (swidth sheight : Int) (s : Settings) (hd : Header) (hname : filename ≠ [])
    (htrim : trim_file (get_pgm world.pgm) world.width0 world.height0 scale_factor = some hd)
    (hsize : ¬ ((hd.destw > swidth - 50 ∨ hd.desth > sheight - 280) ∧ s.size_limit = true))
    (hpos : ¬ (hd.destw ≤ 0 ∨ hd.desth ≤ 0)) :
    work wk world filename scale_factor swidth sheight s =
      (parse_file hd.image hd.width hd.height 0 (1 / (hd.height : ℚ))
          (fun k => wk.will_stop || world.stop_by k) false).bind fun ps =>
      (scaled_lum_map ps.lum_map hd.width hd.height hd.destw hd.desth scale_factor).bind
        fun scaled =>
      (render s.dark_mode scaled).map fun text =>
        ({ will_stop := false, stopped := true, donefrac := ps.donefrac, message := text },
          ps.notified + 1) := by
  unfold work
  simp only [if_neg hname, htrim, Option.some_bind, if_neg hsize, if_neg hpos]
  simp [reset]

/-! ## Lemmas on rendering -/

set_option maxRecDepth 8000 in
theorem ascii_length (dark_mode : Bool) : (ascii dark_mode).length = 255 := by
  cases dark_mode <;> decide

/-- A sample in `[0, 254]` indexes the ramp in bounds. -/
theorem glyph_in_range (dark_mode : Bool) (v : Int) (h0 : 0 ≤ v) (h1 : v ≤ 254) :
    glyph (ascii dark_mode) v = some ((ascii dark_mode).getD v.toNat ' ') := by
  unfold glyph
  have hlt : v.toNat < (ascii dark_mode).length := by
    rw [ascii_length]
    omega
  rw [if_neg (by omega), List.getD_eq_getElem?_getD, List.get?_eq_getElem?,
    List.getElem?_eq_getElem hlt]
  rfl

/-- A row of samples in `[0, 254]` renders to its glyphs and a newline. -/
theorem render_row_in_range (dark_mode : Bool) (row : List Int)
    (h : ∀ v ∈ row, 0 ≤ v ∧ v ≤ 254) :
    render_row (ascii dark_mode) row
      = some (row.map (fun v => (ascii dark_mode).getD v.toNat ' ') ++ ['\n']) := by
  unfold render_row
  rw [allSome_map_some (glyph (ascii dark_mode))
    (fun v => (ascii dark_mode).getD v.toNat ' ') row
    (fun v hv => glyph_in_range dark_mode v (h v hv).1 (h v hv).2)]
  rfl

/-- The text written to `oss` for a grid of samples in `[0, 254]`. -/
theorem render_in_range (dark_mode : Bool) (scaled : Grid)
    (h : ∀ row ∈ scaled, ∀ v ∈ row, 0 ≤ v ∧ v ≤ 254) :
    render dark_mode scaled
      = some ((scaled.map fun row =>
          row.map (fun v => (ascii dark_mode).getD v.toNat ' ') ++ ['\n']).flatten ++ ['\n']) := by
  unfold render
  rw [allSome_map_some (render_row (ascii dark_mode))
    (fun row => row.map (fun v => (ascii dark_mode).getD v.toNat ' ') ++ ['\n']) scaled
    (fun row hrow => render_row_in_range dark_mode row (h row hrow))]
  rfl

/-- C9 (as stated, refuted). The claim makes the text of the 1 x 1 grid `[[0]]` under the
unreversed ramp the glyph `ramp[0]` followed by one newline and nothing else; the text that
`Worker::work` builds has a second newline, written by `oss << std::endl` (line 388). -/
theorem render_trailing_newline_counterexample :
    glyph (ascii true) 0 = some ' ' ∧
    render true [[0]] = some [' ', '\n', '\n'] ∧
    render true [[0]] ≠ some [' ', '\n'] := by
  decide

/-- C9 (amended). For every grid of samples in `[0, 254]` and either ramp orientation, the
text built by `Worker::work` is the concatenation, in row order, of each row's glyphs (one
character per sample, in column order) followed by one newline per row, and then one more
newline; an all-zero `H x W` grid under the unreversed ramp yields `H` lines of `W` copies
of `ramp[0]`, each newline-terminated, followed by that final newline. -/
theorem render_format (dark_mode : Bool) (scaled : Grid)
    (h : ∀ row ∈ scaled, ∀ v ∈ row, 0 ≤ v ∧ v ≤ 254) :
    render dark_mode scaled
      = some ((scaled.map fun row =>
          row.map (fun v => (ascii dark_mode).getD v.toNat ' ') ++ ['\n']).flatten ++ ['\n']) ∧
    ∀ H W : Nat,
      render true (List.replicate H (List.replicate W 0))
        = some ((List.replicate H (List.replicate W (ascii_sub.getD 0 ' ') ++ ['\n'])).flatten
            ++ ['\n']) := by
  refine ⟨render_in_range dark_mode scaled h, ?_⟩
  intro H W
  rw [render_in_range true]
  · simp [List.map_replicate, ascii]
  · intro row hrow v hv
    rw [List.eq_of_mem_replicate hrow] at hv
    rw [List.eq_of_mem_replicate hv]
    decide

/-- Witness of C9 (amended) on the grid of the specification's concrete scenario. -/
theorem render_format_witness :
    (∀ row ∈ ([[0, 85, 170, 254], [254, 170, 85, 0]] : Grid), ∀ v ∈ row, 0 ≤ v ∧ v ≤ 254) ∧
    render true [[0, 85, 170, 254], [254, 170, 85, 0]]
      = some ((([[0, 85, 170, 254], [254, 170, 85, 0]] : Grid).map fun row =>
          row.map (fun v => (ascii true).getD v.toNat ' ') ++ ['\n']).flatten ++ ['\n']) :=
  ⟨by decide, (render_format true [[0, 85, 170, 254], [254, 170, 85, 0]] (by decide)).1⟩

/-! ## The concrete scenario of the specification -/

/-- The luminance map of a successful `parse_file` call, from its projection. -/
theorem parse_file_of_lum_map {image : Str} {width height : Int} {donefrac progress_frac : ℚ}
    {will_stop : Nat → Bool} {stopped : Bool} {g : Grid}
    (h : (parse_file image width height donefrac progress_frac will_stop stopped).map
      (fun ps => ps.lum_map) = some g) :
    ∃ ps, parse_file image width height donefrac progress_frac will_stop stopped = some ps ∧
      ps.lum_map = g := by
  cases hp : parse_file image width height donefrac progress_frac will_stop stopped with
  | none => simp [hp] at h
  | some ps =>
    refine ⟨ps, rfl, ?_⟩
    simpa [hp] using h

/-- C10. Concrete scenario: for the raster `"P2\n4 2\n255\n0 85 170 254 254 170 85 0\n"` with
`scale_factor = 1.0` and the unreversed ramp, `trim_file` yields `width = 4`, `height = 2`,
`destw = 4`, `desth = 2` and the payload; `parse_file` yields the grid
`[[0,85,170,254],[254,170,85,0]]`, which the scale-1 step keeps; the rendering has two rows
of four characters, row 1 being `ramp[0] ramp[85] ramp[170] ramp[254]` and row 2 the same
characters in reverse order (each row newline-terminated, then the newline of `std::endl`),
and this is the message that `Worker::work` publishes. -/
theorem concrete_scenario :
    (∀ width0 height0 : Int,
      trim_file "P2\n4 2\n255\n0 85 170 254 254 170 85 0\n".toList width0 height0 1
        = some { image := "0 85 170 254 254 170 85 0\n".toList,
                 width := 4, height := 2, destw := 4, desth := 2 }) ∧
    (parse_file "0 85 170 254 254 170 85 0\n".toList 4 2 0 (1 / 2) (fun _ => false) false).map
        (fun ps => ps.lum_map) = some [[0, 85, 170, 254], [254, 170, 85, 0]] ∧
    scaled_lum_map [[0, 85, 170, 254], [254, 170, 85, 0]] 4 2 4 2 1
      = some [[0, 85, 170, 254], [254, 170, 85, 0]] ∧
    render true [[0, 85, 170, 254], [254, 170, 85, 0]]
      = some ([ascii_sub.getD 0 ' ', ascii_sub.getD 85 ' ', ascii_sub.getD 170 ' ',
                ascii_sub.getD 254 ' '] ++ ['\n'] ++
              [ascii_sub.getD 0 ' ', ascii_sub.getD 85 ' ', ascii_sub.getD 170 ' ',
                ascii_sub.getD 254 ' '].reverse ++ ['\n'] ++ ['\n']) ∧
    (work { will_stop := false, stopped := true, donefrac := 0, message := [] }
        { pgm := "P2\n4 2\n255\n0 85 170 254 254 170 85 0\n".toList, width0 := 0, height0 := 0,
          stop_by := fun _ => false }
        "image.png".toList 1 1920 1080 { size_limit := true, dark_mode := true }).map
        (fun r => r.1.message) = some " Fh@\n@hF \n\n".toList := by
  have htrim : ∀ width0 height0 : Int,
      trim_file "P2\n4 2\n255\n0 85 170 254 254 170 85 0\n".toList width0 height0 1
        = some { image := "0 85 170 254 254 170 85 0\n".toList,
                 width := 4, height := 2, destw := 4, desth := 2 } := by
    intro width0 height0
    rw [trim_file_eq _ width0 height0 1 4 2 4 2
      (by rw [read_dims_of_space _ _ _ (by decide)]; decide)
      (dest_size_one 4 (by decide)) (dest_size_one 2 (by decide))]
    decide
  refine ⟨htrim, by decide, scaled_lum_map_keep _ 4 2 4 2 (by decide) (by decide), by decide, ?_⟩
  have hpgm : get_pgm "P2\n4 2\n255\n0 85 170 254 254 170 85 0\n".toList
      = "P2\n4 2\n255\n0 85 170 254 254 170 85 0\n".toList := by decide
  rw [work_after_checks _ _ _ 1 1920 1080 _
    { image := "0 85 170 254 254 170 85 0\n".toList, width := 4, height := 2,
      destw := 4, desth := 2 } (by decide) (by rw [hpgm]; exact htrim 0 0) (by decide)
    (by decide)]
  obtain ⟨ps, hps, hg⟩ := parse_file_of_lum_map
    (show (parse_file "0 85 170 254 254 170 85 0\n".toList 4 2 0 (1 / ((2 : Int) : ℚ))
      (fun k => false || (fun _ => false) k) false).map (fun ps => ps.lum_map)
        = some [[0, 85, 170, 254], [254, 170, 85, 0]] by decide)
  simp only [hps, Option.some_bind, hg]
  rw [scaled_lum_map_keep _ 4 2 4 2 (by decide) (by decide)]
  simp only [Option.some_bind]
  rw [show render true [[0, 85, 170, 254], [254, 170, 85, 0]] = some " Fh@\n@hF \n\n".toList
    by decide]
  rfl

/-! ## Evaluating the resampling step -/

theorem floor_mul_ratio (i n d : Int) (hd : 0 < d) :
    Int.floor ((i : ℚ) * ((n : ℚ) / (d : ℚ))) = (i * n) / d := by
  have h := Rat.floor_intCast_div_natCast (i * n) d.toNat
  have hcast : ((d.toNat : Int)) = d := Int.toNat_of_nonneg hd.le
  have hq : ((d.toNat : ℕ) : ℚ) = (d : ℚ) :=
    calc ((d.toNat : ℕ) : ℚ) = (((d.toNat : ℕ) : Int) : ℚ) := (Int.cast_natCast _).symm
      _ = (d : ℚ) := by rw [hcast]
  rw [hq, hcast] at h
  rw [← h]
  congr 1
  push_cast
  ring

theorem ceil_mul_ratio (i n d : Int) (hd : 0 < d) :
    Int.ceil ((i : ℚ) * ((n : ℚ) / (d : ℚ))) = -((-(i * n)) / d) := by
  have h := floor_mul_ratio (-i) n d hd
  have e : ((-i : Int) : ℚ) * ((n : ℚ) / (d : ℚ)) = -((i : ℚ) * ((n : ℚ) / (d : ℚ))) := by
    push_cast
    ring
  rw [e, Int.floor_neg] at h
  have e2 : -i * n = -(i * n) := by ring
  rw [e2] at h
  omega

theorem corners_eq_int (lum_map : Grid) (nx dx ny dy h w : Int) (hdx : 0 < dx) (hdy : 0 < dy) :
    spec_corners lum_map ((nx : ℚ) / (dx : ℚ)) ((ny : ℚ) / (dy : ℚ)) h w
      = corners_int lum_map nx dx ny dy h w := by
  unfold spec_corners corners_int
  simp only [floor_mul_ratio _ _ _ hdx, floor_mul_ratio _ _ _ hdy, ceil_mul_ratio _ _ _ hdx,
    ceil_mul_ratio _ _ _ hdy]

/-- The ratio in force when the test of line 339 fails, for sizes up to `2^24`. -/
theorem ratio_of_kept (size dest : Int) (r0 : ℚ) (hs : 1 ≤ size) (hs2 : size ≤ 2 ^ 24)
    (hd : 2 ≤ dest) (hd2 : dest ≤ 2 ^ 24)
    (h0 : to_float (((size - 1 : Int) : ℚ) / ((dest - 1 : Int) : ℚ)) = r0)
    (hp : to_float (r0 * ((dest - 1 : Int) : ℚ)) ≤ ((size - 1 : Int) : ℚ)) :
    ratio_of size dest = some r0 := by
  have hfn : to_float ((size - 1 : Int) : ℚ) = ((size - 1 : Int) : ℚ) :=
    to_float_intCast _ (by omega) (by omega)
  have hfd : to_float ((dest - 1 : Int) : ℚ) = ((dest - 1 : Int) : ℚ) :=
    to_float_intCast _ (by omega) (by omega)
  unfold ratio_of
  rw [ratio_eq _ _ (by omega : 1 ≤ dest - 1)]
  unfold adjust
  simp only [hfn, hfd, h0]
  rw [if_neg (not_lt.mpr hp)]

/-- The ratio in force when the test of line 339 succeeds, for sizes up to `2^24`. -/
theorem ratio_of_adjusted (size dest : Int) (r0 r1 : ℚ) (hs : 2 ≤ size) (hs2 : size ≤ 2 ^ 24)
    (hd : 2 ≤ dest) (hd2 : dest ≤ 2 ^ 24)
    (h0 : to_float (((size - 1 : Int) : ℚ) / ((dest - 1 : Int) : ℚ)) = r0)
    (hp : ((size - 1 : Int) : ℚ) < to_float (r0 * ((dest - 1 : Int) : ℚ)))
    (h1 : to_float (((size - 1 - 1 : Int) : ℚ) / ((dest - 1 : Int) : ℚ)) = r1) :
    ratio_of size dest = some r1 := by
  have hfn : to_float ((size - 1 : Int) : ℚ) = ((size - 1 : Int) : ℚ) :=
    to_float_intCast _ (by omega) (by omega)
  have hfn1 : to_float ((size - 1 - 1 : Int) : ℚ) = ((size - 1 - 1 : Int) : ℚ) :=
    to_float_intCast _ (by omega) (by omega)
  have hfd : to_float ((dest - 1 : Int) : ℚ) = ((dest - 1 : Int) : ℚ) :=
    to_float_intCast _ (by omega) (by omega)
  unfold ratio_of
  rw [ratio_eq _ _ (by omega : 1 ≤ dest - 1)]
  unfold adjust
  simp only [hfn, hfd, h0]
  rw [if_pos hp, ratio_eq _ _ (by omega : 1 ≤ dest - 1), hfn1, hfd, h1]

/-- The product `w*xratio` for an index up to `2^24`. -/
theorem scaled_index_eq (r : ℚ) (i : Int) (p : ℚ) (hi0 : 0 ≤ i) (hi : i ≤ 2 ^ 24)
    (hp : to_float ((i : ℚ) * r) = p) : scaled_index r i = p := by
  unfold scaled_index
  rw [to_float_intCast i hi0 hi, hp]

/-- Evaluation of a rounding: a value within half a unit of `m * 2^k`, for a 24-bit
significand `m`, rounds to it. -/
theorem to_float_eval (x q : ℚ) (m k : Int) (hm0 : 2 ^ 23 < m) (hm1 : m < 2 ^ 24)
    (h1 : ((m : ℚ) - 1 / 2) * (2 : ℚ) ^ k < x) (h2 : x < ((m : ℚ) + 1 / 2) * (2 : ℚ) ^ k)
    (hq : (m : ℚ) * (2 : ℚ) ^ k = q) : to_float x = q := by
  rw [to_float_near x m k hm0 hm1 h1 h2, hq]

theorem ratio_of_6_4 : ratio_of 6 4 = some (13981013 / 8388608) := by
  have h0 : to_float (((6 - 1 : Int) : ℚ) / ((4 - 1 : Int) : ℚ)) = 13981013 / 8388608 :=
    to_float_eval _ _ 13981013 (-23) (by norm_num) (by norm_num) (by norm_num) (by norm_num)
      (by norm_num)
  have hp : to_float ((13981013 / 8388608 : ℚ) * ((4 - 1 : Int) : ℚ)) = 5 :=
    to_float_eval _ _ 10485760 (-21) (by norm_num) (by norm_num) (by norm_num) (by norm_num)
      (by norm_num)
  apply ratio_of_kept 6 4 _ (by norm_num) (by norm_num) (by norm_num) (by norm_num) h0
  rw [hp]
  norm_num

theorem ratio_of_3_2 : ratio_of 3 2 = some 2 := by
  have h0 : to_float (((3 - 1 : Int) : ℚ) / ((2 - 1 : Int) : ℚ)) = 2 := by
    have := to_float_natCast 2 (by norm_num)
    norm_num
    exact_mod_cast this
  have hp : to_float ((2 : ℚ) * ((2 - 1 : Int) : ℚ)) = 2 := by
    have := to_float_natCast 2 (by norm_num)
    norm_num
    exact_mod_cast this
  apply ratio_of_kept 3 2 _ (by norm_num) (by norm_num) (by norm_num) (by norm_num) h0
  rw [hp]
  norm_num

/-- Evaluation of the source indices of lines 348-352 from the value of the product. -/
theorem index_eval (r : ℚ) (i : Int) (p : ℚ) (lo hi : Int) (hi0 : 0 ≤ i) (hi24 : i ≤ 2 ^ 24)
    (hp : to_float ((i : ℚ) * r) = p) (h1 : (lo : ℚ) ≤ p) (h2 : p < (lo : ℚ) + 1)
    (h3 : (hi : ℚ) - 1 < p) (h4 : p ≤ (hi : ℚ)) :
    Int.floor (scaled_index r i) = lo ∧ Int.ceil (scaled_index r i) = hi := by
  rw [scaled_index_eq r i p hi0 hi24 hp]
  constructor
  · rw [Int.floor_eq_iff]
    exact ⟨h1, h2⟩
  · rw [Int.ceil_eq_iff]
    exact ⟨h3, h4⟩

/-- The reads of `corners` once the four source indices are known. -/
theorem corners_eval (lum_map : Grid) (xr yr : ℚ) (h w xlow xhigh ylow yhigh : Int)
    (hx : Int.floor (scaled_index xr w) = xlow ∧ Int.ceil (scaled_index xr w) = xhigh)
    (hy : Int.floor (scaled_index yr h) = ylow ∧ Int.ceil (scaled_index yr h) = yhigh) :
    corners lum_map xr yr h w =
      (at2 lum_map ylow xlow).bind fun v1 =>
      (at2 lum_map ylow xhigh).bind fun v2 =>
      (at2 lum_map yhigh xlow).bind fun v3 =>
      (at2 lum_map yhigh xhigh).map fun v4 => (v1, v2, v3, v4) := by
  unfold corners
  simp only [hx.1, hx.2, hy.1, hy.2]

/-- For a destination of at least `2 x 2` and a scale factor other than `1.0`, cell
`(h, w)` of `scaled_lum_map` is the first corner of that cell, for every source grid. -/
theorem scaled_lum_map_eq_corners (lum_map : Grid) (width height destw desth : Int)
    (scale_factor : ℚ) (hw1 : 1 ≤ width) (hh1 : 1 ≤ height) (hdw : 2 ≤ destw)
    (hdh : 2 ≤ desth) (hsf : scale_factor ≠ 1) (xr yr : ℚ)
    (hxr : ratio_of width destw = some xr) (hyr : ratio_of height desth = some yr) :
    scaled_lum_map lum_map width height destw desth scale_factor =
      allSome ((List.range desth.toNat).map fun (h : Nat) =>
        allSome ((List.range destw.toNat).map fun (w : Nat) =>
          (corners lum_map xr yr h w).map fun v => v.1)) := by
  obtain ⟨xr2, hxr2, hxr0⟩ := ratio_of_nonneg width destw hw1 hdw
  obtain ⟨yr2, hyr2, hyr0⟩ := ratio_of_nonneg height desth hh1 hdh
  rw [hxr] at hxr2
  rw [hyr] at hyr2
  cases hxr2
  cases hyr2
  unfold scaled_lum_map
  have hneg : ¬ (destw < 0 ∨ desth < 0) := by omega
  rw [if_neg hneg, if_neg hsf, hxr, hyr]
  have hfun : (fun (h : Nat) => allSome ((List.range destw.toNat).map fun (w : Nat) =>
        pixel lum_map (some xr) (some yr) (h : Int) (w : Int)))
      = fun (h : Nat) => allSome ((List.range destw.toNat).map fun (w : Nat) =>
        (corners lum_map xr yr h w).map fun v => v.1) := by
    funext h
    congr 2
    funext w
    exact pixel_eq _ _ _ _ _ hxr0 hyr0 (Int.ofNat_nonneg h) (Int.ofNat_nonneg w)
  simp only [hfun]

theorem index_6_4 :
    (Int.floor (scaled_index (13981013 / 8388608) 0) = 0 ∧
      Int.ceil (scaled_index (13981013 / 8388608) 0) = 0) ∧
    (Int.floor (scaled_index (13981013 / 8388608) 1) = 1 ∧
      Int.ceil (scaled_index (13981013 / 8388608) 1) = 2) ∧
    (Int.floor (scaled_index (13981013 / 8388608) 2) = 3 ∧
      Int.ceil (scaled_index (13981013 / 8388608) 2) = 4) ∧
    (Int.floor (scaled_index (13981013 / 8388608) 3) = 5 ∧
      Int.ceil (scaled_index (13981013 / 8388608) 3) = 5) := by
  refine ⟨?_, ?_, ?_, ?_⟩
  · apply index_eval _ 0 0 0 0 (by norm_num) (by norm_num) _ (by norm_num) (by norm_num)
      (by norm_num) (by norm_num)
    norm_num [to_float_zero]
  · apply index_eval _ 1 (13981013 / 8388608) 1 2 (by norm_num) (by norm_num) _ (by norm_num)
      (by norm_num) (by norm_num) (by norm_num)
    exact to_float_eval _ _ 13981013 (-23) (by norm_num) (by norm_num) (by norm_num)
      (by norm_num) (by norm_num)
  · apply index_eval _ 2 (13981013 / 4194304) 3 4 (by norm_num) (by norm_num) _ (by norm_num)
      (by norm_num) (by norm_num) (by norm_num)
    exact to_float_eval _ _ 13981013 (-22) (by norm_num) (by norm_num) (by norm_num)
      (by norm_num) (by norm_num)
  · apply index_eval _ 3 5 5 5 (by norm_num) (by norm_num) _ (by norm_num)
      (by norm_num) (by norm_num) (by norm_num)
    exact to_float_eval _ _ 10485760 (-21) (by norm_num) (by norm_num) (by norm_num)
      (by norm_num) (by norm_num)

theorem index_3_2 :
    (Int.floor (scaled_index 2 0) = 0 ∧ Int.ceil (scaled_index 2 0) = 0) ∧
    (Int.floor (scaled_index 2 1) = 2 ∧ Int.ceil (scaled_index 2 1) = 2) := by
  refine ⟨?_, ?_⟩
  · apply index_eval _ 0 0 0 0 (by norm_num) (by norm_num) _ (by norm_num) (by norm_num)
      (by norm_num) (by norm_num)
    norm_num [to_float_zero]
  · apply index_eval _ 1 2 2 2 (by norm_num) (by norm_num) _ (by norm_num)
      (by norm_num) (by norm_num) (by norm_num)
    have := to_float_natCast 2 (by norm_num)
    norm_num
    exact_mod_cast this

/-- With a destination width of 1 and a scale factor other than `1.0` the resampling
step does not produce a grid: `xratio` is a division by `destw - 1 = 0`. -/
theorem scaled_lum_map_destw_one (lum_map : Grid) (width height desth : Int)
    (scale_factor : ℚ) (hdh : 1 ≤ desth) (hsf : scale_factor ≠ 1) :
    scaled_lum_map lum_map width height 1 desth scale_factor = none := by
  unfold scaled_lum_map
  have hneg : ¬ ((1 : Int) < 0 ∨ desth < 0) := by omega
  rw [if_neg hneg, if_neg hsf, ratio_of_one]
  apply allSome_map_none _ _ 0
  · exact List.mem_range.mpr (by omega)
  · apply allSome_map_none _ _ 0
    · exact List.mem_range.mpr (by decide)
    · exact pixel_none_left _ _ _ _

/-- C2 (code defect). A 3 x 6 raster resampled with scale factor 1.5 (destination 2 x 4, as
`trim_file` derives it). The `float` ratio `xratio` is `13981013 / 2^23`, the value nearest
to `5/3`, and the test of line 339 fails. At destination cell `(0, 1)` the corners are
`v1 = 0`, `v2 = 90`, `v3 = 0`, `v4 = 90`, for the code as for the specification, and the
weights of the specification are `xw = 2/3`, `yw = 0`, so the bilinear value is 60; the
code stores 0, the corner `v1`, because `xweight` and `yweight` are `int` variables and
hold 0. -/
theorem bilinear_value_divergence :
    dest_size 6 (3 / 2) = some 4 ∧ dest_size 3 (3 / 2) = some 2 ∧
    ratio_of 6 4 = some (13981013 / 8388608) ∧ ratio_of 3 2 = some 2 ∧
    corners [[0, 0, 90, 0, 0, 0], [1, 2, 3, 4, 5, 6], [7, 8, 9, 10, 11, 12]]
      (13981013 / 8388608) 2 0 1 = some (0, 90, 0, 90) ∧
    spec_corners [[0, 0, 90, 0, 0, 0], [1, 2, 3, 4, 5, 6], [7, 8, 9, 10, 11, 12]] (5 / 3) 2 0 1
      = some (0, 90, 0, 90) ∧
    bilinear_spec [[0, 0, 90, 0, 0, 0], [1, 2, 3, 4, 5, 6], [7, 8, 9, 10, 11, 12]] 6 3 4 2 0 1
      = some 60 ∧
    pixel [[0, 0, 90, 0, 0, 0], [1, 2, 3, 4, 5, 6], [7, 8, 9, 10, 11, 12]]
      (ratio_of 6 4) (ratio_of 3 2) 0 1 = some 0 ∧
    scaled_lum_map [[0, 0, 90, 0, 0, 0], [1, 2, 3, 4, 5, 6], [7, 8, 9, 10, 11, 12]] 6 3 4 2 (3 / 2)
      = some [[0, 0, 0, 0], [7, 8, 10, 12]] := by
  have e := corners_eq_int [[0, 0, 90, 0, 0, 0], [1, 2, 3, 4, 5, 6], [7, 8, 9, 10, 11, 12]]
    5 3 2 1 0 1 (by decide) (by decide)
  have c : corners_int [[0, 0, 90, 0, 0, 0], [1, 2, 3, 4, 5, 6], [7, 8, 9, 10, 11, 12]]
      5 3 2 1 0 1 = some (0, 90, 0, 90) := by decide
  rw [c] at e
  norm_num at e
  obtain ⟨x0, x1, x2, x3⟩ := index_6_4
  obtain ⟨y0, y1⟩ := index_3_2
  have c01 : corners [[0, 0, 90, 0, 0, 0], [1, 2, 3, 4, 5, 6], [7, 8, 9, 10, 11, 12]]
      (13981013 / 8388608) 2 0 1 = some (0, 90, 0, 90) := by
    rw [corners_eval _ _ _ 0 1 _ _ _ _ x1 y0]
    rfl
  refine ⟨?_, ?_, ratio_of_6_4, ratio_of_3_2, c01, e, ?_, ?_, ?_⟩
  · apply dest_size_eval 6 (3 / 2) 4 4 (by decide) (by norm_num) _ (by decide) (by norm_num)
      (by norm_num)
    have := to_float_natCast 4 (by norm_num)
    norm_num
    exact_mod_cast this
  · apply dest_size_eval 3 (3 / 2) 2 2 (by decide) (by norm_num) _ (by decide) (by norm_num)
      (by norm_num)
    have := to_float_natCast 2 (by norm_num)
    norm_num
    exact_mod_cast this
  · unfold bilinear_spec
    norm_num
    rw [e]
    norm_num [Int.fract, float_to_int, INT_MIN, INT_MAX, Int.floor_eq_iff]
  · rw [ratio_of_6_4, ratio_of_3_2, pixel_eq _ _ _ _ _ (by norm_num) (by norm_num)
      (by norm_num) (by norm_num), c01]
    rfl
  · rw [scaled_lum_map_eq_corners _ 6 3 4 2 _ (by decide) (by decide) (by decide) (by decide)
      (by norm_num) _ _ ratio_of_6_4 ratio_of_3_2]
    rw [show (List.range (4 : Int).toNat) = [0, 1, 2, 3] from rfl,
      show (List.range (2 : Int).toNat) = [0, 1] from rfl]
    simp only [List.map_cons, List.map_nil, Nat.cast_ofNat, Nat.cast_zero, Nat.cast_one]
    rw [corners_eval _ _ _ 0 0 _ _ _ _ x0 y0, corners_eval _ _ _ 0 1 _ _ _ _ x1 y0,
      corners_eval _ _ _ 0 2 _ _ _ _ x2 y0, corners_eval _ _ _ 0 3 _ _ _ _ x3 y0,
      corners_eval _ _ _ 1 0 _ _ _ _ x0 y1, corners_eval _ _ _ 1 1 _ _ _ _ x1 y1,
      corners_eval _ _ _ 1 2 _ _ _ _ x2 y1, corners_eval _ _ _ 1 3 _ _ _ _ x3 y1]
    rfl

/-- C4 (code defect). A 3 x 3 raster with scale factor 2.0: `trim_file` derives the
destination size 1 x 1, which passes the validation of `Worker::work`; the resampling step
then divides by `destw - 1 = 0` and `desth - 1 = 0`, converts a non-finite float to `int`
and produces no grid, so `Worker::work` publishes nothing. -/
theorem resample_one_by_one_fails :
    trim_file "P2\n3 3\n255\n0 0 90 1 2 3 7 8 9\n".toList 0 0 2
      = some { image := "0 0 90 1 2 3 7 8 9\n".toList, width := 3, height := 3,
               destw := 1, desth := 1 } ∧
    (parse_file "0 0 90 1 2 3 7 8 9\n".toList 3 3 0 (1 / 3) (fun _ => false) false).map
        (fun ps => ps.lum_map) = some [[0, 0, 90], [1, 2, 3], [7, 8, 9]] ∧
    scaled_lum_map [[0, 0, 90], [1, 2, 3], [7, 8, 9]] 3 3 1 1 2 = none ∧
    work { will_stop := false, stopped := true, donefrac := 0, message := [] }
        { pgm := "P2\n3 3\n255\n0 0 90 1 2 3 7 8 9\n".toList, width0 := 0, height0 := 0,
          stop_by := fun _ => false }
        "image.png".toList 2 1920 1080 { size_limit := true, dark_mode := false } = none := by
  have hds : dest_size 3 2 = some 1 := by
    apply dest_size_eval 3 2 (3 / 2) 1 (by decide) (by norm_num) _ (by decide) (by norm_num)
      (by norm_num)
    have := to_float_exact 3 (-1) (by norm_num)
    norm_num at this
    norm_num
    exact this
  have htrim : trim_file "P2\n3 3\n255\n0 0 90 1 2 3 7 8 9\n".toList 0 0 2
      = some { image := "0 0 90 1 2 3 7 8 9\n".toList, width := 3, height := 3,
               destw := 1, desth := 1 } := by
    rw [trim_file_eq _ 0 0 2 3 3 1 1 (by decide) hds hds]
    decide
  have hone : ∀ g : Grid, scaled_lum_map g 3 3 1 1 2 = none := fun g =>
    scaled_lum_map_destw_one g 3 3 1 2 (by decide) (by norm_num)
  refine ⟨htrim, by decide, hone _, ?_⟩
  have hpgm : get_pgm "P2\n3 3\n255\n0 0 90 1 2 3 7 8 9\n".toList
      = "P2\n3 3\n255\n0 0 90 1 2 3 7 8 9\n".toList := by decide
  rw [work_after_checks _ _ _ 2 1920 1080 _
    { image := "0 0 90 1 2 3 7 8 9\n".toList, width := 3, height := 3, destw := 1, desth := 1 }
    (by decide) (by rw [hpgm]; exact htrim) (by decide) (by decide)]
  cases hp : parse_file "0 0 90 1 2 3 7 8 9\n".toList 3 3 0 (1 / ((3 : Int) : ℚ))
      (fun k => false || (fun _ => false) k) false with
  | none => rfl
  | some ps => simp only [Option.some_bind, hone]; rfl

/-- C8 (code defect). With the five-digit maximum value 65535 `trim_file` erases only four
characters after the dimension line (`newline + 5`), so the returned payload still starts
with the end of the maximum-value line, `5` and a newline, and `parse_file` reads that `5`
as the first sample; with the two-digit maximum value 15 it erases the first character of
the payload too, and the decoder then fails on the empty first token. -/
theorem trim_file_maxval_divergence :
    trim_file "P2\n4 2\n65535\n0 85 170 254 254 170 85 0\n".toList 0 0 1
      = some { image := "5\n0 85 170 254 254 170 85 0\n".toList, width := 4, height := 2,
               destw := 4, desth := 2 } ∧
    (parse_file "5\n0 85 170 254 254 170 85 0\n".toList 4 2 0 (1 / 2) (fun _ => false)
        false).map (fun ps => ps.lum_map) = some [[5, 85, 170, 254], [254, 170, 85, 0]] ∧
    trim_file "P2\n4 2\n15\n0 5 10 15 15 10 5 0\n".toList 0 0 1
      = some { image := " 5 10 15 15 10 5 0\n".toList, width := 4, height := 2,
               destw := 4, desth := 2 } ∧
    (parse_file " 5 10 15 15 10 5 0\n".toList 4 2 0 (1 / 2) (fun _ => false) false).map
        (fun ps => ps.lum_map) = none := by
  refine ⟨?_, by decide, ?_, by decide⟩
  · rw [trim_file_eq _ 0 0 1 4 2 4 2 (by decide) (dest_size_one 4 (by decide))
      (dest_size_one 2 (by decide))]
    decide
  · rw [trim_file_eq _ 0 0 1 4 2 4 2 (by decide) (dest_size_one 4 (by decide))
      (dest_size_one 2 (by decide))]
    decide

/-! ## Lemmas on `parse_file`: every stored sample is clamped -/

theorem clamp_bounds (num : Int) : 0 ≤ clamp num 0 254 ∧ clamp num 0 254 ≤ 254 := by
  unfold clamp
  split_ifs <;> omega

theorem push_at_in_range (g g2 : Grid) (i : Nat) (v : Int)
    (hg : ∀ row ∈ g, ∀ x ∈ row, 0 ≤ x ∧ x ≤ 254) (hv : 0 ≤ v ∧ v ≤ 254)
    (h : push_at g i v = some g2) : ∀ row ∈ g2, ∀ x ∈ row, 0 ≤ x ∧ x ≤ 254 := by
  induction g generalizing i g2 with
  | nil => simp [push_at] at h
  | cons r rest ih =>
    cases i with
    | zero =>
      simp only [push_at, Option.some.injEq] at h
      subst h
      intro row hrow x hx
      rcases List.mem_cons.mp hrow with rfl | hmem
      · rcases List.mem_append.mp hx with hx1 | hx1
        · exact hg r (List.mem_cons_self _ _) x hx1
        · rw [List.mem_singleton.mp hx1]
          exact hv
      · exact hg row (List.mem_cons_of_mem _ hmem) x hx
    | succ j =>
      simp only [push_at] at h
      cases hp : push_at rest j v with
      | none => simp [hp] at h
      | some g3 =>
        simp only [hp, Option.map_some', Option.some.injEq] at h
        subst h
        intro row hrow x hx
        rcases List.mem_cons.mp hrow with rfl | hmem
        · exact hg row (List.mem_cons_self _ _) x hx
        · exact ih g3 j (fun row hr => hg row (List.mem_cons_of_mem _ hr)) hp row hmem x hx

theorem store_token_in_range (st st2 : ParseState) (token : Str)
    (hg : ∀ row ∈ st.lum_map, ∀ x ∈ row, 0 ≤ x ∧ x ≤ 254)
    (h : store_token st token = some st2) :
    ∀ row ∈ st2.lum_map, ∀ x ∈ row, 0 ≤ x ∧ x ≤ 254 := by
  unfold store_token at h
  split_ifs at h with hskip
  · simp only [Option.some.injEq] at h
    subst h
    exact hg
  · cases hs : stoi token with
    | none => simp [hs] at h
    | some num =>
      simp only [hs, Option.some_bind] at h
      cases hp : push_at st.lum_map st.heightcount (clamp num 0 254) with
      | none => simp [hp] at h
      | some g =>
        simp only [hp, Option.map_some', Option.some.injEq] at h
        subst h
        exact push_at_in_range _ _ _ _ hg (clamp_bounds num) hp

theorem append_empty_row_in_range (g : Grid)
    (hg : ∀ row ∈ g, ∀ x ∈ row, 0 ≤ x ∧ x ≤ 254) :
    ∀ row ∈ g ++ [[]], ∀ x ∈ row, 0 ≤ x ∧ x ≤ 254 := by
  intro row hrow x hx
  rcases List.mem_append.mp hrow with h1 | h1
  · exact hg row h1 x hx
  · rw [List.mem_singleton.mp h1] at hx
    cases hx

/-- The two shapes of an iteration of the loop: it breaks at a row boundary, or it runs
the rest of the body on a state whose map is the old one, possibly with a new empty row. -/
theorem parse_token_cases (width : Int) (progress_frac : ℚ) (will_stop : Nat → Bool)
    (st : ParseState) (token : Str) (it : Iter)
    (h : parse_token width progress_frac will_stop st token = some it) :
    (∃ st2, it = Iter.brk st2 ∧ st2.lum_map = st.lum_map ++ [[]]) ∨
    (∃ st1 st2, it = Iter.next st2 ∧ store_token st1 token = some st2 ∧
      (st1.lum_map = st.lum_map ∨ st1.lum_map = st.lum_map ++ [[]])) := by
  unfold parse_token at h
  by_cases hw : st.widthcount = width
  · simp only [hw, if_true] at h
    by_cases hstop : will_stop (st.heightcount + 1) = true
    · simp only [hstop, if_true, Option.some.injEq] at h
      exact Or.inl ⟨_, h.symm, rfl⟩
    · simp only [hstop, Bool.false_eq_true, if_false] at h
      rw [Option.map_eq_some'] at h
      obtain ⟨st2, hs, rfl⟩ := h
      exact Or.inr ⟨_, st2, rfl, hs, Or.inr rfl⟩
  · simp only [hw, if_false] at h
    rw [Option.map_eq_some'] at h
    obtain ⟨st2, hs, rfl⟩ := h
    exact Or.inr ⟨_, st2, rfl, hs, Or.inl rfl⟩

theorem parse_token_in_range (width : Int) (progress_frac : ℚ) (will_stop : Nat → Bool)
    (st : ParseState) (token : Str) (it : Iter)
    (hg : ∀ row ∈ st.lum_map, ∀ x ∈ row, 0 ≤ x ∧ x ≤ 254)
    (h : parse_token width progress_frac will_stop st token = some it) :
    ∀ row ∈ it.state.lum_map, ∀ x ∈ row, 0 ≤ x ∧ x ≤ 254 := by
  rcases parse_token_cases width progress_frac will_stop st token it h with
    ⟨st2, rfl, hl⟩ | ⟨st1, st2, rfl, hs, hl⟩
  · simp only [Iter.state, hl]
    exact append_empty_row_in_range _ hg
  · simp only [Iter.state]
    refine store_token_in_range st1 st2 token ?_ hs
    rcases hl with hl | hl
    · rw [hl]
      exact hg
    · rw [hl]
      exact append_empty_row_in_range _ hg

theorem parse_loop_in_range (width : Int) (progress_frac : ℚ) (will_stop : Nat → Bool)
    (tokens : List Str) (st ps : ParseState)
    (hg : ∀ row ∈ st.lum_map, ∀ x ∈ row, 0 ≤ x ∧ x ≤ 254)
    (h : parse_loop width progress_frac will_stop st tokens = some ps) :
    ∀ row ∈ ps.lum_map, ∀ x ∈ row, 0 ≤ x ∧ x ≤ 254 := by
  induction tokens generalizing st with
  | nil =>
    simp only [parse_loop, Option.some.injEq] at h
    subst h
    exact hg
  | cons token rest ih =>
    simp only [parse_loop] at h
    cases hp : parse_token width progress_frac will_stop st token with
    | none => simp [hp] at h
    | some it =>
      have hr := parse_token_in_range width progress_frac will_stop st token it hg hp
      cases it with
      | next st2 =>
        simp only [hp] at h
        exact ih st2 hr h
      | brk st2 =>
        simp only [hp, Option.some.injEq] at h
        subst h
        exact hr

theorem parse_file_in_range (image : Str) (width height : Int) (donefrac progress_frac : ℚ)
    (will_stop : Nat → Bool) (stopped : Bool) (ps : ParseState)
    (h : parse_file image width height donefrac progress_frac will_stop stopped = some ps) :
    ∀ row ∈ ps.lum_map, ∀ x ∈ row, 0 ≤ x ∧ x ≤ 254 := by
  unfold parse_file at h
  refine parse_loop_in_range width progress_frac will_stop _ _ ps ?_ h
  intro row hrow x hx
  simp only [List.mem_singleton] at hrow
  subst hrow
  cases hx

/-! ## Lemmas on `std::stoi` -/

theorem isdigit_not_space (c : Char) (h : isdigit c = true) : isspace c = false := by
  unfold isdigit at h
  simp only [Bool.and_eq_true, decide_eq_true_eq] at h
  unfold isspace
  simp only [Bool.or_eq_false_iff, beq_eq_false_iff_ne, ne_eq]
  refine ⟨⟨⟨⟨⟨?_, ?_⟩, ?_⟩, ?_⟩, ?_⟩, ?_⟩ <;>
  · intro hc
    rw [hc] at h
    revert h
    decide

theorem isdigit_not_sign (c : Char) (h : isdigit c = true) : c ≠ '-' ∧ c ≠ '+' := by
  unfold isdigit at h
  simp only [Bool.and_eq_true, decide_eq_true_eq] at h
  constructor <;>
  · intro hc
    rw [hc] at h
    revert h
    decide

theorem dropWhile_spaces (pre r : Str) (h : ∀ c ∈ pre, isspace c = true) :
    (pre ++ r).dropWhile isspace = r.dropWhile isspace := by
  induction pre with
  | nil => rfl
  | cons a t ih =>
    have ha : isspace a = true := h a (List.mem_cons_self _ _)
    simp only [List.cons_append, List.dropWhile_cons, ha, if_true]
    exact ih (fun c hc => h c (List.mem_cons_of_mem _ hc))

theorem takeWhile_digits (ds post : Str) (hdig : ∀ c ∈ ds, isdigit c = true)
    (hpost : ∀ c, post.head? = some c → isdigit c = false) :
    (ds ++ post).takeWhile isdigit = ds := by
  induction ds with
  | nil =>
    cases post with
    | nil => rfl
    | cons c r =>
      have hc : isdigit c = false := hpost c rfl
      simp [List.takeWhile_cons, hc]
  | cons a t ih =>
    have ha : isdigit a = true := hdig a (List.mem_cons_self _ _)
    simp only [List.cons_append, List.takeWhile_cons, ha, if_true]
    rw [ih (fun c hc => hdig c (List.mem_cons_of_mem _ hc))]

/-- What `std::stoi` returns on white space, an optional minus sign, a run of digits and
a rest that does not start with a digit. -/
theorem stoi_signed_digits (pre ds post : Str) (neg : Bool)
    (hpre : ∀ c ∈ pre, isspace c = true) (hds : ds ≠ [])
    (hdig : ∀ c ∈ ds, isdigit c = true)
    (hpost : ∀ c, post.head? = some c → isdigit c = false) :
    stoi (pre ++ ((if neg then ['-'] else []) ++ ds ++ post)) =
      if INT_MIN ≤ (if neg then - digits_value ds else digits_value ds) ∧
          (if neg then - digits_value ds else digits_value ds) ≤ INT_MAX
      then some (if neg then - digits_value ds else digits_value ds) else none := by
  obtain ⟨d, t, rfl⟩ := List.exists_cons_of_ne_nil hds
  have hd : isdigit d = true := hdig d (List.mem_cons_self _ _)
  have hdsp := isdigit_not_space d hd
  obtain ⟨hd1, hd2⟩ := isdigit_not_sign d hd
  unfold stoi
  rw [dropWhile_spaces pre _ hpre]
  cases neg with
  | true =>
    have hm : isspace '-' = false := by decide
    simp only [if_true, List.cons_append, List.nil_append, List.dropWhile_cons, hm,
      Bool.false_eq_true, if_false, List.head?_cons, true_or, List.tail_cons]
    rw [show d :: (t ++ post) = (d :: t) ++ post from rfl, takeWhile_digits _ _ hdig hpost]
    simp
  | false =>
    simp only [Bool.false_eq_true, if_false, List.cons_append, List.nil_append,
      List.dropWhile_cons, hdsp, List.head?_cons, List.tail_cons]
    have hne : ¬ (some d = some '-' ∨ some d = some '+') := by
      simp only [Option.some.injEq]
      tauto
    rw [if_neg hne]
    rw [show d :: (t ++ post) = (d :: t) ++ post from rfl, takeWhile_digits _ _ hdig hpost]
    simp [hd1]

/-- A decimal integer token is an optional minus sign followed by a non-empty run of digits. -/
theorem is_decimal_shape (t : Str) (h : is_decimal t = true) :
    ∃ (neg : Bool) (ds : Str), t = (if neg then ['-'] else []) ++ ds ∧ ds ≠ [] ∧
      (∀ c ∈ ds, isdigit c = true) ∧
      decimal_value t = (if neg then - digits_value ds else digits_value ds) := by
  cases t with
  | nil => simp [is_decimal] at h
  | cons c r =>
    unfold is_decimal at h
    by_cases hc : c = '-'
    · subst hc
      simp only [if_true, Bool.and_eq_true, Bool.not_eq_true', List.isEmpty_eq_false,
        List.all_eq_true] at h
      refine ⟨true, r, by simp, ?_, h.2, by simp [decimal_value]⟩
      intro hr
      rw [hr] at h
      simp at h
    · simp only [hc, if_false, List.all_eq_true] at h
      exact ⟨false, c :: r, by simp, by simp, h, by simp [decimal_value, hc]⟩

theorem newline_is_space (n : Nat) : ∀ c ∈ List.replicate n '\n', isspace c = true := by
  intro c hc
  rw [List.eq_of_mem_replicate hc]
  decide

theorem newlines_head_not_digit (n : Nat) :
    ∀ c, (List.replicate n '\n').head? = some c → isdigit c = false := by
  intro c hc
  cases n with
  | zero => simp at hc
  | succ m =>
    simp only [List.replicate_succ, List.head?_cons, Option.some.injEq] at hc
    rw [← hc]
    decide

/-- Newlines around a decimal integer token do not change what `std::stoi` returns. -/
theorem stoi_with_newlines (pre post : Nat) (t : Str) (h : is_decimal t = true) :
    stoi (with_newlines pre post t) =
      if INT_MIN ≤ decimal_value t ∧ decimal_value t ≤ INT_MAX
      then some (decimal_value t) else none := by
  obtain ⟨neg, ds, rfl, hds, hdig, hval⟩ := is_decimal_shape t h
  rw [hval]
  unfold with_newlines
  rw [List.append_assoc]
  exact stoi_signed_digits _ ds _ neg (newline_is_space pre) hds hdig (newlines_head_not_digit post)

theorem stoi_decimal (t : Str) (h : is_decimal t = true) :
    stoi t =
      if INT_MIN ≤ decimal_value t ∧ decimal_value t ≤ INT_MAX
      then some (decimal_value t) else none := by
  have := stoi_with_newlines 0 0 t h
  simpa [with_newlines] using this

/-- A decimal integer token holds no space, and with newlines around it it is still not
one of the tokens that `parse_file` skips. -/
theorem with_newlines_props (pre post : Nat) (t : Str) (h : is_decimal t = true) :
    ' ' ∉ with_newlines pre post t ∧ with_newlines pre post t ≠ [] ∧
    with_newlines pre post t ≠ ['\n'] ∧ with_newlines pre post t ≠ [' '] := by
  obtain ⟨neg, ds, rfl, hds, hdig, -⟩ := is_decimal_shape t h
  obtain ⟨d, r, rfl⟩ := List.exists_cons_of_ne_nil hds
  have hd : isdigit d = true := hdig d (List.mem_cons_self _ _)
  have hmem : ∀ c ∈ with_newlines pre post ((if neg then ['-'] else []) ++ d :: r),
      c = '\n' ∨ c = '-' ∨ isdigit c = true := by
    intro c hc
    unfold with_newlines at hc
    simp only [List.mem_append, List.mem_replicate] at hc
    rcases hc with (⟨-, hc⟩ | hc) | ⟨-, hc⟩
    · exact Or.inl hc
    · rcases hc with hc | hc
      · cases neg with
        | true => simp at hc; exact Or.inr (Or.inl hc)
        | false => simp at hc
      · exact Or.inr (Or.inr (hdig c hc))
    · exact Or.inl hc
  have hdmem : d ∈ with_newlines pre post ((if neg then ['-'] else []) ++ d :: r) := by
    unfold with_newlines
    simp
  have hdn : d ≠ '\n' := by
    intro hc
    rw [hc] at hd
    revert hd
    decide
  have hds2 : d ≠ ' ' := by
    intro hc
    rw [hc] at hd
    revert hd
    decide
  refine ⟨?_, ?_, ?_, ?_⟩
  · intro hsp
    rcases hmem ' ' hsp with hc | hc | hc
    · revert hc; decide
    · revert hc; decide
    · revert hc; decide
  · intro he
    rw [he] at hdmem
    cases hdmem
  · intro he
    rw [he] at hdmem
    exact hdn (List.mem_singleton.mp hdmem)
  · intro he
    rw [he] at hdmem
    exact hds2 (List.mem_singleton.mp hdmem)

/-! ## Lemmas on `parse_file`: what is stored, and where -/

/-- Pushing onto the last row. -/
theorem push_at_last (done : Grid) (cur : List Int) (v : Int) :
    push_at (done ++ [cur]) done.length v = some (done ++ [cur ++ [v]]) := by
  induction done with
  | nil => rfl
  | cons r rest ih => simp [push_at, ih]

/-- A grid with `i + 1` rows ends with its row `i`. -/
theorem grid_split_last (g : Grid) (i : Nat) (h : i + 1 = g.length) :
    ∃ done cur, g = done ++ [cur] ∧ done.length = i := by
  have hne : g ≠ [] := by
    intro he
    rw [he] at h
    simp at h
  refine ⟨g.dropLast, g.getLast hne, (List.dropLast_append_getLast hne).symm, ?_⟩
  rw [List.length_dropLast]
  omega

/-- The rest of the loop body when the current row is the last one: the token is skipped,
or its clamped value is appended to the last row. -/
theorem store_token_last (st st2 : ParseState) (token : Str) (done : Grid) (cur : List Int)
    (hg : st.lum_map = done ++ [cur]) (hh : st.heightcount = done.length)
    (h : store_token st token = some st2) :
    st2.heightcount = st.heightcount ∧ st2.widthcount = st.widthcount + 1 ∧
    st2.donefrac = st.donefrac ∧ st2.stopped = st.stopped ∧ st2.notified = st.notified ∧
    (((token = ['\n'] ∨ token = [' ']) ∧ st2.lum_map = done ++ [cur]) ∨
     (¬ (token = ['\n'] ∨ token = [' ']) ∧
        ∃ num, stoi token = some num ∧ st2.lum_map = done ++ [cur ++ [clamp num 0 254]])) := by
  unfold store_token at h
  by_cases hskip : token = ['\n'] ∨ token = [' ']
  · simp only [hskip, if_true, Option.some.injEq] at h
    subst h
    exact ⟨rfl, rfl, rfl, rfl, rfl, Or.inl ⟨hskip, hg⟩⟩
  · simp only [hskip, if_false] at h
    cases hs : stoi token with
    | none => simp [hs] at h
    | some num =>
      simp only [hs, Option.some_bind, hg, hh, push_at_last, Option.map_some',
        Option.some.injEq] at h
      subst h
      exact ⟨hh.symm, rfl, rfl, rfl, rfl, Or.inr ⟨hskip, num, rfl, rfl⟩⟩

/-- The samples that a token contributes: none when it is skipped, else its clamped value. -/
theorem store_token_flatten (st st2 : ParseState) (token : Str)
    (hh : st.heightcount + 1 = st.lum_map.length)
    (h : store_token st token = some st2) :
    st2.heightcount + 1 = st2.lum_map.length ∧
    ∃ ns : List Int,
      ([token].filter fun t => decide (¬ (t = ['\n'] ∨ t = [' ']))).map stoi = ns.map some ∧
      st2.lum_map.flatten = st.lum_map.flatten ++ ns.map fun n => clamp n 0 254 := by
  obtain ⟨done, cur, hg, hlen⟩ := grid_split_last st.lum_map st.heightcount hh
  obtain ⟨h1, -, -, -, -, h6⟩ := store_token_last st st2 token done cur hg hlen.symm h
  rcases h6 with ⟨hskip, hl⟩ | ⟨hskip, num, hs, hl⟩
  · refine ⟨by rw [h1, hl, ← hg]; exact hh, [], ?_, ?_⟩
    · simp [List.filter, hskip]
    · simp [hl, hg]
  · refine ⟨by rw [h1, hl, hh, hg]; simp, [num], ?_, ?_⟩
    · simp [List.filter, hskip, hs]
    · simp [hl, hg]

/-- One step of the loop when no cancellation is requested: a new row is started if the
current one is full, then the rest of the body runs. -/
theorem parse_loop_cons_no_stop (width : Int) (progress_frac : ℚ) (st : ParseState)
    (token : Str) (rest : List Str) :
    parse_loop width progress_frac (fun _ => false) st (token :: rest) =
      (store_token
        (if st.widthcount = width then
          { st with widthcount := 0, lum_map := st.lum_map ++ [[]],
                    heightcount := st.heightcount + 1,
                    donefrac := st.donefrac + progress_frac, notified := st.notified + 1 }
         else st) token).bind
        fun st2 => parse_loop width progress_frac (fun _ => false) st2 rest := by
  by_cases hw : st.widthcount = width
  · simp only [parse_loop, parse_token, hw, if_true, Bool.false_eq_true, if_false]
    cases store_token _ token <;> rfl
  · simp only [parse_loop, parse_token, hw, if_false]
    cases store_token _ token <;> rfl

/-- Without cancellation the loop stores, in order, the clamped values of the tokens that
are not skipped. -/
theorem parse_loop_flatten (width : Int) (progress_frac : ℚ) (tokens : List Str)
    (st ps : ParseState) (hh : st.heightcount + 1 = st.lum_map.length)
    (h : parse_loop width progress_frac (fun _ => false) st tokens = some ps) :
    ∃ ns : List Int,
      (tokens.filter fun t => decide (¬ (t = ['\n'] ∨ t = [' ']))).map stoi = ns.map some ∧
      ps.lum_map.flatten = st.lum_map.flatten ++ ns.map fun n => clamp n 0 254 := by
  induction tokens generalizing st with
  | nil =>
    simp only [parse_loop, Option.some.injEq] at h
    subst h
    exact ⟨[], by simp, by simp⟩
  | cons token rest ih =>
    rw [parse_loop_cons_no_stop, Option.bind_eq_some] at h
    obtain ⟨st2, hs, h2⟩ := h
    have hstart : ∀ st1 : ParseState, st1.heightcount + 1 = st1.lum_map.length →
        store_token st1 token = some st2 →
        ∃ ns : List Int,
          ((token :: rest).filter fun t => decide (¬ (t = ['\n'] ∨ t = [' ']))).map stoi
            = ns.map some ∧
          ps.lum_map.flatten = st1.lum_map.flatten ++ ns.map fun n => clamp n 0 254 := by
      intro st1 hh1 hs1
      obtain ⟨hh2, ns1, hn1, hf1⟩ := store_token_flatten st1 st2 token hh1 hs1
      obtain ⟨ns2, hn2, hf2⟩ := ih st2 hh2 h2
      refine ⟨ns1 ++ ns2, ?_, ?_⟩
      · rw [show token :: rest = [token] ++ rest from rfl, List.filter_append,
          List.map_append, hn1, hn2, List.map_append]
      · rw [hf2, hf1]
        simp
    by_cases hw : st.widthcount = width
    · simp only [hw, if_true] at hs
      obtain ⟨ns, hn, hf⟩ := hstart _ (by simp [hh]) hs
      exact ⟨ns, hn, by simpa using hf⟩
    · simp only [hw, if_false] at hs
      exact hstart st hh hs

/-- The rest of the loop body succeeds when the current row exists and the token, unless
it is skipped, parses as an `int`. -/
theorem store_token_total (st : ParseState) (token : Str)
    (hh : st.heightcount + 1 = st.lum_map.length)
    (ht : ¬ (token = ['\n'] ∨ token = [' ']) → (stoi token).isSome = true) :
    ∃ st2, store_token st token = some st2 ∧ st2.heightcount + 1 = st2.lum_map.length := by
  obtain ⟨done, cur, hg, hlen⟩ := grid_split_last st.lum_map st.heightcount hh
  unfold store_token
  by_cases hskip : token = ['\n'] ∨ token = [' ']
  · simp only [hskip, if_true]
    exact ⟨_, rfl, hh⟩
  · obtain ⟨num, hs⟩ := Option.isSome_iff_exists.mp (ht hskip)
    simp only [hskip, if_false, hs, Option.some_bind, hg, ← hlen, push_at_last,
      Option.map_some']
    exact ⟨_, rfl, by simp⟩

/-- The loop of `parse_file` returns when every token that is not skipped parses as an
`int`, whatever the cancellation requests are. -/
theorem parse_loop_total (width : Int) (progress_frac : ℚ) (will_stop : Nat → Bool)
    (tokens : List Str) (st : ParseState) (hh : st.heightcount + 1 = st.lum_map.length)
    (ht : ∀ t ∈ tokens, ¬ (t = ['\n'] ∨ t = [' ']) → (stoi t).isSome = true) :
    ∃ ps, parse_loop width progress_frac will_stop st tokens = some ps := by
  induction tokens generalizing st with
  | nil => exact ⟨st, rfl⟩
  | cons token rest ih =>
    have ht1 := ht token (List.mem_cons_self _ _)
    have hrest : ∀ t ∈ rest, ¬ (t = ['\n'] ∨ t = [' ']) → (stoi t).isSome = true :=
      fun t hmem => ht t (List.mem_cons_of_mem _ hmem)
    by_cases hw : st.widthcount = width
    · by_cases hstop : will_stop (st.heightcount + 1) = true
      · refine ⟨{ st with widthcount := 0, lum_map := st.lum_map ++ [[]],
                          heightcount := st.heightcount + 1, stopped := true }, ?_⟩
        simp only [parse_loop, parse_token, hw, if_true, hstop]
      · obtain ⟨st2, hs, hh2⟩ := store_token_total
          { st with widthcount := 0, lum_map := st.lum_map ++ [[]],
                    heightcount := st.heightcount + 1,
                    donefrac := st.donefrac + progress_frac, notified := st.notified + 1 }
          token (by simp [hh]) ht1
        obtain ⟨ps, hps⟩ := ih st2 hh2 hrest
        refine ⟨ps, ?_⟩
        simp only [parse_loop, parse_token, hw, if_true, hstop, Bool.false_eq_true, if_false,
          hs, Option.map_some']
        exact hps
    · obtain ⟨st2, hs, hh2⟩ := store_token_total st token hh ht1
      obtain ⟨ps, hps⟩ := ih st2 hh2 hrest
      refine ⟨ps, ?_⟩
      simp only [parse_loop, parse_token, hw, if_false, hs, Option.map_some']
      exact hps

/-- C5. Clamping: (1) every sample stored by `parse_file` lies in `[0, 254]`; (2) when no
cancellation is requested the stored samples are, in order, `std::clamp(n, 0, 254)` of the
values `n` that `std::stoi` reads from the tokens (a token that is exactly a newline is
skipped); (3) `std::clamp(n, 0, 254)` keeps `n` in `[0, 254]`, turns `n > 254` into 254 and
a negative `n` into 0; (4) `parse_file` returns whenever every token that is not skipped
parses as an `int`. -/
theorem parse_file_clamps :
    (∀ (image : Str) (width height : Int) (donefrac progress_frac : ℚ)
        (will_stop : Nat → Bool) (stopped : Bool) (ps : ParseState),
      parse_file image width height donefrac progress_frac will_stop stopped = some ps →
      ∀ row ∈ ps.lum_map, ∀ v ∈ row, 0 ≤ v ∧ v ≤ 254) ∧
    (∀ (image : Str) (width height : Int) (donefrac progress_frac : ℚ) (stopped : Bool)
        (ps : ParseState),
      parse_file image width height donefrac progress_frac (fun _ => false) stopped = some ps →
      ∃ ns : List Int,
        ((getlines image ' ').filter fun t => decide (¬ (t = ['\n'] ∨ t = [' ']))).map stoi
          = ns.map some ∧
        ps.lum_map.flatten = ns.map fun n => clamp n 0 254) ∧
    (∀ n : Int, (0 ≤ n → n ≤ 254 → clamp n 0 254 = n) ∧ (254 < n → clamp n 0 254 = 254) ∧
      (n < 0 → clamp n 0 254 = 0)) ∧
    (∀ (image : Str) (width height : Int) (donefrac progress_frac : ℚ)
        (will_stop : Nat → Bool) (stopped : Bool),
      (∀ t ∈ getlines image ' ', ¬ (t = ['\n'] ∨ t = [' ']) → (stoi t).isSome = true) →
      ∃ ps, parse_file image width height donefrac progress_frac will_stop stopped = some ps) := by
  refine ⟨parse_file_in_range, ?_, ?_, ?_⟩
  · intro image width height donefrac progress_frac stopped ps h
    unfold parse_file at h
    obtain ⟨ns, hn, hf⟩ := parse_loop_flatten width progress_frac _ _ ps (by rfl) h
    exact ⟨ns, hn, by simpa using hf⟩
  · intro n
    unfold clamp
    refine ⟨?_, ?_, ?_⟩ <;> intros <;> split_ifs <;> omega
  · intro image width height donefrac progress_frac will_stop stopped ht
    unfold parse_file
    exact parse_loop_total width progress_frac will_stop _ _ (by rfl) ht

/-- Witness of C5 on the payload `0 300 -5 254` with width 2: the values 300 and -5 are
stored as 254 and 0. -/
theorem parse_file_clamps_witness :
    ∃ ps, parse_file "0 300 -5 254".toList 2 2 0 (1 / 2) (fun _ => false) false = some ps ∧
      ps.lum_map = [[0, 254], [0, 254]] ∧
      ∀ row ∈ ps.lum_map, ∀ v ∈ row, 0 ≤ v ∧ v ≤ 254 := by
  obtain ⟨ps, hps, hg⟩ := parse_file_of_lum_map
    (show (parse_file "0 300 -5 254".toList 2 2 0 (1 / 2) (fun _ => false) false).map
      (fun ps => ps.lum_map) = some [[0, 254], [0, 254]] by decide)
  exact ⟨ps, hps, hg, parse_file_clamps.1 _ _ _ _ _ _ _ ps hps⟩

/-! ## Lemmas on `chunks` -/

theorem chunks_length (W : Nat) (vals : List Int) :
    (chunks W vals).length = (vals.length + W - 1) / W := by
  simp [chunks]

/-- A full first row is the first chunk. -/
theorem chunks_cons_row (W : Nat) (hW : 1 ≤ W) (r X : List Int) (hr : r.length = W) :
    chunks W (r ++ X) = r :: chunks W X := by
  unfold chunks
  have hlen : ((r ++ X).length + W - 1) / W = (X.length + W - 1) / W + 1 := by
    rw [List.length_append, hr]
    have : W + X.length + W - 1 = (X.length + W - 1) + W := by omega
    rw [this, Nat.add_div_right _ (by omega : 0 < W)]
  rw [hlen, List.range_succ_eq_map, List.map_cons, List.map_map]
  congr 1
  · simp [hr]
  · apply List.map_congr_left
    intro i _
    simp only [Function.comp]
    have : Nat.succ i * W = r.length + i * W := by
      rw [hr, Nat.succ_mul]
      omega
    rw [this, List.drop_append]

/-- A non-empty row of at most `W` values is a single chunk. -/
theorem chunks_single (W : Nat) (cur : List Int) (h1 : 1 ≤ cur.length)
    (h2 : cur.length ≤ W) : chunks W cur = [cur] := by
  unfold chunks
  have hlen : (cur.length + W - 1) / W = 1 := by
    apply Nat.div_eq_of_lt_le <;> omega
  rw [hlen, show List.range 1 = [0] from rfl]
  simp only [List.map_cons, List.map_nil, Nat.zero_mul, List.drop_zero]
  rw [List.take_of_length_le h2]

/-- Full rows followed by a non-empty last row are the chunks of their concatenation. -/
theorem chunks_of_rows (W : Nat) (hW : 1 ≤ W) (done : Grid) (cur : List Int)
    (hdone : ∀ r ∈ done, r.length = W) (h1 : 1 ≤ cur.length) (h2 : cur.length ≤ W) :
    chunks W (done.flatten ++ cur) = done ++ [cur] := by
  induction done with
  | nil => simpa using chunks_single W cur h1 h2
  | cons r rest ih =>
    rw [List.flatten_cons, List.append_assoc,
      chunks_cons_row W hW r _ (hdone r (List.mem_cons_self _ _)),
      ih (fun x hx => hdone x (List.mem_cons_of_mem _ hx))]
    rfl

/-- The chunks of `W * H` values are `H` rows of `W` values. -/
theorem chunks_full (W H : Nat) (hW : 1 ≤ W) (vals : List Int) (h : vals.length = W * H) :
    (chunks W vals).length = H ∧ ∀ row ∈ chunks W vals, row.length = W := by
  have hlen : (vals.length + W - 1) / W = H := by
    rw [h]
    apply Nat.div_eq_of_lt_le
    · rw [Nat.mul_comm]; omega
    · have : (H + 1) * W = W * H + W := by ring
      omega
  refine ⟨by rw [chunks_length, hlen], ?_⟩
  intro row hrow
  unfold chunks at hrow
  rw [hlen] at hrow
  obtain ⟨i, hi, rfl⟩ := List.mem_map.mp hrow
  have hi2 := List.mem_range.mp hi
  rw [List.length_take, List.length_drop, h]
  have : i * W + W ≤ W * H := by
    have : (i + 1) * W ≤ H * W := Nat.mul_le_mul_right W (by omega)
    have e1 : (i + 1) * W = i * W + W := by ring
    have e2 : H * W = W * H := by ring
    omega
  omega

/-! ## Lemmas on `parse_file`: the rows -/

/-- The rest of the loop body on a token that parses as `v` and is not skipped. -/
theorem store_token_value (st : ParseState) (token : Str) (done : Grid) (cur : List Int)
    (v : Int) (hg : st.lum_map = done ++ [cur]) (hh : st.heightcount = done.length)
    (hskip : ¬ (token = ['\n'] ∨ token = [' '])) (hs : stoi token = some v) :
    store_token st token =
      some { st with widthcount := st.widthcount + 1,
                     lum_map := done ++ [cur ++ [clamp v 0 254]] } := by
  unfold store_token
  simp only [hskip, if_false, hs, Option.some_bind, hg, hh, push_at_last, Option.map_some']

/-- Without cancellation, on tokens that all parse and are not skipped, the loop fills the
rows width by width: the final map is the chunking of all values stored, progress is
reported once for every row added, and the flag `stopped` is not touched. -/
theorem parse_loop_layout (W : Nat) (hW : 1 ≤ W) (progress_frac : ℚ) (tokens : List Str)
    (vals : List Int)
    (hrel : List.Forall₂ (fun t v => ¬ (t = ['\n'] ∨ t = [' ']) ∧ stoi t = some v) tokens vals)
    (st : ParseState) (done : Grid) (cur : List Int)
    (hg : st.lum_map = done ++ [cur]) (hh : st.heightcount = done.length)
    (hwc : st.widthcount = (cur.length : Int))
    (hdone : ∀ r ∈ done, r.length = W) (hcur : cur.length ≤ W)
    (hinit : cur ≠ [] ∨ vals ≠ []) :
    ∃ ps, parse_loop (W : Int) progress_frac (fun _ => false) st tokens = some ps ∧
      ps.lum_map = chunks W (done.flatten ++ cur ++ vals.map fun v => clamp v 0 254) ∧
      ps.stopped = st.stopped ∧
      ps.notified + st.lum_map.length = st.notified + ps.lum_map.length ∧
      ps.donefrac + (st.lum_map.length : ℚ) * progress_frac
        = st.donefrac + (ps.lum_map.length : ℚ) * progress_frac := by
  induction hrel generalizing st done cur with
  | nil =>
    have hc : cur ≠ [] := by
      rcases hinit with h | h
      · exact h
      · exact absurd rfl h
    have h1 : 1 ≤ cur.length := by
      cases cur with
      | nil => exact absurd rfl hc
      | cons a t => simp
    refine ⟨st, rfl, ?_, rfl, rfl, rfl⟩
    rw [hg, List.map_nil, List.append_nil, chunks_of_rows W hW done cur hdone h1 hcur]
  | @cons t v ts vs htv _ ih =>
    obtain ⟨hskip, hs⟩ := htv
    rw [parse_loop_cons_no_stop]
    by_cases hfull : cur.length = W
    · have hw : st.widthcount = (W : Int) := by rw [hwc, hfull]
      simp only [hw, if_true]
      rw [store_token_value
        { st with widthcount := 0, lum_map := st.lum_map ++ [[]],
                  heightcount := st.heightcount + 1,
                  donefrac := st.donefrac + progress_frac, notified := st.notified + 1 }
        t (done ++ [cur]) [] v (by simp [hg]) (by simp [hh]) hskip hs]
      simp only [Option.some_bind]
      obtain ⟨ps, hps, hl, hst, hn, hd⟩ := ih
        { lum_map := (done ++ [cur]) ++ [[] ++ [clamp v 0 254]],
          heightcount := st.heightcount + 1, widthcount := 0 + 1,
          donefrac := st.donefrac + progress_frac, stopped := st.stopped,
          notified := st.notified + 1 }
        (done ++ [cur]) [clamp v 0 254] rfl
        (by simp [hh]) (by simp)
        (by
          intro r hr
          rcases List.mem_append.mp hr with h | h
          · exact hdone r h
          · rw [List.mem_singleton.mp h]
            exact hfull)
        (by simpa using hW) (Or.inl (by simp))
      refine ⟨ps, hps, ?_, hst, ?_, ?_⟩
      · rw [hl]
        simp
      · simp only [hg, List.length_append, List.length_singleton, List.nil_append] at hn ⊢
        omega
      · simp only [hg, List.length_append, List.length_singleton, List.nil_append,
          Nat.cast_add, Nat.cast_one] at hd ⊢
        linarith
    · have hw : ¬ st.widthcount = (W : Int) := by
        rw [hwc]
        intro h
        exact hfull (by exact_mod_cast h)
      simp only [hw, if_false]
      rw [store_token_value st t done cur v hg hh hskip hs]
      simp only [Option.some_bind]
      obtain ⟨ps, hps, hl, hst, hn, hd⟩ := ih
        { st with widthcount := st.widthcount + 1,
                  lum_map := done ++ [cur ++ [clamp v 0 254]] }
        done (cur ++ [clamp v 0 254]) rfl hh
        (by simp [hwc]) hdone (by simp; omega) (Or.inl (by simp))
      refine ⟨ps, hps, ?_, hst, ?_, ?_⟩
      · rw [hl]
        simp
      · simp only [hg, List.length_append, List.length_singleton] at hn ⊢
        omega
      · simp only [hg, List.length_append, List.length_singleton, Nat.cast_add,
          Nat.cast_one] at hd ⊢
        linarith

/-! ## Lemmas on the tokens of `parse_file` -/

theorem getline_from_append (delim : Char) (t cur rest : Str) (h : delim ∉ t) :
    getline_from delim cur (t ++ delim :: rest) = (cur ++ t) :: getline_from delim [] rest := by
  induction t generalizing cur with
  | nil => simp [getline_from]
  | cons c r ih =>
    have hc : c ≠ delim := fun e => h (e ▸ List.mem_cons_self _ _)
    have hr : delim ∉ r := fun e => h (List.mem_cons_of_mem _ e)
    show getline_from delim cur (c :: (r ++ delim :: rest)) = _
    rw [getline_from, if_neg hc, ih _ hr]
    simp

theorem getline_from_end (delim : Char) (t cur : Str) (h : delim ∉ t) (hne : cur ++ t ≠ []) :
    getline_from delim cur t = [cur ++ t] := by
  induction t generalizing cur with
  | nil =>
    have hcur : cur ≠ [] := by simpa using hne
    simp [getline_from, hcur]
  | cons c r ih =>
    have hc : c ≠ delim := fun e => h (e ▸ List.mem_cons_self _ _)
    have hr : delim ∉ r := fun e => h (List.mem_cons_of_mem _ e)
    rw [getline_from, if_neg hc, ih _ hr (by simp)]
    simp

/-- Non-empty tokens without a space, joined by single spaces, are read back one by one. -/
theorem getlines_join_spaces (toks : List Str) (h : ∀ t ∈ toks, ' ' ∉ t ∧ t ≠ []) :
    getlines (join_spaces toks) ' ' = toks := by
  induction toks with
  | nil => rfl
  | cons t ts ih =>
    have ht := h t (List.mem_cons_self _ _)
    cases ts with
    | nil =>
      unfold getlines
      simp only [join_spaces]
      rw [getline_from_end ' ' t [] ht.1 (by simpa using ht.2)]
      rfl
    | cons t2 ts2 =>
      have ih2 := ih (fun x hx => h x (List.mem_cons_of_mem _ hx))
      unfold getlines at ih2 ⊢
      simp only [join_spaces]
      rw [getline_from_append ' ' t [] _ ht.1, ih2]
      rfl

theorem join_spaces_snoc_tail (init : List Str) (last tail : Str) :
    join_spaces (init ++ [last]) ++ tail = join_spaces (init ++ [last ++ tail]) := by
  induction init with
  | nil => rfl
  | cons a rest ih =>
    cases rest with
    | nil => simp [join_spaces]
    | cons b bs =>
      show (a ++ ' ' :: join_spaces ((b :: bs) ++ [last])) ++ tail
        = a ++ ' ' :: join_spaces ((b :: bs) ++ [last ++ tail])
      rw [← ih]
      simp

theorem with_newlines_zero (t : Str) : with_newlines 0 0 t = t := by
  simp [with_newlines]

/-- Decimal integer tokens in `int` range, each with newlines around it, joined by single
spaces: without cancellation `parse_file` returns the chunking of the clamped values, and
notifies once for every row after the first. -/
theorem parse_file_decorated (W : Nat) (hW : 1 ≤ W) (xs : List (Nat × Nat × Str))
    (hne : xs ≠ [])
    (hdec : ∀ x ∈ xs, is_decimal x.2.2 = true ∧
      INT_MIN ≤ decimal_value x.2.2 ∧ decimal_value x.2.2 ≤ INT_MAX)
    (height : Int) (donefrac progress_frac : ℚ) (stopped : Bool) :
    ∃ ps, parse_file (join_spaces (xs.map fun x => with_newlines x.1 x.2.1 x.2.2)) W height
        donefrac progress_frac (fun _ => false) stopped = some ps ∧
      ps.lum_map = chunks W (xs.map fun x => clamp (decimal_value x.2.2) 0 254) ∧
      ps.stopped = stopped ∧ ps.notified + 1 = ps.lum_map.length ∧
      ps.donefrac + progress_frac = donefrac + (ps.lum_map.length : ℚ) * progress_frac := by
  unfold parse_file
  rw [getlines_join_spaces]
  · have hrel : List.Forall₂ (fun t v => ¬ (t = ['\n'] ∨ t = [' ']) ∧ stoi t = some v)
        (xs.map fun x => with_newlines x.1 x.2.1 x.2.2)
        (xs.map fun x => decimal_value x.2.2) := by
      rw [List.forall₂_map_left_iff, List.forall₂_map_right_iff, List.forall₂_same]
      intro x hx
      obtain ⟨hd, hr⟩ := hdec x hx
      obtain ⟨-, -, h3, h4⟩ := with_newlines_props x.1 x.2.1 x.2.2 hd
      refine ⟨by tauto, ?_⟩
      rw [stoi_with_newlines _ _ _ hd, if_pos hr]
    obtain ⟨ps, hps, hl, hst, hn, hd⟩ := parse_loop_layout W hW progress_frac _ _ hrel
      { lum_map := [[]], heightcount := 0, widthcount := 0, donefrac := donefrac,
        stopped := stopped, notified := 0 } [] [] rfl rfl rfl (by simp) (by simp)
      (Or.inr (by simpa using hne))
    refine ⟨ps, hps, ?_, hst, ?_, ?_⟩
    · rw [hl, List.map_map]
      rfl
    · simp only [List.length_singleton] at hn
      omega
    · simp only [List.length_singleton, Nat.cast_one, one_mul] at hd
      exact hd
  · intro t ht
    obtain ⟨x, hx, rfl⟩ := List.mem_map.mp ht
    obtain ⟨h1, h2, -, -⟩ := with_newlines_props x.1 x.2.1 x.2.2 (hdec x hx).1
    exact ⟨h1, h2⟩

/-! ## Row inference and separators -/

theorem store_token_congr (st : ParseState) (t1 t2 : Str)
    (h1 : ¬ (t1 = ['\n'] ∨ t1 = [' '])) (h2 : ¬ (t2 = ['\n'] ∨ t2 = [' ']))
    (hs : stoi t1 = stoi t2) : store_token st t1 = store_token st t2 := by
  unfold store_token
  simp only [h1, h2, if_false, hs]

theorem parse_token_congr (width : Int) (progress_frac : ℚ) (will_stop : Nat → Bool)
    (st : ParseState) (t1 t2 : Str)
    (h1 : ¬ (t1 = ['\n'] ∨ t1 = [' '])) (h2 : ¬ (t2 = ['\n'] ∨ t2 = [' ']))
    (hs : stoi t1 = stoi t2) :
    parse_token width progress_frac will_stop st t1
      = parse_token width progress_frac will_stop st t2 := by
  unfold parse_token
  simp only [store_token_congr _ t1 t2 h1 h2 hs]

/-- The loop does the same on two token lists whose tokens read as the same numbers. -/
theorem parse_loop_congr {α : Type} (width : Int) (progress_frac : ℚ)
    (will_stop : Nat → Bool) (xs : List α) (f g : α → Str)
    (h : ∀ x ∈ xs, ¬ (f x = ['\n'] ∨ f x = [' ']) ∧ ¬ (g x = ['\n'] ∨ g x = [' ']) ∧
      stoi (f x) = stoi (g x))
    (st : ParseState) :
    parse_loop width progress_frac will_stop st (xs.map f)
      = parse_loop width progress_frac will_stop st (xs.map g) := by
  induction xs generalizing st with
  | nil => rfl
  | cons x rest ih =>
    obtain ⟨h1, h2, hs⟩ := h x (List.mem_cons_self _ _)
    have ih2 := ih (fun y hy => h y (List.mem_cons_of_mem _ hy))
    simp only [List.map_cons, parse_loop,
      parse_token_congr width progress_frac will_stop st (f x) (g x) h1 h2 hs]
    cases parse_token width progress_frac will_stop st (g x) with
    | none => rfl
    | some it =>
      cases it with
      | next st1 => exact ih2 st1
      | brk st1 => rfl

/-- Newlines next to the single separating space change nothing: the decoder returns the
same result (or fails alike), whatever the cancellation requests are. -/
theorem parse_file_newlines_congr (width height : Int) (donefrac progress_frac : ℚ)
    (will_stop : Nat → Bool) (stopped : Bool) (xs : List (Nat × Nat × Str))
    (hdec : ∀ x ∈ xs, is_decimal x.2.2 = true) :
    parse_file (join_spaces (xs.map fun x => with_newlines x.1 x.2.1 x.2.2)) width height
        donefrac progress_frac will_stop stopped
      = parse_file (join_spaces (xs.map fun x => x.2.2)) width height
        donefrac progress_frac will_stop stopped := by
  unfold parse_file
  rw [getlines_join_spaces, getlines_join_spaces]
  · apply parse_loop_congr
    intro x hx
    have hd := hdec x hx
    obtain ⟨-, -, h3, h4⟩ := with_newlines_props x.1 x.2.1 x.2.2 hd
    obtain ⟨-, -, h5, h6⟩ := with_newlines_props 0 0 x.2.2 hd
    rw [with_newlines_zero] at h5 h6
    refine ⟨by tauto, by tauto, ?_⟩
    rw [stoi_with_newlines _ _ _ hd, stoi_decimal _ hd]
  · intro t ht
    obtain ⟨x, hx, rfl⟩ := List.mem_map.mp ht
    obtain ⟨h1, h2, -, -⟩ := with_newlines_props 0 0 x.2.2 (hdec x hx)
    rw [with_newlines_zero] at h1 h2
    exact ⟨h1, h2⟩
  · intro t ht
    obtain ⟨x, hx, rfl⟩ := List.mem_map.mp ht
    obtain ⟨h1, h2, -, -⟩ := with_newlines_props x.1 x.2.1 x.2.2 (hdec x hx)
    exact ⟨h1, h2⟩

/-- C6 (as stated, refuted). The payload `2147483648` is one decimal integer token, but
`std::stoi` throws `std::out_of_range` on it (the value is not an `int`), so with width 1
`parse_file` does not return the clamped value 254. -/
theorem parse_file_rows_counterexample :
    is_decimal "2147483648".toList = true ∧
    stoi "2147483648".toList = none ∧
    (parse_file "2147483648".toList 1 1 0 1 (fun _ => false) false).isSome = false := by
  decide

/-- C6 (amended). Row inference by width: for every width `W >= 1` and every payload of
`n >= 1` decimal integer tokens whose values are in the range of `int`, joined by single
spaces and optionally followed by one final newline, with no cancellation requested,
`parse_file` returns the clamped token values split row-major into consecutive chunks of
`W`; when `n = W * H` the grid has exactly `H` rows, each of length exactly `W`. -/
theorem parse_file_rows (W : Nat) (toks : List Str) (tail : Str) (height : Int)
    (donefrac progress_frac : ℚ) (stopped : Bool) (hW : 1 ≤ W) (hne : toks ≠ [])
    (hdec : ∀ t ∈ toks, is_decimal t = true ∧
      INT_MIN ≤ decimal_value t ∧ decimal_value t ≤ INT_MAX)
    (htail : tail = [] ∨ tail = ['\n']) :
    ∃ ps, parse_file (join_spaces toks ++ tail) W height donefrac progress_frac
        (fun _ => false) stopped = some ps ∧
      ps.lum_map = chunks W (toks.map fun t => clamp (decimal_value t) 0 254) ∧
      ∀ H : Nat, toks.length = W * H →
        ps.lum_map.length = H ∧ ∀ row ∈ ps.lum_map, row.length = W := by
  obtain ⟨init, last, rfl⟩ : ∃ init last, toks = init ++ [last] :=
    ⟨toks.dropLast, toks.getLast hne, (List.dropLast_append_getLast hne).symm⟩
  have hk : ∃ k : Nat, tail = List.replicate k '\n' := by
    rcases htail with h | h
    · exact ⟨0, by simp [h]⟩
    · exact ⟨1, by simp [h]⟩
  obtain ⟨k, hk⟩ := hk
  have hxs : (init.map (fun t => ((0 : Nat), (0 : Nat), t)) ++ [((0 : Nat), k, last)]) ≠ [] := by
    simp
  have hmapdec : ((init.map (fun t => ((0 : Nat), (0 : Nat), t)) ++
      [((0 : Nat), k, last)]).map fun x => with_newlines x.1 x.2.1 x.2.2)
      = init ++ [last ++ tail] := by
    have hid : (init.map (fun t => ((0 : Nat), (0 : Nat), t))).map
        (fun x => with_newlines x.1 x.2.1 x.2.2) = init := by
      rw [List.map_map]
      conv_rhs => rw [← List.map_id init]
      apply List.map_congr_left
      intro t _
      simp [with_newlines]
    rw [List.map_append, hid]
    simp [with_newlines, hk]
  have hmapval : ((init.map (fun t => ((0 : Nat), (0 : Nat), t)) ++
      [((0 : Nat), k, last)]).map fun x => clamp (decimal_value x.2.2) 0 254)
      = (init ++ [last]).map fun t => clamp (decimal_value t) 0 254 := by
    simp [List.map_map, Function.comp]
  obtain ⟨ps, hps, hl, -, -, -⟩ := parse_file_decorated W hW _ hxs
    (by
      intro x hx
      rcases List.mem_append.mp hx with h | h
      · obtain ⟨t, ht, rfl⟩ := List.mem_map.mp h
        exact hdec t (List.mem_append_left _ ht)
      · rw [List.mem_singleton.mp h]
        exact hdec last (by simp))
    height donefrac progress_frac stopped
  rw [hmapdec, ← join_spaces_snoc_tail] at hps
  rw [hmapval] at hl
  refine ⟨ps, hps, hl, ?_⟩
  intro H hH
  rw [hl]
  exact chunks_full W H hW _ (by simpa using hH)

/-- Witness of C6 (amended) on the payload of the specification's concrete scenario: eight
tokens, width 4, a final newline. -/
theorem parse_file_rows_witness :
    (1 ≤ 4) ∧
    ["0".toList, "85".toList, "170".toList, "254".toList, "254".toList, "170".toList,
      "85".toList, "0".toList] ≠ [] ∧
    (∀ t ∈ ["0".toList, "85".toList, "170".toList, "254".toList, "254".toList, "170".toList,
        "85".toList, "0".toList],
      is_decimal t = true ∧ INT_MIN ≤ decimal_value t ∧ decimal_value t ≤ INT_MAX) ∧
    (['\n'] = ([] : Str) ∨ ['\n'] = ['\n']) ∧
    ∃ ps, parse_file (join_spaces ["0".toList, "85".toList, "170".toList, "254".toList,
          "254".toList, "170".toList, "85".toList, "0".toList] ++ ['\n']) (4 : Nat) 2 0 (1 / 2)
        (fun _ => false) false = some ps ∧
      ps.lum_map = chunks 4 (["0".toList, "85".toList, "170".toList, "254".toList,
          "254".toList, "170".toList, "85".toList, "0".toList].map
            fun t => clamp (decimal_value t) 0 254) ∧
      ∀ H : Nat, ["0".toList, "85".toList, "170".toList, "254".toList, "254".toList,
          "170".toList, "85".toList, "0".toList].length = 4 * H →
        ps.lum_map.length = H ∧ ∀ row ∈ ps.lum_map, row.length = 4 :=
  ⟨by decide, by decide, by decide, by decide,
   parse_file_rows 4 _ ['\n'] 2 0 (1 / 2) false (by decide) (by decide) (by decide)
     (by decide)⟩

/-- C7 (as stated, refuted). Width 2, height 2, samples 0 85 170 254. With a newline
instead of the space between the rows, `std::getline(iss, token, ' ')` reads `85\n170` as
one token and `std::stoi` takes 85 from it: the sample 170 is lost and the grid is
`[[0,85],[254]]`, not the `[[0,85],[170,254]]` of the single-space payload. A newline
between two spaces is a token of its own that is skipped but counted in the row, and two
spaces in a row give an empty token on which `std::stoi` throws. -/
theorem newline_separator_counterexample :
    (parse_file "0 85\n170 254".toList 2 2 0 (1 / 2) (fun _ => false) false).map
        (fun ps => ps.lum_map) = some [[0, 85], [254]] ∧
    (parse_file "0 85 170 254".toList 2 2 0 (1 / 2) (fun _ => false) false).map
        (fun ps => ps.lum_map) = some [[0, 85], [170, 254]] ∧
    (parse_file "0 85 \n 170 254".toList 2 2 0 (1 / 2) (fun _ => false) false).map
        (fun ps => ps.lum_map) = some [[0, 85], [170], [254]] ∧
    (parse_file "0 85  170 254".toList 2 2 0 (1 / 2) (fun _ => false) false).map
        (fun ps => ps.lum_map) = none := by
  decide

/-- C7 (amended). For every `W, H >= 1` and every payload of `W * H` decimal integer
samples (values in the range of `int`) in which consecutive samples are separated by
exactly one space, with any number of newlines directly before or after that space (and
before the first or after the last sample), `parse_file` without cancellation returns the
same result as for the same samples separated by single spaces, and its grid is the
`H x W` grid of the clamped samples. -/
theorem parse_file_newlines_around_space (W H : Nat) (xs : List (Nat × Nat × Str))
    (height : Int) (donefrac progress_frac : ℚ) (stopped : Bool)
    (hW : 1 ≤ W) (hH : 1 ≤ H) (hlen : xs.length = W * H)
    (hdec : ∀ x ∈ xs, is_decimal x.2.2 = true ∧
      INT_MIN ≤ decimal_value x.2.2 ∧ decimal_value x.2.2 ≤ INT_MAX) :
    ∃ ps,
      parse_file (join_spaces (xs.map fun x => with_newlines x.1 x.2.1 x.2.2)) W height
        donefrac progress_frac (fun _ => false) stopped = some ps ∧
      parse_file (join_spaces (xs.map fun x => x.2.2)) W height
        donefrac progress_frac (fun _ => false) stopped = some ps ∧
      ps.lum_map = chunks W (xs.map fun x => clamp (decimal_value x.2.2) 0 254) ∧
      ps.lum_map.length = H ∧ ∀ row ∈ ps.lum_map, row.length = W := by
  have hne : xs ≠ [] := by
    intro he
    rw [he] at hlen
    have : 1 ≤ W * H := Nat.mul_pos hW hH
    simp at hlen
    omega
  obtain ⟨ps, hps, hl, -, -, -⟩ := parse_file_decorated W hW xs hne hdec height donefrac
    progress_frac stopped
  have hfull := chunks_full W H hW (xs.map fun x => clamp (decimal_value x.2.2) 0 254)
    (by simpa using hlen)
  refine ⟨ps, hps, ?_, hl, by rw [hl]; exact hfull.1, by rw [hl]; exact hfull.2⟩
  rw [← parse_file_newlines_congr W height donefrac progress_frac (fun _ => false) stopped xs
    (fun x hx => (hdec x hx).1)]
  exact hps

/-- Witness of C7 (amended): the samples 0 85 170 254 with width 2, written as
`0 85\n \n170 254\n` (newlines on either side of the middle space, and a final one). -/
theorem parse_file_newlines_around_space_witness :
    (1 ≤ 2) ∧ (1 ≤ 2) ∧
    [((0 : Nat), (0 : Nat), "0".toList), (0, 1, "85".toList), (1, 0, "170".toList),
      (0, 1, "254".toList)].length = 2 * 2 ∧
    (∀ x ∈ [((0 : Nat), (0 : Nat), "0".toList), (0, 1, "85".toList), (1, 0, "170".toList),
        (0, 1, "254".toList)],
      is_decimal x.2.2 = true ∧ INT_MIN ≤ decimal_value x.2.2 ∧ decimal_value x.2.2 ≤ INT_MAX) ∧
    join_spaces ([((0 : Nat), (0 : Nat), "0".toList), (0, 1, "85".toList),
        (1, 0, "170".toList), (0, 1, "254".toList)].map
          fun x => with_newlines x.1 x.2.1 x.2.2) = "0 85\n \n170 254\n".toList ∧
    ∃ ps,
      parse_file (join_spaces ([((0 : Nat), (0 : Nat), "0".toList), (0, 1, "85".toList),
          (1, 0, "170".toList), (0, 1, "254".toList)].map
            fun x => with_newlines x.1 x.2.1 x.2.2)) (2 : Nat) 2 0 (1 / 2)
        (fun _ => false) false = some ps ∧
      parse_file (join_spaces ([((0 : Nat), (0 : Nat), "0".toList), (0, 1, "85".toList),
          (1, 0, "170".toList), (0, 1, "254".toList)].map fun x => x.2.2)) (2 : Nat) 2 0
        (1 / 2) (fun _ => false) false = some ps ∧
      ps.lum_map = chunks 2 ([((0 : Nat), (0 : Nat), "0".toList), (0, 1, "85".toList),
          (1, 0, "170".toList), (0, 1, "254".toList)].map
            fun x => clamp (decimal_value x.2.2) 0 254) ∧
      ps.lum_map.length = 2 ∧ ∀ row ∈ ps.lum_map, row.length = 2 :=
  ⟨by decide, by decide, by decide, by decide, by decide,
   parse_file_newlines_around_space 2 2 _ 2 0 (1 / 2) false (by decide) (by decide)
     (by decide) (by decide)⟩

/-! ## The outcomes of `Worker::work` -/

/-- A glyph that is read is a character of the ramp. -/
theorem glyph_mem (ramp : List Char) (col : Int) (c : Char) (h : glyph ramp col = some c) :
    c ∈ ramp := by
  unfold glyph at h
  split_ifs at h
  exact List.get?_mem h

theorem mem_ascii (dark_mode : Bool) (c : Char) (h : c ∈ ascii dark_mode) : c ∈ ascii_sub := by
  unfold ascii at h
  cases dark_mode
  · simpa using h
  · simpa using h

/-- A rendered row holds ramp characters and its final newline. -/
theorem render_row_chars (dark_mode : Bool) (row : List Int) (txt : Str)
    (h : render_row (ascii dark_mode) row = some txt) :
    ∃ cs : Str, txt = cs ++ ['\n'] ∧ ∀ c ∈ cs, c ∈ ascii_sub := by
  unfold render_row at h
  rw [Option.map_eq_some'] at h
  obtain ⟨cs, hcs, rfl⟩ := h
  refine ⟨cs, rfl, ?_⟩
  intro c hc
  have hmap := allSome_eq_some _ _ hcs
  have hmem : some c ∈ row.map (glyph (ascii dark_mode)) := by
    rw [hmap]
    exact List.mem_map.mpr ⟨c, hc, rfl⟩
  obtain ⟨col, -, hcol⟩ := List.mem_map.mp hmem
  exact mem_ascii dark_mode c (glyph_mem _ col c hcol)

/-- The rendered text is not empty and holds only ramp characters and newlines. -/
theorem render_chars (dark_mode : Bool) (scaled : Grid) (text : Str)
    (h : render dark_mode scaled = some text) :
    text ≠ [] ∧ ∀ c ∈ text, c ∈ ascii_sub ∨ c = '\n' := by
  unfold render at h
  rw [Option.map_eq_some'] at h
  obtain ⟨rows, hrows, rfl⟩ := h
  refine ⟨by simp, ?_⟩
  intro c hc
  rcases List.mem_append.mp hc with hc1 | hc1
  · obtain ⟨txt, htxt, hct⟩ := List.mem_flatten.mp hc1
    have hmap := allSome_eq_some _ _ hrows
    have hmem : some txt ∈ scaled.map (render_row (ascii dark_mode)) := by
      rw [hmap]
      exact List.mem_map.mpr ⟨txt, htxt, rfl⟩
    obtain ⟨row, -, hrow⟩ := List.mem_map.mp hmem
    obtain ⟨cs, rfl, hcs⟩ := render_row_chars dark_mode row txt hrow
    rcases List.mem_append.mp hct with h1 | h1
    · exact Or.inl (hcs c h1)
    · exact Or.inr (List.mem_singleton.mp h1)
  · exact Or.inr (List.mem_singleton.mp hc1)

set_option maxRecDepth 8000 in
theorem sentinel_not_in_ramp : '-' ∉ ascii_sub := by
  decide

/-- The rendered text does not begin with the sentinel. -/
theorem render_head (dark_mode : Bool) (scaled : Grid) (text : Str)
    (h : render dark_mode scaled = some text) : text ≠ [] ∧ text.head? ≠ some '-' := by
  obtain ⟨hne, hch⟩ := render_chars dark_mode scaled text h
  refine ⟨hne, ?_⟩
  intro hh
  have hmem : '-' ∈ text := List.mem_of_mem_head? hh
  rcases hch '-' hmem with h1 | h1
  · exact sentinel_not_in_ramp h1
  · revert h1
    decide

/-- The branch of lines 270-278: no file selected. -/
theorem work_no_input (wk : Worker) (world : World) (scale_factor : ℚ)
    (swidth sheight : Int) (s : Settings) :
    work wk world [] scale_factor swidth sheight s =
      some ({ will_stop := wk.will_stop, stopped := true, donefrac := 0,
              message := msg_no_input }, 1) := by
  simp [work, reset]

/-- When `trim_file` does not return, neither does `Worker::work`. -/
theorem work_trim_none (wk : Worker) (world : World) (filename : Str) (scale_factor : ℚ)
    (swidth sheight : Int) (s : Settings) (hname : filename ≠ [])
    (htrim : trim_file (get_pgm world.pgm) world.width0 world.height0 scale_factor = none) :
    work wk world filename scale_factor swidth sheight s = none := by
  simp [work, hname, htrim]

/-- The branch of lines 291-299: the image is too large. -/
theorem work_too_large (wk : Worker) (world : World) (filename : Str) (scale_factor : ℚ)
    (swidth sheight : Int) (s : Settings) (hd : Header) (hname : filename ≠ [])
    (htrim : trim_file (get_pgm world.pgm) world.width0 world.height0 scale_factor = some hd)
    (hsize : (hd.destw > swidth - 50 ∨ hd.desth > sheight - 280) ∧ s.size_limit = true) :
    work wk world filename scale_factor swidth sheight s =
      some ({ will_stop := wk.will_stop, stopped := true, donefrac := 0,
              message := msg_too_large }, 1) := by
  unfold work
  simp only [if_neg hname, htrim, Option.some_bind, if_pos hsize]
  simp [reset]

/-- The branch of lines 300-310: the destination size is not positive. -/
theorem work_invalid_scale (wk : Worker) (world : World) (filename : Str) (scale_factor : ℚ)
    (swidth sheight : Int) (s : Settings) (hd : Header) (hname : filename ≠ [])
    (htrim : trim_file (get_pgm world.pgm) world.width0 world.height0 scale_factor = some hd)
    (hsize : ¬ ((hd.destw > swidth - 50 ∨ hd.desth > sheight - 280) ∧ s.size_limit = true))
    (hpos : hd.destw ≤ 0 ∨ hd.desth ≤ 0) :
    work wk world filename scale_factor swidth sheight s =
      some ({ will_stop := wk.will_stop, stopped := true, donefrac := 0,
              message := msg_invalid_scale }, 1) := by
  unfold work
  simp only [if_neg hname, htrim, Option.some_bind, if_neg hsize, if_pos hpos]
  simp [reset]

/-- A run that passes the validation and returns has published a rendering. -/
theorem work_published (wk : Worker) (world : World) (filename : Str) (scale_factor : ℚ)
    (swidth sheight : Int) (s : Settings) (hd : Header) (r : Worker × Nat)
    (hname : filename ≠ [])
    (htrim : trim_file (get_pgm world.pgm) world.width0 world.height0 scale_factor = some hd)
    (hsize : ¬ ((hd.destw > swidth - 50 ∨ hd.desth > sheight - 280) ∧ s.size_limit = true))
    (hpos : ¬ (hd.destw ≤ 0 ∨ hd.desth ≤ 0))
    (h : work wk world filename scale_factor swidth sheight s = some r) :
    ∃ ps scaled text,
      parse_file hd.image hd.width hd.height 0 (1 / (hd.height : ℚ))
        (fun k => wk.will_stop || world.stop_by k) false = some ps ∧
      scaled_lum_map ps.lum_map hd.width hd.height hd.destw hd.desth scale_factor
        = some scaled ∧
      render s.dark_mode scaled = some text ∧
      r = ({ will_stop := false, stopped := true, donefrac := ps.donefrac, message := text },
            ps.notified + 1) := by
  rw [work_after_checks wk world filename scale_factor swidth sheight s hd hname htrim hsize
    hpos] at h
  rw [Option.bind_eq_some] at h
  obtain ⟨ps, hps, h⟩ := h
  rw [Option.bind_eq_some] at h
  obtain ⟨scaled, hsc, h⟩ := h
  rw [Option.map_eq_some'] at h
  obtain ⟨text, htext, rfl⟩ := h
  exact ⟨ps, scaled, text, hps, hsc, htext, rfl⟩

theorem msg_heads :
    msg_no_input.head? = some '-' ∧ msg_too_large.head? = some '-' ∧
    msg_invalid_scale.head? = some '-' ∧ msg_no_input ≠ msg_too_large ∧
    msg_invalid_scale ≠ msg_too_large ∧ msg_no_input ≠ msg_invalid_scale := by
  decide

/-! ## Validation failures -/

/-- The header of the raster of the specification's concrete scenario, at scale 1. -/
theorem trim_file_scenario (width0 height0 : Int) :
    trim_file (get_pgm "P2\n4 2\n255\n0 85 170 254 254 170 85 0\n".toList) width0 height0 1
      = some { image := "0 85 170 254 254 170 85 0\n".toList,
               width := 4, height := 2, destw := 4, desth := 2 } := by
  have hpgm : get_pgm "P2\n4 2\n255\n0 85 170 254 254 170 85 0\n".toList
      = "P2\n4 2\n255\n0 85 170 254 254 170 85 0\n".toList := by decide
  rw [hpgm, trim_file_eq _ width0 height0 1 4 2 4 2
    (by rw [read_dims_of_space _ _ _ (by decide)]; decide)
    (dest_size_one 4 (by decide)) (dest_size_one 2 (by decide))]
  decide

/-- C11. Output-too-large check: in a run with a non-empty file name and a header that
`trim_file` has parsed, `Worker::work` publishes the too-large message (with `stopped` set,
`donefrac` still 0 and a single notification, so without decoding or rendering) when
`size_limit` is on and `destw > swidth - 50` or `desth > sheight - 280`; it publishes that
message in no other case; with `size_limit` off it never does. -/
theorem too_large_check (wk : Worker) (world : World) (filename : Str) (scale_factor : ℚ)
    (swidth sheight : Int) (s : Settings) (hd : Header) (hname : filename ≠ [])
    (htrim : trim_file (get_pgm world.pgm) world.width0 world.height0 scale_factor
      = some hd) :
    (((hd.destw > swidth - 50 ∨ hd.desth > sheight - 280) ∧ s.size_limit = true) →
      work wk world filename scale_factor swidth sheight s =
        some ({ will_stop := wk.will_stop, stopped := true, donefrac := 0,
                message := msg_too_large }, 1)) ∧
    (∀ r, work wk world filename scale_factor swidth sheight s = some r →
      r.1.message = msg_too_large →
      (hd.destw > swidth - 50 ∨ hd.desth > sheight - 280) ∧ s.size_limit = true) ∧
    (s.size_limit = false →
      ∀ r, work wk world filename scale_factor swidth sheight s = some r →
        r.1.message ≠ msg_too_large) := by
  have key : ∀ r, work wk world filename scale_factor swidth sheight s = some r →
      r.1.message = msg_too_large →
      (hd.destw > swidth - 50 ∨ hd.desth > sheight - 280) ∧ s.size_limit = true := by
    intro r hr hmsg
    by_contra hsize
    by_cases hpos : hd.destw ≤ 0 ∨ hd.desth ≤ 0
    · rw [work_invalid_scale wk world filename scale_factor swidth sheight s hd hname htrim
        hsize hpos, Option.some.injEq] at hr
      rw [← hr] at hmsg
      exact msg_heads.2.2.2.2.1 hmsg
    · obtain ⟨ps, scaled, text, -, -, htext, rfl⟩ := work_published wk world filename
        scale_factor swidth sheight s hd r hname htrim hsize hpos hr
      have hh := (render_head _ _ _ htext).2
      simp only at hmsg
      rw [hmsg] at hh
      exact hh msg_heads.2.1
  refine ⟨work_too_large wk world filename scale_factor swidth sheight s hd hname htrim,
    key, ?_⟩
  intro hoff r hr hmsg
  have := (key r hr hmsg).2
  rw [hoff] at this
  exact Bool.noConfusion this

/-- Witness of C11: the 4 x 2 raster of the concrete scenario on a display 50 wide. -/
theorem too_large_check_witness :
    "image.png".toList ≠ [] ∧
    trim_file (get_pgm "P2\n4 2\n255\n0 85 170 254 254 170 85 0\n".toList) 0 0 1
      = some { image := "0 85 170 254 254 170 85 0\n".toList,
               width := 4, height := 2, destw := 4, desth := 2 } ∧
    work { will_stop := false, stopped := true, donefrac := 0, message := [] }
        { pgm := "P2\n4 2\n255\n0 85 170 254 254 170 85 0\n".toList, width0 := 0, height0 := 0,
          stop_by := fun _ => false }
        "image.png".toList 1 50 1080 { size_limit := true, dark_mode := false } =
      some ({ will_stop := false, stopped := true, donefrac := 0,
              message := msg_too_large }, 1) :=
  ⟨by decide, trim_file_scenario 0 0,
   (too_large_check _
      (World.mk "P2\n4 2\n255\n0 85 170 254 254 170 85 0\n".toList 0 0 (fun _ => false))
      _ 1 50 1080 _ _ (by decide) (trim_file_scenario 0 0)).1 (by decide)⟩

/-- C14. No input selected: with an empty file name, for every prior state, scale factor,
bounds, settings and file contents, `Worker::work` publishes exactly the message
`-Please select an image`, sets `stopped`, leaves `donefrac` at 0 and notifies the
observer once; the result does not depend on the image file, which is neither converted,
trimmed nor decoded. -/
theorem no_input_selected (wk : Worker) (world : World) (scale_factor : ℚ)
    (swidth sheight : Int) (s : Settings) :
    work wk world [] scale_factor swidth sheight s =
      some ({ will_stop := wk.will_stop, stopped := true, donefrac := 0,
              message := "-Please select an image".toList }, 1) ∧
    ∀ world2 : World, work wk world2 [] scale_factor swidth sheight s
      = work wk world [] scale_factor swidth sheight s := by
  refine ⟨work_no_input wk world scale_factor swidth sheight s, ?_⟩
  intro world2
  rw [work_no_input, work_no_input]

/-- The destination sizes that `trim_file` returns are those of lines 183-184. -/
theorem trim_file_dest (image : Str) (width height : Int) (scale_factor : ℚ) (hd : Header)
    (h : trim_file image width height scale_factor = some hd) :
    dest_size hd.width scale_factor = some hd.destw ∧
    dest_size hd.height scale_factor = some hd.desth := by
  unfold trim_file at h
  simp only [Option.bind_eq_some, Option.map_eq_some'] at h
  obtain ⟨wh, -, destw, hdw, desth, hdh, rfl⟩ := h
  exact ⟨hdw, hdh⟩

/-- A width of zero gives a destination width of zero. -/
theorem dest_size_zero (scale_factor : ℚ) (d : Int) (h : dest_size 0 scale_factor = some d) :
    d = 0 := by
  unfold dest_size fdiv at h
  by_cases hs : scale_factor = 0
  · simp [hs] at h
  · simp [hs, to_float_zero, float_to_int, INT_MIN, INT_MAX] at h
    exact h.symm

theorem dest_size_half_1 : dest_size 1 2 = some 0 := by
  apply dest_size_eval 1 2 (1 / 2) 0 (by decide) (by norm_num) _ (by decide) (by norm_num)
    (by norm_num)
  have := to_float_exact 1 (-1) (by norm_num)
  norm_num at this
  norm_num
  exact this

theorem read_dims_none_trim (image : Str) (width height : Int) (scale_factor : ℚ)
    (h : read_dims (erase image 3) width height = none) :
    trim_file image width height scale_factor = none := by
  simp [trim_file, h]

/-- C12 (as stated, refuted). A 1 x 2000 raster with scale factor 2.0 on a 1920 x 1080
display, default settings: the destination size is 0 x 1000, so `destw <= 0`, but the
too-large check of line 291 comes first (`desth = 1000 > 1080 - 280`) and the message
published is the too-large one, not `-Invalid scale factor.`. -/
theorem invalid_scale_order_counterexample :
    trim_file (get_pgm "P2\n1 2000\n255\n0\n".toList) 0 0 2
      = some { image := "0\n".toList, width := 1, height := 2000, destw := 0, desth := 1000 } ∧
    work { will_stop := false, stopped := true, donefrac := 0, message := [] }
        { pgm := "P2\n1 2000\n255\n0\n".toList, width0 := 0, height0 := 0,
          stop_by := fun _ => false }
        "image.png".toList 2 1920 1080 { size_limit := true, dark_mode := false } =
      some ({ will_stop := false, stopped := true, donefrac := 0,
              message := msg_too_large }, 1) ∧
    msg_too_large ≠ msg_invalid_scale := by
  have hpgm : get_pgm "P2\n1 2000\n255\n0\n".toList = "P2\n1 2000\n255\n0\n".toList := by
    decide
  have hd1 : dest_size 1 2 = some 0 := dest_size_half_1
  have hd2 : dest_size 2000 2 = some 1000 := by
    apply dest_size_eval 2000 2 1000 1000 (by decide) (by norm_num) _ (by decide)
      (by norm_num) (by norm_num)
    have := to_float_natCast 1000 (by norm_num)
    norm_num
    exact_mod_cast this
  have htrim : trim_file (get_pgm "P2\n1 2000\n255\n0\n".toList) 0 0 2
      = some { image := "0\n".toList, width := 1, height := 2000, destw := 0,
               desth := 1000 } := by
    rw [hpgm, trim_file_eq _ 0 0 2 1 2000 0 1000 (by decide) hd1 hd2]
    decide
  refine ⟨htrim, ?_, by decide⟩
  exact work_too_large _ (World.mk "P2\n1 2000\n255\n0\n".toList 0 0 (fun _ => false)) _ 2
    1920 1080 _ _ (by decide) htrim (by decide)

/-- C12 (amended). Invalid scale factor: in a run with a non-empty file name, whenever the
destination size derived by `trim_file` has `destw <= 0` or `desth <= 0` and the too-large
check of line 291 does not apply (`size_limit` is off, or `destw <= swidth - 50` and
`desth <= sheight - 280`), `Worker::work` fails with the message `-Invalid scale factor.`
(`stopped` set, `donefrac` still 0, one notification: no decode, no rendering). -/
theorem invalid_scale_factor (wk : Worker) (world : World) (filename : Str)
    (scale_factor : ℚ) (swidth sheight : Int) (s : Settings) (hd : Header)
    (hname : filename ≠ [])
    (htrim : trim_file (get_pgm world.pgm) world.width0 world.height0 scale_factor = some hd)
    (hpos : hd.destw ≤ 0 ∨ hd.desth ≤ 0)
    (hsize : s.size_limit = false ∨ (hd.destw ≤ swidth - 50 ∧ hd.desth ≤ sheight - 280)) :
    work wk world filename scale_factor swidth sheight s =
      some ({ will_stop := wk.will_stop, stopped := true, donefrac := 0,
              message := "-Invalid scale factor.".toList }, 1) := by
  apply work_invalid_scale wk world filename scale_factor swidth sheight s hd hname htrim _
    hpos
  rintro ⟨h1, h2⟩
  rcases hsize with h | ⟨h3, h4⟩
  · rw [h] at h2
    exact Bool.noConfusion h2
  · omega

/-- Witness of C12 (amended): a 1 x 2 raster with scale factor 2.0 (destination 0 x 1). -/
theorem invalid_scale_factor_witness :
    "image.png".toList ≠ [] ∧
    trim_file (get_pgm "P2\n1 2\n255\n0 85\n".toList) 0 0 2
      = some { image := "0 85\n".toList, width := 1, height := 2, destw := 0, desth := 1 } ∧
    ((0 : Int) ≤ 0 ∨ (1 : Int) ≤ 0) ∧
    (true = false ∨ ((0 : Int) ≤ 1920 - 50 ∧ (1 : Int) ≤ 1080 - 280)) ∧
    work { will_stop := false, stopped := true, donefrac := 0, message := [] }
        { pgm := "P2\n1 2\n255\n0 85\n".toList, width0 := 0, height0 := 0,
          stop_by := fun _ => false }
        "image.png".toList 2 1920 1080 { size_limit := true, dark_mode := false } =
      some ({ will_stop := false, stopped := true, donefrac := 0,
              message := "-Invalid scale factor.".toList }, 1) := by
  have hpgm : get_pgm "P2\n1 2\n255\n0 85\n".toList = "P2\n1 2\n255\n0 85\n".toList := by
    decide
  have hd1 : dest_size 1 2 = some 0 := dest_size_half_1
  have hd2 : dest_size 2 2 = some 1 := by
    apply dest_size_eval 2 2 1 1 (by decide) (by norm_num) _ (by decide) (by norm_num)
      (by norm_num)
    norm_num
    exact to_float_one
  have htrim : trim_file (get_pgm "P2\n1 2\n255\n0 85\n".toList) 0 0 2
      = some { image := "0 85\n".toList, width := 1, height := 2, destw := 0,
               desth := 1 } := by
    rw [hpgm, trim_file_eq _ 0 0 2 1 2 0 1 (by decide) hd1 hd2]
    decide
  exact ⟨by decide, htrim, by decide, by decide,
    invalid_scale_factor _ (World.mk "P2\n1 2\n255\n0 85\n".toList 0 0 (fun _ => false)) _ 2
      1920 1080 _ _ (by decide) htrim (by decide) (by decide)⟩

/-- C13 (as stated, refuted). (1) A header whose dimension fields are not numbers
(`ab cd`): `std::stoi` throws at line 178 and nothing catches it, so the run does not end
with a message. (2) A header without any space: `width` and `height` keep the
indeterminate values they had, here 1 and 1; the run passes the validation and publishes
two newlines as a rendering, not a failure message. -/
theorem degenerate_header_counterexample :
    stoi "ab".toList = none ∧
    work { will_stop := false, stopped := true, donefrac := 0, message := [] }
        { pgm := "P2\nab cd\n255\n0\n".toList, width0 := 0, height0 := 0,
          stop_by := fun _ => false }
        "image.png".toList 1 1920 1080 { size_limit := true, dark_mode := false } = none ∧
    (work { will_stop := false, stopped := true, donefrac := 0, message := [] }
        { pgm := "P2\n42\n".toList, width0 := 1, height0 := 1, stop_by := fun _ => false }
        "image.png".toList 1 1920 1080 { size_limit := true, dark_mode := false }).map
        (fun r => r.1.message) = some ['\n', '\n'] := by
  refine ⟨by decide, ?_, ?_⟩
  · apply work_trim_none _ _ _ _ _ _ _ (by decide)
    apply read_dims_none_trim
    decide
  · have htrim : trim_file (get_pgm "P2\n42\n".toList) 1 1 1
        = some { image := [], width := 1, height := 1, destw := 1, desth := 1 } := by
      have hpgm : get_pgm "P2\n42\n".toList = "P2\n42\n".toList := by decide
      rw [hpgm, trim_file_eq _ 1 1 1 1 1 1 1 (by decide) (dest_size_one 1 (by decide))
        (dest_size_one 1 (by decide))]
      decide
    rw [work_after_checks _ (World.mk "P2\n42\n".toList 1 1 (fun _ => false)) _ 1 1920 1080 _
      { image := [], width := 1, height := 1, destw := 1, desth := 1 } (by decide) htrim
      (by decide) (by decide)]
    obtain ⟨ps, hps, hg⟩ := parse_file_of_lum_map
      (show (parse_file [] 1 1 0 (1 / ((1 : Int) : ℚ))
        (fun k => false || (fun _ => false) k) false).map (fun ps => ps.lum_map)
          = some [[]] by decide)
    simp only [hps, Option.some_bind, hg]
    rw [scaled_lum_map_keep _ 1 1 1 1 (by decide) (by decide)]
    simp only [Option.some_bind]
    rw [show render false [[]] = some ['\n', '\n'] by decide]
    rfl

/-- C13 (amended). Degenerate header: in a run with a non-empty file name, whenever
`trim_file` returns with `width = 0` (a header that declares width 0), the run terminates
normally with a sentinel-prefixed failure message, the too-large one when the check of
line 291 applies and `-Invalid scale factor.` otherwise, with `stopped` set, `donefrac`
still 0 and one notification. -/
theorem zero_width_header (wk : Worker) (world : World) (filename : Str)
    (scale_factor : ℚ) (swidth sheight : Int) (s : Settings) (hd : Header)
    (hname : filename ≠ [])
    (htrim : trim_file (get_pgm world.pgm) world.width0 world.height0 scale_factor = some hd)
    (hzero : hd.width = 0) :
    ∃ msg : Str,
      work wk world filename scale_factor swidth sheight s =
        some ({ will_stop := wk.will_stop, stopped := true, donefrac := 0,
                message := msg }, 1) ∧
      msg.head? = some '-' ∧
      ((msg = msg_too_large ∧
          (hd.destw > swidth - 50 ∨ hd.desth > sheight - 280) ∧ s.size_limit = true) ∨
       (msg = msg_invalid_scale ∧
          ¬ ((hd.destw > swidth - 50 ∨ hd.desth > sheight - 280) ∧ s.size_limit = true))) := by
  have hdw : hd.destw = 0 := by
    have h := (trim_file_dest _ _ _ _ hd htrim).1
    rw [hzero] at h
    exact dest_size_zero scale_factor hd.destw (by exact_mod_cast h)
  by_cases hsize : (hd.destw > swidth - 50 ∨ hd.desth > sheight - 280) ∧ s.size_limit = true
  · exact ⟨msg_too_large,
      work_too_large wk world filename scale_factor swidth sheight s hd hname htrim hsize,
      msg_heads.2.1, Or.inl ⟨rfl, hsize⟩⟩
  · exact ⟨msg_invalid_scale,
      work_invalid_scale wk world filename scale_factor swidth sheight s hd hname htrim hsize
        (Or.inl (by omega)),
      msg_heads.2.2.1, Or.inr ⟨rfl, hsize⟩⟩

/-- Witness of C13 (amended): the header `0 5` at scale 1. -/
theorem zero_width_header_witness :
    "image.png".toList ≠ [] ∧
    trim_file (get_pgm "P2\n0 5\n255\n\n".toList) 0 0 1
      = some { image := "\n".toList, width := 0, height := 5, destw := 0, desth := 5 } ∧
    ∃ msg : Str,
      work { will_stop := false, stopped := true, donefrac := 0, message := [] }
          { pgm := "P2\n0 5\n255\n\n".toList, width0 := 0, height0 := 0,
            stop_by := fun _ => false }
          "image.png".toList 1 1920 1080 { size_limit := true, dark_mode := false } =
        some ({ will_stop := false, stopped := true, donefrac := 0, message := msg }, 1) ∧
      msg.head? = some '-' ∧
      ((msg = msg_too_large ∧
          ((0 : Int) > 1920 - 50 ∨ (5 : Int) > 1080 - 280) ∧ true = true) ∨
       (msg = msg_invalid_scale ∧
          ¬ (((0 : Int) > 1920 - 50 ∨ (5 : Int) > 1080 - 280) ∧ true = true))) := by
  have htrim : trim_file (get_pgm "P2\n0 5\n255\n\n".toList) 0 0 1
      = some { image := "\n".toList, width := 0, height := 5, destw := 0, desth := 5 } := by
    have hpgm : get_pgm "P2\n0 5\n255\n\n".toList = "P2\n0 5\n255\n\n".toList := by decide
    rw [hpgm, trim_file_eq _ 0 0 1 0 5 0 5 (by decide) (dest_size_one 0 (by decide))
      (dest_size_one 5 (by decide))]
    decide
  exact ⟨by decide, htrim,
    zero_width_header _ (World.mk "P2\n0 5\n255\n\n".toList 0 0 (fun _ => false)) _ 1 1920 1080
      _ _ (by decide) htrim rfl⟩

/-! ## Cancellation -/

/-- C15 (code defect). A 2 x 2 raster at scale 1 with `will_stop` set when the decoder
reaches the row boundary after row 1: `parse_file` sets `stopped`, breaks and returns the
partial grid `[[0,85],[]]`. `Worker::work` does not look at `stopped` after the decode (its
only test, line 312, is before it), so it resamples and renders the partial grid and
publishes the text `@h`, newline, newline, newline, instead of leaving the message empty;
`donefrac` is still 0. -/
theorem cancelled_decode_divergence :
    (parse_file "0 85 170 254\n".toList 2 2 0 (1 / 2) (fun _ => true) false).map
        (fun ps => (ps.lum_map, ps.stopped, ps.notified, ps.donefrac))
      = some ([[0, 85], []], true, 0, 0) ∧
    (work { will_stop := false, stopped := true, donefrac := 0, message := [] }
        { pgm := "P2\n2 2\n255\n0 85 170 254\n".toList, width0 := 0, height0 := 0,
          stop_by := fun _ => true }
        "image.png".toList 1 1920 1080 { size_limit := true, dark_mode := false }).map
        (fun r => (r.1.message, r.1.stopped, r.1.will_stop, r.1.donefrac, r.2))
      = some ("@h\n\n\n".toList, true, false, 0, 1) := by
  refine ⟨by decide, ?_⟩
  have htrim : trim_file (get_pgm "P2\n2 2\n255\n0 85 170 254\n".toList) 0 0 1
      = some { image := "0 85 170 254\n".toList, width := 2, height := 2, destw := 2,
               desth := 2 } := by
    have hpgm : get_pgm "P2\n2 2\n255\n0 85 170 254\n".toList
        = "P2\n2 2\n255\n0 85 170 254\n".toList := by decide
    rw [hpgm, trim_file_eq _ 0 0 1 2 2 2 2 (by decide) (dest_size_one 2 (by decide))
      (dest_size_one 2 (by decide))]
    decide
  rw [work_after_checks _ (World.mk "P2\n2 2\n255\n0 85 170 254\n".toList 0 0 (fun _ => true))
    _ 1 1920 1080 _
    { image := "0 85 170 254\n".toList, width := 2, height := 2, destw := 2, desth := 2 }
    (by decide) htrim (by decide) (by decide)]
  have hparse : (parse_file "0 85 170 254\n".toList 2 2 0 (1 / ((2 : Int) : ℚ))
      (fun k => false || (fun _ => true) k) false).map
        (fun ps => (ps.lum_map, ps.notified, ps.donefrac)) = some ([[0, 85], []], 0, 0) := by
    decide
  rw [Option.map_eq_some'] at hparse
  obtain ⟨ps, hps, hf⟩ := hparse
  simp only [Prod.mk.injEq] at hf
  obtain ⟨hg, hn, hdf⟩ := hf
  simp only [hps, Option.some_bind, hg, hn, hdf]
  rw [scaled_lum_map_keep _ 2 2 2 2 (by decide) (by decide)]
  simp only [Option.some_bind]
  rw [show render false [[0, 85], []] = some "@h\n\n\n".toList by decide]
  rfl

/-- C16 (code defect). A single-row raster (2 x 1) at scale 1, with cancellation requested
before the run reaches the decode (`will_stop` is already set and stays set). Line 312
tests `stopped`, which line 265 has just cleared, not `will_stop`; the decoder meets no row
boundary, so the run decodes, renders and publishes the text `@h`, newline, newline. -/
theorem cancel_before_decode_divergence :
    (reset { will_stop := true, stopped := true, donefrac := 0, message := [] }).stopped
      = false ∧
    (work { will_stop := true, stopped := true, donefrac := 0, message := [] }
        { pgm := "P2\n2 1\n255\n0 85\n".toList, width0 := 0, height0 := 0,
          stop_by := fun _ => true }
        "image.png".toList 1 1920 1080 { size_limit := true, dark_mode := false }).map
        (fun r => (r.1.message, r.1.stopped, r.1.will_stop))
      = some ("@h\n\n".toList, true, false) := by
  refine ⟨rfl, ?_⟩
  have htrim : trim_file (get_pgm "P2\n2 1\n255\n0 85\n".toList) 0 0 1
      = some { image := "0 85\n".toList, width := 2, height := 1, destw := 2,
               desth := 1 } := by
    have hpgm : get_pgm "P2\n2 1\n255\n0 85\n".toList = "P2\n2 1\n255\n0 85\n".toList := by
      decide
    rw [hpgm, trim_file_eq _ 0 0 1 2 1 2 1 (by decide) (dest_size_one 2 (by decide))
      (dest_size_one 1 (by decide))]
    decide
  rw [work_after_checks _ (World.mk "P2\n2 1\n255\n0 85\n".toList 0 0 (fun _ => true))
    _ 1 1920 1080 _
    { image := "0 85\n".toList, width := 2, height := 1, destw := 2, desth := 1 }
    (by decide) htrim (by decide) (by decide)]
  obtain ⟨ps, hps, hg⟩ := parse_file_of_lum_map
    (show (parse_file "0 85\n".toList 2 1 0 (1 / ((1 : Int) : ℚ))
      (fun k => true || (fun _ => true) k) false).map (fun ps => ps.lum_map)
        = some [[0, 85]] by decide)
  simp only [hps, Option.some_bind, hg]
  rw [scaled_lum_map_keep _ 2 1 2 1 (by decide) (by decide)]
  simp only [Option.some_bind]
  rw [show render false [[0, 85]] = some "@h\n\n".toList by decide]
  rfl

/-! ## Reset, publication and the sentinel -/

/-- The four ways in which `Worker::work` returns. -/
theorem work_cases (wk : Worker) (world : World) (filename : Str) (scale_factor : ℚ)
    (swidth sheight : Int) (s : Settings) (r : Worker × Nat)
    (h : work wk world filename scale_factor swidth sheight s = some r) :
    (filename = [] ∧
      r = ({ will_stop := wk.will_stop, stopped := true, donefrac := 0,
             message := msg_no_input }, 1)) ∨
    (filename ≠ [] ∧ ∃ hd,
      trim_file (get_pgm world.pgm) world.width0 world.height0 scale_factor = some hd ∧
      ((hd.destw > swidth - 50 ∨ hd.desth > sheight - 280) ∧ s.size_limit = true) ∧
      r = ({ will_stop := wk.will_stop, stopped := true, donefrac := 0,
             message := msg_too_large }, 1)) ∨
    (filename ≠ [] ∧ ∃ hd,
      trim_file (get_pgm world.pgm) world.width0 world.height0 scale_factor = some hd ∧
      ¬ ((hd.destw > swidth - 50 ∨ hd.desth > sheight - 280) ∧ s.size_limit = true) ∧
      (hd.destw ≤ 0 ∨ hd.desth ≤ 0) ∧
      r = ({ will_stop := wk.will_stop, stopped := true, donefrac := 0,
             message := msg_invalid_scale }, 1)) ∨
    (filename ≠ [] ∧ ∃ hd ps scaled text,
      trim_file (get_pgm world.pgm) world.width0 world.height0 scale_factor = some hd ∧
      ¬ ((hd.destw > swidth - 50 ∨ hd.desth > sheight - 280) ∧ s.size_limit = true) ∧
      ¬ (hd.destw ≤ 0 ∨ hd.desth ≤ 0) ∧
      parse_file hd.image hd.width hd.height 0 (1 / (hd.height : ℚ))
        (fun k => wk.will_stop || world.stop_by k) false = some ps ∧
      scaled_lum_map ps.lum_map hd.width hd.height hd.destw hd.desth scale_factor
        = some scaled ∧
      render s.dark_mode scaled = some text ∧
      r = ({ will_stop := false, stopped := true, donefrac := ps.donefrac, message := text },
            ps.notified + 1)) := by
  by_cases hname : filename = []
  · subst hname
    rw [work_no_input, Option.some.injEq] at h
    exact Or.inl ⟨rfl, h.symm⟩
  · cases htrim : trim_file (get_pgm world.pgm) world.width0 world.height0 scale_factor with
    | none =>
      rw [work_trim_none wk world filename scale_factor swidth sheight s hname htrim] at h
      cases h
    | some hd =>
      by_cases hsize :
          (hd.destw > swidth - 50 ∨ hd.desth > sheight - 280) ∧ s.size_limit = true
      · rw [work_too_large wk world filename scale_factor swidth sheight s hd hname htrim
          hsize, Option.some.injEq] at h
        exact Or.inr (Or.inl ⟨hname, hd, rfl, hsize, h.symm⟩)
      · by_cases hpos : hd.destw ≤ 0 ∨ hd.desth ≤ 0
        · rw [work_invalid_scale wk world filename scale_factor swidth sheight s hd hname
            htrim hsize hpos, Option.some.injEq] at h
          exact Or.inr (Or.inr (Or.inl ⟨hname, hd, rfl, hsize, hpos, h.symm⟩))
        · obtain ⟨ps, scaled, text, hps, hsc, htext, hr⟩ := work_published wk world filename
            scale_factor swidth sheight s hd r hname htrim hsize hpos h
          exact Or.inr (Or.inr (Or.inr
            ⟨hname, hd, ps, scaled, text, rfl, hsize, hpos, hps, hsc, htext, hr⟩))

/-- The run depends on the prior state only through what the first block leaves. -/
theorem work_reset (wk : Worker) (world : World) (filename : Str) (scale_factor : ℚ)
    (swidth sheight : Int) (s : Settings) :
    work wk world filename scale_factor swidth sheight s
      = work (reset wk) world filename scale_factor swidth sheight s := by
  unfold work
  rfl

/-- C19. Sentinel unambiguity: for every run of `Worker::work` that returns, the published
message is non-empty, and its first character is the sentinel `-` if and only if the run
ended in a validation failure (no file name, image too large, invalid scale factor); every
grid of samples in `[0, 254]` renders, in either ramp orientation, to a text that does not
begin with `-`; the ramp holds no `-` at all. -/
theorem sentinel_unambiguous :
    (∀ (wk : Worker) (world : World) (filename : Str) (scale_factor : ℚ)
        (swidth sheight : Int) (s : Settings) (r : Worker × Nat),
      work wk world filename scale_factor swidth sheight s = some r →
      r.1.message ≠ [] ∧
      (r.1.message.head? = some '-' ↔
        (filename = [] ∨ ∃ hd,
          trim_file (get_pgm world.pgm) world.width0 world.height0 scale_factor = some hd ∧
          (((hd.destw > swidth - 50 ∨ hd.desth > sheight - 280) ∧ s.size_limit = true) ∨
            hd.destw ≤ 0 ∨ hd.desth ≤ 0)))) ∧
    (∀ (dark_mode : Bool) (scaled : Grid),
      (∀ row ∈ scaled, ∀ v ∈ row, 0 ≤ v ∧ v ≤ 254) →
      ∃ text, render dark_mode scaled = some text ∧ text.head? ≠ some '-') ∧
    '-' ∉ ascii_sub := by
  refine ⟨?_, ?_, sentinel_not_in_ramp⟩
  · intro wk world filename scale_factor swidth sheight s r h
    rcases work_cases wk world filename scale_factor swidth sheight s r h with
      ⟨hname, rfl⟩ | ⟨hname, hd, htrim, hsize, rfl⟩ | ⟨hname, hd, htrim, hsize, hpos, rfl⟩ |
      ⟨hname, hd, ps, scaled, text, htrim, hsize, hpos, -, -, htext, rfl⟩
    · exact ⟨(by decide : msg_no_input ≠ []), fun _ => Or.inl hname, fun _ => msg_heads.1⟩
    · exact ⟨(by decide : msg_too_large ≠ []), fun _ => Or.inr ⟨hd, htrim, Or.inl hsize⟩,
        fun _ => msg_heads.2.1⟩
    · exact ⟨(by decide : msg_invalid_scale ≠ []), fun _ => Or.inr ⟨hd, htrim, Or.inr hpos⟩,
        fun _ => msg_heads.2.2.1⟩
    · obtain ⟨hne, hhead⟩ := render_head _ _ _ htext
      refine ⟨hne, fun hh => absurd hh hhead, ?_⟩
      rintro (hn | ⟨hd2, htrim2, hfail⟩)
      · exact absurd hn hname
      · rw [htrim, Option.some.injEq] at htrim2
        subst htrim2
        rcases hfail with h1 | h1
        · exact absurd h1 hsize
        · exact absurd h1 hpos
  · intro dark_mode scaled hrange
    exact ⟨_, render_in_range dark_mode scaled hrange,
      (render_head _ _ _ (render_in_range dark_mode scaled hrange)).2⟩

/-- Witness of C19: a run without a file name returns a non-empty message that begins with
the sentinel. -/
theorem sentinel_unambiguous_witness :
    ∃ r, work { will_stop := false, stopped := true, donefrac := 0, message := [] }
        { pgm := "P2\n4 2\n255\n0 85 170 254 254 170 85 0\n".toList, width0 := 0, height0 := 0,
          stop_by := fun _ => false }
        [] 1 1920 1080 { size_limit := true, dark_mode := true } = some r ∧
      r.1.message ≠ [] ∧ r.1.message.head? = some '-' := by
  refine ⟨_, work_no_input _ _ _ _ _ _, ?_⟩
  have h := sentinel_unambiguous.1 _ _ _ _ _ _ _ _
    (work_no_input { will_stop := false, stopped := true, donefrac := 0, message := [] }
      (World.mk "P2\n4 2\n255\n0 85 170 254 254 170 85 0\n".toList 0 0 (fun _ => false))
      1 1920 1080 { size_limit := true, dark_mode := true })
  exact ⟨h.1, h.2.mpr (Or.inl rfl)⟩

/-- C17 (as stated, refuted). A worker on which `stop()` was called, so that `will_stop`
is still set: the first block of `Worker::work` clears `stopped` and `donefrac` but leaves
`will_stop` set; a run without a file name returns with `will_stop` still set, and the
next decode of a 2 x 2 raster is cancelled at its first row boundary although nobody asked
for it during that run. -/
theorem reset_keeps_will_stop_counterexample :
    (reset { will_stop := true, stopped := true, donefrac := 1, message := ['x'] }).will_stop
      = true ∧
    (work { will_stop := true, stopped := true, donefrac := 1, message := ['x'] }
        { pgm := [], width0 := 0, height0 := 0, stop_by := fun _ => false }
        [] 1 1920 1080 { size_limit := true, dark_mode := false }).map
        (fun r => r.1.will_stop) = some true ∧
    (parse_file "0 85 170 254\n".toList 2 2 0 (1 / 2) (fun k => true || (fun _ => false) k)
        false).map (fun ps => (ps.lum_map, ps.stopped)) = some ([[0, 85], []], true) := by
  refine ⟨rfl, ?_, by decide⟩
  rw [work_no_input]
  rfl

/-- C17 (amended). Run reset: for every prior `Worker` state the first block of
`Worker::work` sets `donefrac = 0`, `stopped = false` and an empty `message`, and leaves
`will_stop` as it was; the run depends on the prior state only through the result of that
block. `will_stop` is cleared at the end of a run that publishes a rendering (line 392),
and is left unchanged by a run that ends in a validation failure. -/
theorem run_reset (wk : Worker) :
    (reset wk).donefrac = 0 ∧ (reset wk).stopped = false ∧ (reset wk).message = [] ∧
    (reset wk).will_stop = wk.will_stop ∧
    (∀ (world : World) (filename : Str) (scale_factor : ℚ) (swidth sheight : Int)
        (s : Settings),
      work wk world filename scale_factor swidth sheight s
        = work (reset wk) world filename scale_factor swidth sheight s) ∧
    (∀ (world : World) (filename : Str) (scale_factor : ℚ) (swidth sheight : Int)
        (s : Settings) (r : Worker × Nat),
      work wk world filename scale_factor swidth sheight s = some r →
      (r.1.message.head? = some '-' → r.1.will_stop = wk.will_stop) ∧
      (r.1.message.head? ≠ some '-' → r.1.will_stop = false)) := by
  refine ⟨rfl, rfl, rfl, rfl, fun world filename scale_factor swidth sheight s =>
    work_reset wk world filename scale_factor swidth sheight s, ?_⟩
  intro world filename scale_factor swidth sheight s r h
  rcases work_cases wk world filename scale_factor swidth sheight s r h with
    ⟨-, rfl⟩ | ⟨-, hd, -, -, rfl⟩ | ⟨-, hd, -, -, -, rfl⟩ |
    ⟨-, hd, ps, scaled, text, -, -, -, -, -, htext, rfl⟩
  · exact ⟨fun _ => rfl, fun hh => absurd msg_heads.1 hh⟩
  · exact ⟨fun _ => rfl, fun hh => absurd msg_heads.2.1 hh⟩
  · exact ⟨fun _ => rfl, fun hh => absurd msg_heads.2.2.1 hh⟩
  · exact ⟨fun hh => absurd hh (render_head _ _ _ htext).2, fun _ => rfl⟩

/-- Witness of C17 (amended): a run without a file name on a worker whose `will_stop` is
set returns with the sentinel message and `will_stop` still set. -/
theorem run_reset_witness :
    ∃ r, work { will_stop := true, stopped := true, donefrac := 1, message := ['x'] }
        { pgm := [], width0 := 0, height0 := 0, stop_by := fun _ => false }
        [] 1 1920 1080 { size_limit := true, dark_mode := false } = some r ∧
      r.1.message.head? = some '-' ∧ r.1.will_stop = true := by
  refine ⟨_, work_no_input _ _ _ _ _ _, msg_heads.1, ?_⟩
  exact ((run_reset (Worker.mk true true 1 ['x'])).2.2.2.2.2
    (World.mk [] 0 0 (fun _ => false)) [] 1 1920 1080
    (Settings.mk true false 10) _ (work_no_input _ _ _ _ _ _)).1 msg_heads.1

/-! ## Progress -/

/-- Without cancellation the loop over a concatenation is the loop over the second part
started from the state left by the first. -/
theorem parse_loop_append_no_stop (width : Int) (progress_frac : ℚ) (l1 l2 : List Str)
    (st : ParseState) :
    parse_loop width progress_frac (fun _ => false) st (l1 ++ l2) =
      (parse_loop width progress_frac (fun _ => false) st l1).bind
        fun st1 => parse_loop width progress_frac (fun _ => false) st1 l2 := by
  induction l1 generalizing st with
  | nil => rfl
  | cons t rest ih =>
    rw [List.cons_append, parse_loop_cons_no_stop, parse_loop_cons_no_stop]
    cases store_token _ t with
    | none => rfl
    | some st2 => exact ih st2

/-- Without cancellation, on tokens that all parse and are not skipped, the loop keeps
`heightcount` the index of the last row and `widthcount` the length of that row. -/
theorem parse_loop_counts (width : Int) (progress_frac : ℚ) (tokens : List Str)
    (vals : List Int)
    (hrel : List.Forall₂ (fun t v => ¬ (t = ['\n'] ∨ t = [' ']) ∧ stoi t = some v) tokens vals)
    (st ps : ParseState) (done : Grid) (cur : List Int)
    (hg : st.lum_map = done ++ [cur]) (hh : st.heightcount = done.length)
    (hwc : st.widthcount = (cur.length : Int))
    (h : parse_loop width progress_frac (fun _ => false) st tokens = some ps) :
    ∃ (done2 : Grid) (cur2 : List Int), ps.lum_map = done2 ++ [cur2] ∧
      ps.heightcount = done2.length ∧ ps.widthcount = (cur2.length : Int) := by
  induction hrel generalizing st done cur with
  | nil =>
    simp only [parse_loop, Option.some.injEq] at h
    subst h
    exact ⟨done, cur, hg, hh, hwc⟩
  | @cons t v ts vs htv _ ih =>
    obtain ⟨hskip, hs⟩ := htv
    rw [parse_loop_cons_no_stop] at h
    by_cases hw : st.widthcount = width
    · simp only [hw, if_true] at h
      rw [store_token_value
        { st with widthcount := 0, lum_map := st.lum_map ++ [[]],
                  heightcount := st.heightcount + 1,
                  donefrac := st.donefrac + progress_frac, notified := st.notified + 1 }
        t (done ++ [cur]) [] v (by simp [hg]) (by simp [hh]) hskip hs] at h
      simp only [Option.some_bind] at h
      exact ih
        { lum_map := (done ++ [cur]) ++ [[] ++ [clamp v 0 254]],
          heightcount := st.heightcount + 1, widthcount := 0 + 1,
          donefrac := st.donefrac + progress_frac, stopped := st.stopped,
          notified := st.notified + 1 }
        (done ++ [cur]) [clamp v 0 254] rfl (by simp [hh]) (by simp) h
    · simp only [hw, if_false] at h
      rw [store_token_value st t done cur v hg hh hskip hs] at h
      simp only [Option.some_bind] at h
      exact ih
        { st with widthcount := st.widthcount + 1,
                  lum_map := done ++ [cur ++ [clamp v 0 254]] }
        done (cur ++ [clamp v 0 254]) rfl hh (by simp [hwc]) h

/-- Decorated decimal tokens within `int` parse to their values and are not skipped. -/
theorem decorated_rel (xs : List (Nat × Nat × Str))
    (hdec : ∀ x ∈ xs, is_decimal x.2.2 = true ∧
      INT_MIN ≤ decimal_value x.2.2 ∧ decimal_value x.2.2 ≤ INT_MAX) :
    List.Forall₂ (fun t v => ¬ (t = ['\n'] ∨ t = [' ']) ∧ stoi t = some v)
      (xs.map fun x => with_newlines x.1 x.2.1 x.2.2)
      (xs.map fun x => decimal_value x.2.2) := by
  rw [List.forall₂_map_left_iff, List.forall₂_map_right_iff, List.forall₂_same]
  intro x hx
  obtain ⟨hd, hr⟩ := hdec x hx
  obtain ⟨-, -, h3, h4⟩ := with_newlines_props x.1 x.2.1 x.2.2 hd
  refine ⟨by tauto, ?_⟩
  rw [stoi_with_newlines _ _ _ hd, if_pos hr]

/-- The layout that ImageMagick writes: every sample is followed by a space, and a lone
newline follows the last space. Without cancellation the decoder then starts one more,
empty, row and reports progress `H` times for `W * H` samples. -/
theorem parse_file_trailing_newline (W H : Nat) (xs : List (Nat × Nat × Str))
    (height : Int) (donefrac progress_frac : ℚ) (stopped : Bool)
    (hW : 1 ≤ W) (hH : 1 ≤ H) (hlen : xs.length = W * H)
    (hdec : ∀ x ∈ xs, is_decimal x.2.2 = true ∧
      INT_MIN ≤ decimal_value x.2.2 ∧ decimal_value x.2.2 ≤ INT_MAX) :
    ∃ ps, parse_file (join_spaces ((xs.map fun x => with_newlines x.1 x.2.1 x.2.2) ++ [['\n']]))
        W height donefrac progress_frac (fun _ => false) stopped = some ps ∧
      ps.lum_map = chunks W (xs.map fun x => clamp (decimal_value x.2.2) 0 254) ++ [[]] ∧
      ps.notified = H ∧ ps.donefrac = donefrac + (H : ℚ) * progress_frac ∧
      ps.stopped = stopped := by
  have hne : xs ≠ [] := by
    intro he
    rw [he] at hlen
    have : 1 ≤ W * H := Nat.mul_pos hW hH
    simp at hlen
    omega
  have hrel := decorated_rel xs hdec
  obtain ⟨ps1, hps1, hl, hst, hn, hd⟩ := parse_loop_layout W hW progress_frac _ _ hrel
    { lum_map := [[]], heightcount := 0, widthcount := 0, donefrac := donefrac,
      stopped := stopped, notified := 0 } [] [] rfl rfl rfl (by simp) (by simp)
    (Or.inr (by simpa using hne))
  obtain ⟨done2, cur2, hg2, hh2, hw2⟩ := parse_loop_counts (W : Int) progress_frac _ _ hrel
    { lum_map := [[]], heightcount := 0, widthcount := 0, donefrac := donefrac,
      stopped := stopped, notified := 0 } ps1 [] [] rfl rfl rfl hps1
  have hl2 : ps1.lum_map = chunks W (xs.map fun x => clamp (decimal_value x.2.2) 0 254) := by
    rw [hl, List.map_map]
    rfl
  have hfull := chunks_full W H hW (xs.map fun x => clamp (decimal_value x.2.2) 0 254)
    (by simpa using hlen)
  have hcur : cur2.length = W := by
    apply hfull.2
    rw [← hl2, hg2]
    simp
  have hwfull : ps1.widthcount = (W : Int) := by rw [hw2, hcur]
  have hrows : ps1.lum_map.length = H := by rw [hl2]; exact hfull.1
  simp only [List.length_singleton] at hn
  simp only [List.length_singleton, Nat.cast_one, one_mul, hrows] at hd
  refine ⟨{ ps1 with widthcount := 0 + 1, lum_map := ps1.lum_map ++ [[]],
                     heightcount := ps1.heightcount + 1,
                     donefrac := ps1.donefrac + progress_frac,
                     notified := ps1.notified + 1 }, ?_, ?_, ?_, ?_, ?_⟩
  · unfold parse_file
    rw [getlines_join_spaces, parse_loop_append_no_stop, hps1]
    · simp only [Option.some_bind]
      rw [parse_loop_cons_no_stop, if_pos hwfull]
      simp [store_token, parse_loop]
    · intro t ht
      rcases List.mem_append.mp ht with h1 | h1
      · obtain ⟨x, hx, rfl⟩ := List.mem_map.mp h1
        obtain ⟨h2, h3, -, -⟩ := with_newlines_props x.1 x.2.1 x.2.2 (hdec x hx).1
        exact ⟨h2, h3⟩
      · rw [List.mem_singleton.mp h1]
        decide
  · simp only [hl2]
  · simp only
    omega
  · simp only
    linarith
  · exact hst

/-- C18 (as stated, refuted). The raster of the concrete scenario (`W = 4`, `H = 2`, eight
samples): the decode is not cancelled, but `donefrac` is incremented only when a row is
started after a full one, which happens once; after decoding `donefrac` is `1/2`, not 1,
and the observer has been notified once, not twice. -/
theorem progress_per_row_counterexample :
    ∃ ps, parse_file "0 85 170 254 254 170 85 0\n".toList 4 2 0 (1 / 2) (fun _ => false) false
        = some ps ∧
      ps.lum_map = [[0, 85, 170, 254], [254, 170, 85, 0]] ∧
      ps.notified = 1 ∧ ps.donefrac = 1 / 2 := by
  obtain ⟨ps, hps, hl, -, hn, hd⟩ := parse_file_decorated 4 (by decide)
    [(0, 0, "0".toList), (0, 0, "85".toList), (0, 0, "170".toList), (0, 0, "254".toList),
     (0, 0, "254".toList), (0, 0, "170".toList), (0, 0, "85".toList), (0, 1, "0".toList)]
    (by decide) (by decide) 2 0 (1 / 2) false
  have hjoin : join_spaces
      ([((0 : Nat), (0 : Nat), "0".toList), (0, 0, "85".toList), (0, 0, "170".toList),
        (0, 0, "254".toList), (0, 0, "254".toList), (0, 0, "170".toList),
        (0, 0, "85".toList), (0, 1, "0".toList)].map
          fun x => with_newlines x.1 x.2.1 x.2.2)
      = "0 85 170 254 254 170 85 0\n".toList := by decide
  have hchunks : chunks 4
      ([((0 : Nat), (0 : Nat), "0".toList), (0, 0, "85".toList), (0, 0, "170".toList),
        (0, 0, "254".toList), (0, 0, "254".toList), (0, 0, "170".toList),
        (0, 0, "85".toList), (0, 1, "0".toList)].map
          fun x => clamp (decimal_value x.2.2) 0 254)
      = [[0, 85, 170, 254], [254, 170, 85, 0]] := by decide
  rw [hjoin] at hps
  rw [hchunks] at hl
  refine ⟨ps, hps, hl, ?_, ?_⟩
  · rw [hl] at hn
    simpa using hn
  · rw [hl] at hd
    norm_num at hd
    linarith

/-- C18 (amended). Progress per row: for every raster with `H >= 1`, `W >= 1` whose payload
holds exactly `W * H` decimal samples (values within `int`) separated by single spaces
(newlines may adjoin the spaces), a decode that is not cancelled increments `donefrac` by
`1/H` once for every row started after the first, that is `H - 1` times, so that `donefrac`
ends at `1 - 1/H`; when one more token follows the last sample (the lone newline after the
trailing space that ImageMagick writes), one more row is started, there are exactly `H`
increments and `donefrac` ends at 1. The observer is notified once per increment. -/
theorem progress_per_row (W H : Nat) (xs : List (Nat × Nat × Str)) (height : Int)
    (stopped : Bool) (hW : 1 ≤ W) (hH : 1 ≤ H) (hlen : xs.length = W * H)
    (hdec : ∀ x ∈ xs, is_decimal x.2.2 = true ∧
      INT_MIN ≤ decimal_value x.2.2 ∧ decimal_value x.2.2 ≤ INT_MAX) :
    (∃ ps, parse_file (join_spaces (xs.map fun x => with_newlines x.1 x.2.1 x.2.2)) W height
        0 (1 / (H : ℚ)) (fun _ => false) stopped = some ps ∧
      ps.notified + 1 = H ∧ ps.donefrac = (ps.notified : ℚ) * (1 / (H : ℚ)) ∧
      ps.donefrac = 1 - 1 / (H : ℚ)) ∧
    (∃ ps, parse_file (join_spaces ((xs.map fun x => with_newlines x.1 x.2.1 x.2.2)
          ++ [['\n']])) W height 0 (1 / (H : ℚ)) (fun _ => false) stopped = some ps ∧
      ps.notified = H ∧ ps.donefrac = (ps.notified : ℚ) * (1 / (H : ℚ)) ∧
      ps.donefrac = 1) := by
  have hHq : (H : ℚ) ≠ 0 := by
    have : (0 : ℚ) < (H : ℚ) := by exact_mod_cast hH
    exact this.ne'
  have hne : xs ≠ [] := by
    intro he
    rw [he] at hlen
    have : 1 ≤ W * H := Nat.mul_pos hW hH
    simp at hlen
    omega
  constructor
  · obtain ⟨ps, hps, hl, -, hn, hd⟩ := parse_file_decorated W hW xs hne hdec height 0
      (1 / (H : ℚ)) stopped
    have hrows : ps.lum_map.length = H := by
      rw [hl]
      exact (chunks_full W H hW _ (by simpa using hlen)).1
    rw [hrows] at hn hd
    have hnq : (ps.notified : ℚ) + 1 = (H : ℚ) := by exact_mod_cast hn
    have hone : (H : ℚ) * (1 / (H : ℚ)) = 1 := by field_simp
    refine ⟨ps, hps, hn, ?_, ?_⟩
    · have : (ps.notified : ℚ) = (H : ℚ) - 1 := by linarith
      rw [this]
      linarith
    · linarith
  · obtain ⟨ps, hps, -, hn, hd, -⟩ := parse_file_trailing_newline W H xs height 0
      (1 / (H : ℚ)) stopped hW hH hlen hdec
    have hone : (H : ℚ) * (1 / (H : ℚ)) = 1 := by field_simp
    refine ⟨ps, hps, hn, ?_, ?_⟩
    · rw [hn, hd]
      ring
    · rw [hd]
      linarith

/-- Witness of C18 (amended): the samples of the concrete scenario, `W = 4`, `H = 2`. -/
theorem progress_per_row_witness :
    (1 ≤ 4) ∧ (1 ≤ 2) ∧
    [((0 : Nat), (0 : Nat), "0".toList), (0, 0, "85".toList), (0, 0, "170".toList),
      (0, 0, "254".toList), (1, 0, "254".toList), (0, 0, "170".toList),
      (0, 0, "85".toList), (0, 0, "0".toList)].length = 4 * 2 ∧
    (∀ x ∈ [((0 : Nat), (0 : Nat), "0".toList), (0, 0, "85".toList), (0, 0, "170".toList),
        (0, 0, "254".toList), (1, 0, "254".toList), (0, 0, "170".toList),
        (0, 0, "85".toList), (0, 0, "0".toList)],
      is_decimal x.2.2 = true ∧ INT_MIN ≤ decimal_value x.2.2 ∧ decimal_value x.2.2 ≤ INT_MAX) ∧
    join_spaces (([((0 : Nat), (0 : Nat), "0".toList), (0, 0, "85".toList),
        (0, 0, "170".toList), (0, 0, "254".toList), (1, 0, "254".toList),
        (0, 0, "170".toList), (0, 0, "85".toList), (0, 0, "0".toList)].map
          fun x => with_newlines x.1 x.2.1 x.2.2) ++ [['\n']])
      = "0 85 170 254 \n254 170 85 0 \n".toList ∧
    ∃ ps, parse_file (join_spaces (([((0 : Nat), (0 : Nat), "0".toList), (0, 0, "85".toList),
          (0, 0, "170".toList), (0, 0, "254".toList), (1, 0, "254".toList),
          (0, 0, "170".toList), (0, 0, "85".toList), (0, 0, "0".toList)].map
            fun x => with_newlines x.1 x.2.1 x.2.2) ++ [['\n']])) (4 : Nat) 2 0
        (1 / ((2 : Nat) : ℚ)) (fun _ => false) false = some ps ∧
      ps.notified = 2 ∧ ps.donefrac = (ps.notified : ℚ) * (1 / ((2 : Nat) : ℚ)) ∧
      ps.donefrac = 1 :=
  ⟨by decide, by decide, by decide, by decide, by decide,
   (progress_per_row 4 2 _ 2 false (by decide) (by decide) (by decide) (by decide)).2⟩

/-! ## The glyph ramp -/

/-- A list is the concatenation of its runs. -/
theorem run_lengths_flatten (l : List Char) :
    ((run_lengths l).map fun p => List.replicate p.2 p.1).flatten = l := by
  induction l with
  | nil => rfl
  | cons c rest ih =>
    unfold run_lengths
    cases hr : run_lengths rest with
    | nil =>
      rw [hr] at ih
      simp only [List.map_nil, List.flatten_nil] at ih
      simp [← ih]
    | cons p t =>
      obtain ⟨d, n⟩ := p
      rw [hr] at ih
      by_cases hc : c = d
      · subst hc
        simp only [if_true, List.map_cons, List.flatten_cons, List.replicate_succ,
          List.cons_append]
        simp only [List.map_cons, List.flatten_cons] at ih
        rw [ih]
      · simp only [hc, if_false, List.map_cons, List.flatten_cons]
        simp only [List.map_cons, List.flatten_cons] at ih
        rw [ih]
        rfl

set_option maxRecDepth 20000 in
/-- C20 (code defect). The doc comment of `ascii_sub` (line 67) says that each character
of the ramp is repeated thrice, which for 255 entries means 85 levels of three equal
entries. The initialiser of lines 68-80 has 255 entries but holds the closing brace, `j`
and `y` only twice each: it is made of 86 runs of distinct characters, 83 of length 3 and
these three of length 2. So the entries 96, 97 and 98, level `k = 32`, are the closing
brace, the closing brace and `f`, and from there up to level 48 the three entries of a
level are not one character; only the levels in `[0,31]` and `[49,84]` are. -/
theorem ramp_structure_divergence :
    ascii_sub.length = 255 ∧
    ascii_sub.get? (3 * 32) = some (Char.ofNat 125) ∧
    ascii_sub.get? (3 * 32 + 1) = some (Char.ofNat 125) ∧
    ascii_sub.get? (3 * 32 + 2) = some 'f' ∧
    ¬ (∀ k < 85, ascii_sub.get? (3 * k) = ascii_sub.get? (3 * k + 1) ∧
      ascii_sub.get? (3 * k) = ascii_sub.get? (3 * k + 2)) ∧
    (run_lengths ascii_sub).length = 86 ∧
    ((run_lengths ascii_sub).map Prod.fst).Nodup ∧
    (∀ p ∈ run_lengths ascii_sub,
      p.2 = if p.1 = Char.ofNat 125 ∨ p.1 = 'j' ∨ p.1 = 'y' then 2 else 3) ∧
    ((run_lengths ascii_sub).filter fun p => p.2 == 2).map Prod.fst
      = [Char.ofNat 125, 'j', 'y'] ∧
    ((run_lengths ascii_sub).map fun p => List.replicate p.2 p.1).flatten = ascii_sub ∧
    (∀ k < 85, (k < 32 ∨ 49 ≤ k) ↔
      (ascii_sub.get? (3 * k) = ascii_sub.get? (3 * k + 1) ∧
        ascii_sub.get? (3 * k) = ascii_sub.get? (3 * k + 2))) := by
  refine ⟨by decide, by decide, by decide, by decide, ?_, by decide, by decide, by decide,
    by decide, run_lengths_flatten ascii_sub, by decide⟩
  intro h
  have h32 := (h 32 (by decide)).2
  revert h32
  decide

/-! ## Glyph mapping -/

/-- The reversed ramp at index `v` is the ramp at index `254 - v`. -/
theorem ascii_reversed_index (v : Int) (h0 : 0 ≤ v) (h1 : v ≤ 254) :
    (ascii false).get? v.toNat = ascii_sub.get? (254 - v).toNat := by
  have hlen : ascii_sub.length = 255 := ascii_length true
  have hlt : v.toNat < ascii_sub.length := by omega
  have hidx : ascii_sub.length - 1 - v.toNat = (254 - v).toNat := by omega
  show (ascii_sub.reverse).get? v.toNat = _
  simp only [List.get?_eq_getElem?]
  rw [List.getElem?_reverse hlt, hidx]

/-- C21. Glyph mapping and inversion: for every sample `v` in `[0, 254]`, rendering with
`dark_mode == true` (no reversal) outputs `ascii_sub[v]` and rendering with
`dark_mode == false` (the default `Settings`, ramp reversed) outputs `ascii_sub[254 - v]`;
one ramp, chosen by `dark_mode` alone, serves every sample of a rendering; reversing the
reversed ramp gives the original ramp. -/
theorem glyph_mapping :
    (∀ v : Int, 0 ≤ v → v ≤ 254 →
      ∃ c d, ascii_sub.get? v.toNat = some c ∧ glyph (ascii true) v = some c ∧
        ascii_sub.get? (254 - v).toNat = some d ∧ glyph (ascii false) v = some d) ∧
    (∀ (dark_mode : Bool) (scaled : Grid),
      (∀ row ∈ scaled, ∀ v ∈ row, 0 ≤ v ∧ v ≤ 254) →
      render dark_mode scaled = some ((scaled.map fun row =>
        row.map (fun v => ascii_sub.getD (if dark_mode then v else 254 - v).toNat ' ')
          ++ ['\n']).flatten ++ ['\n'])) ∧
    ascii true = ascii_sub ∧ ascii false = ascii_sub.reverse ∧
    (ascii false).reverse = ascii true ∧
    ({} : Settings).dark_mode = false := by
  have hlen : ascii_sub.length = 255 := ascii_length true
  have hget : ∀ v : Int, 0 ≤ v → v ≤ 254 →
      glyph (ascii false) v = some (ascii_sub.getD (254 - v).toNat ' ') := by
    intro v h0 h1
    have hlt : (254 - v).toNat < ascii_sub.length := by omega
    unfold glyph
    rw [if_neg (by omega), ascii_reversed_index v h0 h1, List.getD_eq_getElem?_getD,
      List.get?_eq_getElem?, List.getElem?_eq_getElem hlt]
    rfl
  refine ⟨?_, ?_, rfl, rfl, ?_, rfl⟩
  · intro v h0 h1
    have hlt1 : v.toNat < ascii_sub.length := by omega
    have hlt2 : (254 - v).toNat < ascii_sub.length := by omega
    refine ⟨ascii_sub.get ⟨v.toNat, hlt1⟩, ascii_sub.get ⟨(254 - v).toNat, hlt2⟩,
      List.get?_eq_get hlt1, ?_, List.get?_eq_get hlt2, ?_⟩
    · unfold glyph
      rw [if_neg (by omega)]
      exact List.get?_eq_get hlt1
    · unfold glyph
      rw [if_neg (by omega), ascii_reversed_index v h0 h1]
      exact List.get?_eq_get hlt2
  · intro dark_mode scaled hrange
    unfold render
    rw [allSome_map_some (render_row (ascii dark_mode))
      (fun row => row.map (fun v =>
        ascii_sub.getD (if dark_mode then v else 254 - v).toNat ' ') ++ ['\n']) scaled]
    · rfl
    · intro row hrow
      unfold render_row
      rw [allSome_map_some (glyph (ascii dark_mode))
        (fun v => ascii_sub.getD (if dark_mode then v else 254 - v).toNat ' ') row]
      · rfl
      · intro v hv
        obtain ⟨h0, h1⟩ := hrange row hrow v hv
        cases dark_mode with
        | true => simpa using glyph_in_range true v h0 h1
        | false => simpa using hget v h0 h1
  · show (ascii_sub.reverse).reverse = ascii_sub
    exact List.reverse_reverse _

/-- Witness of C21 at the sample 85: the glyph is `ascii_sub[85]` without reversal and
`ascii_sub[169]` with the ramp reversed. -/
theorem glyph_mapping_witness :
    ((0 : Int) ≤ 85) ∧ ((85 : Int) ≤ 254) ∧
    ∃ c d, ascii_sub.get? (85 : Int).toNat = some c ∧ glyph (ascii true) 85 = some c ∧
      ascii_sub.get? (254 - (85 : Int)).toNat = some d ∧ glyph (ascii false) 85 = some d :=
  ⟨by decide, by decide, glyph_mapping.1 85 (by decide) (by decide)⟩

/-! ## Path sanitisation -/

/-- The pattern of line 94 matches a semicolon and nothing else. -/
theorem pattern_at_iff (c : Char) (rest : Str) : pattern_at (c :: rest) = true ↔ c = ';' := by
  unfold pattern_at class_run_at
  constructor
  · intro h
    simp only [Bool.and_eq_true, List.head?_cons, beq_iff_eq, Option.some.injEq] at h
    exact h.2
  · intro h
    subst h
    have hcls : in_class ';' = false := by decide
    simp [hcls]

/-- The first replacement removes the semicolons and only them. -/
theorem remove_pattern_eq_filter (input : Str) :
    remove_pattern input = input.filter fun c => c != ';' := by
  induction input with
  | nil => rfl
  | cons c rest ih =>
    unfold remove_pattern
    by_cases hc : c = ';'
    · rw [if_pos ((pattern_at_iff c rest).mpr hc), ih]
      simp [hc]
    · have hp : ¬ pattern_at (c :: rest) = true := fun h => hc ((pattern_at_iff c rest).mp h)
      rw [if_neg hp, ih]
      simp [hc]

/-- A character other than the semicolon is still there after `sanitizeInput`. -/
theorem sanitizeInput_keeps (input : Str) (c : Char) (hc : c ∈ input) (h1 : c ≠ ';') :
    c ∈ sanitizeInput input := by
  have hmem : c ∈ remove_pattern input := by
    rw [remove_pattern_eq_filter]
    exact List.mem_filter.mpr ⟨hc, by simpa using h1⟩
  have hesc : ∀ s : Str, c ∈ s → c ∈ escape_spaces s := by
    intro s hs
    induction s with
    | nil => cases hs
    | cons a t ih =>
      unfold escape_spaces
      by_cases ha : a = ' '
      · rw [if_pos ha]
        rcases List.mem_cons.mp hs with h | h
        · rw [h, ha]
          simp
        · exact List.mem_cons_of_mem _ (List.mem_cons_of_mem _ (ih h))
      · rw [if_neg ha]
        rcases List.mem_cons.mp hs with h | h
        · rw [h]
          exact List.mem_cons_self _ _
        · exact List.mem_cons_of_mem _ (ih h)
  exact hesc _ hmem

/-- C22 (code defect). A file name that holds a semicolon, a command substitution with a
dollar sign and parentheses, back quotes, a bar, an ampersand and a space: `sanitizeInput`
removes the semicolon and escapes the space, and keeps all the other characters, which are
outside `[A-Za-z0-9_.]`; the command line given to `std::system` contains the command
substitution unchanged. The pattern of line 94 matches semicolons only: its class stands
inside a negative lookahead, so the first replacement is a filter on the semicolon. -/
theorem sanitize_divergence :
    sanitizeInput "pic;$(reboot)`id`|a&b c.png".toList
      = "pic$(reboot)`id`|a&b\\ c.png".toList ∧
    create_pgm_command "pic;$(reboot)`id`|a&b c.png".toList
      = "magick pic$(reboot)`id`|a&b\\ c.png -compress none out.pgm".toList ∧
    in_class '$' = false ∧ '$' ∈ sanitizeInput "pic;$(reboot)`id`|a&b c.png".toList ∧
    (∀ input : Str, remove_pattern input = input.filter fun c => c != ';') := by
  refine ⟨by decide, by decide, by decide, by decide, remove_pattern_eq_filter⟩

/-! ## The effective resampling rule -/

theorem ratio_of_29_14 :
    ratio 28 13 = some (4516943 / 2097152) ∧
    to_float ((4516943 / 2097152 : ℚ) * to_float ((13 : Int) : ℚ)) = 14680065 / 524288 ∧
    to_float ((28 : Int) : ℚ) = 28 ∧
    ratio_of 29 14 = some (8711247 / 4194304) := by
  have h13 : to_float ((13 : Int) : ℚ) = ((13 : Int) : ℚ) :=
    to_float_intCast 13 (by norm_num) (by norm_num)
  have h28 : to_float ((28 : Int) : ℚ) = ((28 : Int) : ℚ) :=
    to_float_intCast 28 (by norm_num) (by norm_num)
  have h0 : to_float (((28 : Int) : ℚ) / ((13 : Int) : ℚ)) = 4516943 / 2097152 :=
    to_float_eval _ _ 9033886 (-22) (by norm_num) (by norm_num) (by norm_num) (by norm_num)
      (by norm_num)
  have hp : to_float ((4516943 / 2097152 : ℚ) * ((13 : Int) : ℚ)) = 14680065 / 524288 :=
    to_float_eval _ _ 14680065 (-19) (by norm_num) (by norm_num) (by norm_num) (by norm_num)
      (by norm_num)
  have h1 : to_float (((29 - 1 - 1 : Int) : ℚ) / ((14 - 1 : Int) : ℚ)) = 8711247 / 4194304 :=
    to_float_eval _ _ 8711247 (-22) (by norm_num) (by norm_num) (by norm_num) (by norm_num)
      (by norm_num)
  refine ⟨?_, ?_, ?_, ?_⟩
  · rw [ratio_eq 28 13 (by norm_num), h13, h28, h0]
  · rw [h13, hp]
  · rw [h28]
    norm_num
  · apply ratio_of_adjusted 29 14 (4516943 / 2097152) _ (by norm_num) (by norm_num)
      (by norm_num) (by norm_num) _ _ h1
    · exact h0
    · have e : ((14 - 1 : Int) : ℚ) = ((13 : Int) : ℚ) := by norm_num
      rw [e, hp]
      norm_num

/-- C23 (as stated, refuted). For `W = 29` and `destW = 14` the `float` quotient `28/13` is
`4516943 / 2^21`, its `float` product with 13 is `14680065 / 2^19`, about `28.000002`,
which is greater than 28: the test of line 339 succeeds and the ratio in force becomes
the `float` quotient `27/13`, that is `8711247 / 2^22`. The last destination column
`w = 13` then reads source column 27, where the exact ratio `28/13` gives column 28. -/
theorem adjustment_taken_counterexample :
    ratio 28 13 = some (4516943 / 2097152) ∧
    to_float ((4516943 / 2097152 : ℚ) * to_float ((13 : Int) : ℚ)) > to_float ((28 : Int) : ℚ) ∧
    ratio_of 29 14 = some (8711247 / 4194304) ∧
    (8711247 / 4194304 : ℚ) ≠ 28 / 13 ∧
    Int.floor (scaled_index (8711247 / 4194304) 13) = 27 ∧
    Int.floor ((13 : ℚ) * (28 / 13)) = 28 := by
  obtain ⟨h1, h2, h3, h4⟩ := ratio_of_29_14
  refine ⟨h1, ?_, h4, by norm_num, ?_, ?_⟩
  · rw [h2, h3]
    norm_num
  · refine (index_eval _ 13 27 27 27 (by norm_num) (by norm_num) ?_ (by norm_num)
      (by norm_num) (by norm_num) (by norm_num)).1
    exact to_float_eval _ _ 14155776 (-19) (by norm_num) (by norm_num) (by norm_num)
      (by norm_num) (by norm_num)
  · norm_num [Int.floor_eq_iff]

/-- Beyond `2^24` a source size is no longer a `float`: for `W = 16777220` and `destW = 2`
the size `W - 1` converts to the `float` 16777220, the test of line 339 fails, and the
destination column `w = 1` gets the source index 16777220, which is `W`. -/
theorem index_out_of_range_large :
    to_float ((16777220 - 1 : Int) : ℚ) = 16777220 ∧
    ratio_of 16777220 2 = some 16777220 ∧
    Int.floor (scaled_index 16777220 1) = 16777220 := by
  have hn : to_float ((16777220 - 1 : Int) : ℚ) = 16777220 := by
    have e : ((16777220 - 1 : Int) : ℚ) = ((8388609 : ℚ) + 1 / 2) * (2 : ℚ) ^ (1 : Int) := by
      norm_num
    have hpos : (0 : ℚ) < ((16777220 - 1 : Int) : ℚ) := by norm_num
    rw [to_float_of_pos _ hpos]
    have hlog : Int.log 2 (((16777220 - 1 : Int) : ℚ)) = 24 :=
      log_eq_of_bounds _ 24 (by norm_num) (by norm_num)
    have hu : ulp (((16777220 - 1 : Int) : ℚ)) = 2 := by
      unfold ulp
      rw [hlog]
      norm_num
    unfold round_pos
    rw [hu]
    have hr : round_even (((16777220 - 1 : Int) : ℚ) / 2) = 8388610 := by
      have hf : Int.floor (((16777220 - 1 : Int) : ℚ) / 2) = 8388609 := by
        rw [Int.floor_eq_iff]
        constructor <;> norm_num
      unfold round_even
      simp only [hf]
      norm_num
    rw [hr]
    norm_num
  have h1 : to_float ((1 : Int) : ℚ) = 1 := by
    have := to_float_intCast 1 (by norm_num) (by norm_num)
    simpa using this
  have hv : to_float (16777220 : ℚ) = 16777220 := by
    have := to_float_exact 4194305 2 (by norm_num)
    norm_num at this
    exact this
  refine ⟨hn, ?_, ?_⟩
  · unfold ratio_of
    rw [ratio_eq _ _ (by norm_num)]
    unfold adjust
    have e1 : ((2 - 1 : Int) : ℚ) = ((1 : Int) : ℚ) := by norm_num
    simp only [hn, e1, h1, div_one, mul_one, hv, gt_iff_lt, lt_irrefl, if_false]
  · unfold scaled_index
    rw [h1, one_mul, hv]
    exact Int.floor_intCast 16777220

/-- The source column of the last destination column for `W = 32` and `destW = 8`: the
`float` quotient `31/7` is `9287387 / 2^21`, slightly less than `31/7`, the test of line 339
fails, and the `float` product `7 * xratio` is `16252927 / 2^19`, about `30.999998`, so the
column read is 30, where the exact ratio gives 31. -/
theorem float_column_example :
    ratio_of 32 8 = some (9287387 / 2097152) ∧
    scaled_index (9287387 / 2097152) 7 = 16252927 / 524288 ∧
    Int.floor (scaled_index (9287387 / 2097152) 7) = 30 ∧
    Int.floor ((7 : ℚ) * (31 / 7)) = 31 := by
  have h0 : to_float (((32 - 1 : Int) : ℚ) / ((8 - 1 : Int) : ℚ)) = 9287387 / 2097152 :=
    to_float_eval _ _ 9287387 (-21) (by norm_num) (by norm_num) (by norm_num) (by norm_num)
      (by norm_num)
  have hp : to_float ((9287387 / 2097152 : ℚ) * ((8 - 1 : Int) : ℚ)) = 16252927 / 524288 :=
    to_float_eval _ _ 16252927 (-19) (by norm_num) (by norm_num) (by norm_num) (by norm_num)
      (by norm_num)
  have hp7 : to_float (((7 : Int) : ℚ) * (9287387 / 2097152 : ℚ)) = 16252927 / 524288 :=
    to_float_eval _ _ 16252927 (-19) (by norm_num) (by norm_num) (by norm_num) (by norm_num)
      (by norm_num)
  refine ⟨?_, scaled_index_eq _ 7 _ (by norm_num) (by norm_num) hp7, ?_, ?_⟩
  · apply ratio_of_kept 32 8 _ (by norm_num) (by norm_num) (by norm_num) (by norm_num) h0
    rw [hp]
    norm_num
  · exact (index_eval _ 7 (16252927 / 524288) 30 31 (by norm_num) (by norm_num) hp7
      (by norm_num) (by norm_num) (by norm_num) (by norm_num)).1
  · norm_num [Int.floor_eq_iff]

/-- The ratio in force is the quotient of lines 336-337 or the one of lines 340 / 343. -/
theorem ratio_of_cases (size dest : Int) (hd : 2 ≤ dest) (r : ℚ)
    (h : ratio_of size dest = some r) :
    ratio (size - 1) (dest - 1) = some r ∨ ratio (size - 1 - 1) (dest - 1) = some r := by
  unfold ratio_of at h
  rw [ratio_eq _ _ (by omega : 1 ≤ dest - 1)] at h
  unfold adjust at h
  simp only at h
  split_ifs at h
  · exact Or.inr h
  · left
    rw [ratio_eq _ _ (by omega : 1 ≤ dest - 1)]
    exact h

/-- C23 (amended). Source indices stay in range: for every source size `1 <= W, H <= 2^24`
and destination size `destW, destH >= 2`, the `float` ratios `xratio` and `yratio` in
force after lines 336-344 are finite and not negative, each is the `float` quotient
`(size-1)/(dest-1)` or, when the `float` product of that quotient and `dest-1` exceeds
`size-1`, the `float` quotient `(size-2)/(dest-1)`; for every destination cell `(h, w)`
the indices satisfy `0 <= xlow <= xhigh <= W-1` and `0 <= ylow <= yhigh <= H-1`, so all
four reads succeed on every full `H x W` grid. The adjustment is made for some sizes
(`W = 29`, `destW = 14`) and not for others (`W = 6`, `destW = 4`). -/
theorem source_indices_in_range (W H : Nat) (destw desth : Int)
    (hW : 1 ≤ W) (hH : 1 ≤ H) (hW2 : W ≤ 2 ^ 24) (hH2 : H ≤ 2 ^ 24)
    (hdw : 2 ≤ destw) (hdh : 2 ≤ desth) :
    (∃ xratio yratio : ℚ,
      ratio_of W destw = some xratio ∧ ratio_of H desth = some yratio ∧
      0 ≤ xratio ∧ 0 ≤ yratio ∧
      (ratio ((W : Int) - 1) (destw - 1) = some xratio ∨
        ratio ((W : Int) - 1 - 1) (destw - 1) = some xratio) ∧
      (ratio ((H : Int) - 1) (desth - 1) = some yratio ∨
        ratio ((H : Int) - 1 - 1) (desth - 1) = some yratio) ∧
      ∀ h w : Int, 0 ≤ h → h < desth → 0 ≤ w → w < destw →
        (0 ≤ Int.floor (scaled_index xratio w) ∧
          Int.floor (scaled_index xratio w) ≤ Int.ceil (scaled_index xratio w) ∧
          Int.ceil (scaled_index xratio w) ≤ (W : Int) - 1) ∧
        (0 ≤ Int.floor (scaled_index yratio h) ∧
          Int.floor (scaled_index yratio h) ≤ Int.ceil (scaled_index yratio h) ∧
          Int.ceil (scaled_index yratio h) ≤ (H : Int) - 1) ∧
        ∀ lum_map : Grid, lum_map.length = H → (∀ row ∈ lum_map, row.length = W) →
          ∃ v1 v2 v3 v4, corners lum_map xratio yratio h w = some (v1, v2, v3, v4)) ∧
    (ratio 28 13 = some (4516943 / 2097152) ∧
      to_float ((4516943 / 2097152 : ℚ) * to_float ((13 : Int) : ℚ)) = 14680065 / 524288 ∧
      to_float ((4516943 / 2097152 : ℚ) * to_float ((13 : Int) : ℚ))
        > to_float ((28 : Int) : ℚ) ∧
      ratio 27 13 = some (8711247 / 4194304) ∧
      ratio_of 29 14 = some (8711247 / 4194304)) ∧
    (ratio 5 3 = some (13981013 / 8388608) ∧
      to_float ((13981013 / 8388608 : ℚ) * to_float ((3 : Int) : ℚ)) = 5 ∧
      ¬ (to_float ((13981013 / 8388608 : ℚ) * to_float ((3 : Int) : ℚ))
        > to_float ((5 : Int) : ℚ)) ∧
      ratio_of 6 4 = some (13981013 / 8388608)) := by
  refine ⟨?_, ?_, ?_⟩
  · obtain ⟨xr, hxr, hxr0, hxb⟩ := ratio_of_bound (W : Int) destw (by omega)
      (by exact_mod_cast hW2) hdw
    obtain ⟨yr, hyr, hyr0, hyb⟩ := ratio_of_bound (H : Int) desth (by omega)
      (by exact_mod_cast hH2) hdh
    refine ⟨xr, yr, hxr, hyr, hxr0, hyr0, ratio_of_cases _ _ hdw xr hxr,
      ratio_of_cases _ _ hdh yr hyr, ?_⟩
    intro h w hh0 hh hw0 hw
    refine ⟨index_bounds xr ((W : Int) - 1) (destw - 1) w hxr0 hxb hw0 (by omega),
      index_bounds yr ((H : Int) - 1) (desth - 1) h hyr0 hyb hh0 (by omega), ?_⟩
    intro lum_map hlen hrows
    exact corners_in_bounds lum_map W H destw desth xr yr hlen hrows hxr0 hyr0 hxb hyb
      h w hh0 hh hw0 hw
  · obtain ⟨h1, h2, h3, h4⟩ := ratio_of_29_14
    refine ⟨h1, h2, ?_, ?_, h4⟩
    · rw [h2, h3]
      norm_num
    · have h13 : to_float ((13 : Int) : ℚ) = ((13 : Int) : ℚ) :=
        to_float_intCast 13 (by norm_num) (by norm_num)
      have h27 : to_float ((27 : Int) : ℚ) = ((27 : Int) : ℚ) :=
        to_float_intCast 27 (by norm_num) (by norm_num)
      have hq : to_float (((27 : Int) : ℚ) / ((13 : Int) : ℚ)) = 8711247 / 4194304 :=
        to_float_eval _ _ 8711247 (-22) (by norm_num) (by norm_num) (by norm_num)
          (by norm_num) (by norm_num)
      rw [ratio_eq 27 13 (by norm_num), h13, h27, hq]
  · have h3 : to_float ((3 : Int) : ℚ) = ((3 : Int) : ℚ) :=
      to_float_intCast 3 (by norm_num) (by norm_num)
    have h5 : to_float ((5 : Int) : ℚ) = ((5 : Int) : ℚ) :=
      to_float_intCast 5 (by norm_num) (by norm_num)
    have h0 : to_float (((5 : Int) : ℚ) / ((3 : Int) : ℚ)) = 13981013 / 8388608 :=
      to_float_eval _ _ 13981013 (-23) (by norm_num) (by norm_num) (by norm_num) (by norm_num)
        (by norm_num)
    have hp : to_float ((13981013 / 8388608 : ℚ) * ((3 : Int) : ℚ)) = 5 :=
      to_float_eval _ _ 10485760 (-21) (by norm_num) (by norm_num) (by norm_num) (by norm_num)
        (by norm_num)
    refine ⟨?_, ?_, ?_, ratio_of_6_4⟩
    · rw [ratio_eq 5 3 (by norm_num), h3, h5, h0]
    · rw [h3, hp]
    · rw [h3, hp, h5]
      norm_num

/-- Witness of C23 (amended): a 6 x 3 source and a 4 x 2 destination. -/
theorem source_indices_in_range_witness :
    (1 ≤ 6) ∧ (1 ≤ 3) ∧ (6 ≤ 2 ^ 24) ∧ (3 ≤ 2 ^ 24) ∧ ((2 : Int) ≤ 4) ∧ ((2 : Int) ≤ 2) ∧
    ∃ xratio yratio : ℚ,
      ratio_of ((6 : Nat) : Int) 4 = some xratio ∧ ratio_of ((3 : Nat) : Int) 2 = some yratio ∧
      0 ≤ xratio ∧ 0 ≤ yratio ∧
      (ratio (((6 : Nat) : Int) - 1) (4 - 1) = some xratio ∨
        ratio (((6 : Nat) : Int) - 1 - 1) (4 - 1) = some xratio) ∧
      (ratio (((3 : Nat) : Int) - 1) (2 - 1) = some yratio ∨
        ratio (((3 : Nat) : Int) - 1 - 1) (2 - 1) = some yratio) ∧
      ∀ h w : Int, 0 ≤ h → h < 2 → 0 ≤ w → w < 4 →
        (0 ≤ Int.floor (scaled_index xratio w) ∧
          Int.floor (scaled_index xratio w) ≤ Int.ceil (scaled_index xratio w) ∧
          Int.ceil (scaled_index xratio w) ≤ ((6 : Nat) : Int) - 1) ∧
        (0 ≤ Int.floor (scaled_index yratio h) ∧
          Int.floor (scaled_index yratio h) ≤ Int.ceil (scaled_index yratio h) ∧
          Int.ceil (scaled_index yratio h) ≤ ((3 : Nat) : Int) - 1) ∧
        ∀ lum_map : Grid, lum_map.length = 3 → (∀ row ∈ lum_map, row.length = 6) →
          ∃ v1 v2 v3 v4, corners lum_map xratio yratio h w = some (v1, v2, v3, v4) :=
  ⟨by decide, by decide, by norm_num, by norm_num, by decide, by decide,
   (source_indices_in_range 6 3 4 2 (by decide) (by decide) (by norm_num) (by norm_num)
     (by decide) (by decide)).1⟩

end AsciiArt
